import Mathlib

/-! # sfml-engine: a verification development

Shallow embedding of parts of the `ng` engine (scene registry and dispatch,
resource manager, scene tree, colliders, states and finite-state machine,
application loop, tileset) and of the `game` layer built on top of it (plant,
plant bullet, player, camera anchor, game manager), together with
machine-checked statements about their behaviour.

Conventions of the embedding:

* a raw pointer (`const Node*`, `const Camera*`) is the natural number of its
  address;
* `std::unordered_set<T>` is a `Finset`, `std::unordered_map<K, V>` is an
  association list whose keys are kept unique by `insert`;
* a `std::filesystem::path` is the string it was made from; two paths are equal,
  as keys of a map too, when they have the same elements, so that `a//b` and
  `a/b` are one key;
* `float` values are exact rationals;
* a member function that mutates `*this` takes the object and returns the new
  object; calls into code that is not part of the embedding are recorded as
  events of a trace;
* where a file of the engine is not among the sources at hand, the definition
  follows the written specification and says so.
-/

namespace sf

/-- Embeds `sf::Vector2f`, with the two `float` coordinates idealised as exact
rationals. -/
structure Vector2f where
  x : ℚ
  y : ℚ
deriving DecidableEq, Repr

namespace Vector2f

/-- Embeds `operator+` of two vectors. -/
def add (a b : Vector2f) : Vector2f := ⟨a.x + b.x, a.y + b.y⟩

/-- Embeds `operator*` of a vector and a scalar. -/
def scale (a : Vector2f) (k : ℚ) : Vector2f := ⟨a.x * k, a.y * k⟩

end Vector2f

end sf

namespace ng

/-! ## Scene: the registry of live nodes (`engine/scene.cc`) -/

/-- Address of a node (`const Node*`). -/
abbrev NodePtr := Nat

/-- A view of a camera (`sf::View`), kept abstract as an identifier. -/
abbrev View := Nat

/-- A camera as seen by the scene: its address and the view it renders. -/
structure Camera where
  addr : Nat
  view : View
deriving DecidableEq, Repr

/-- The part of `CameraManager` the scene reads: the cameras, in the order
`GetCameras()` yields them. -/
structure CameraManager where
  cameras : List Camera
deriving DecidableEq, Repr

namespace CameraManager

/-- Modelled from the spec: `CameraManager::GetCameras` (`engine/camera_manager.h`
is missing): the "Camera collection" of the scene, in order. -/
def GetCameras (cm : CameraManager) : List Camera := cm.cameras

end CameraManager

/-- A node of the scene tree (`engine/node.h` and `engine/node.cc` are not among
the sources at hand; the fields are the ones the spec lists and the sources
use): the address of the object, its name, its 64-bit layer mask, the
`pending-destroy` flag and the owned children in insertion order. -/
inductive Node where
  | mk (addr : NodePtr) (name_ : String) (layer_ : Nat) (pending_destroy_ : Bool)
      (children_ : List Node)
deriving Repr

namespace Node

/-- The address of the node. -/
def addr : Node → NodePtr
  | mk a _ _ _ _ => a

/-- Modelled from the spec: `Node::GetName` (`engine/node.cc` is missing): the
"string name". -/
def GetName : Node → String
  | mk _ n _ _ _ => n

/-- Modelled from the spec: `Node::GetLayer` (`engine/node.cc` is missing): the
"layer bitmask (64 bits)". -/
def GetLayer : Node → Nat
  | mk _ _ l _ _ => l

/-- The `pending-destroy` flag. -/
def pending_destroy_ : Node → Bool
  | mk _ _ _ p _ => p

/-- The children, in insertion order. -/
def children_ : Node → List Node
  | mk _ _ _ _ cs => cs

/-- Modelled from the spec: `Node::SetLayer` (`engine/node.cc` is missing): sets
the "layer bitmask (64 bits)". -/
def SetLayer : Node → Nat → Node
  | mk a n _ p cs, layer => mk a n layer p cs

/-- Modelled from the spec: `Node::SetName` (`engine/node.cc` is missing): sets
the "string name". -/
def SetName : Node → String → Node
  | mk a _ l p cs, name => mk a name l p cs

/-- Modelled from the spec: the constructor `Node(App&)` (`engine/node.cc` is
missing), at the address `std::make_unique<Node>` hands out: no name, no layer
bit, not marked, no children. -/
def new (addr : NodePtr) : Node :=
  mk addr "" 0 false []

mutual
/-- Modelled from the spec: `Node::Destroy` (`engine/node.cc` is missing), called
on the node at address `target` of the tree: "marks self (not children
explicitly, children inherit destruction transitively) for deferred removal". -/
def Destroy (target : NodePtr) : Node → Node
  | mk a n l p cs => mk a n l (p || a == target) (DestroyIn target cs)
/-- Marks `target` through a list of children. -/
def DestroyIn (target : NodePtr) : List Node → List Node
  | [] => []
  | c :: cs => Destroy target c :: DestroyIn target cs
end

mutual
/-- Modelled from the spec: the nodes linked into the tree, in the order the
update traversal reaches them (`Node::InternalUpdate`, `engine/node.cc` is
missing): "recurses depth-first into children after running this node's own
override", children in insertion order. The draw traversal goes in the same
order. Which of these nodes a tick visits is `traversal`. -/
def updateOrder : Node → List NodePtr
  | mk a _ _ _ cs => a :: updateOrderOf cs
/-- The nodes linked below a list of children, in traversal order. -/
def updateOrderOf : List Node → List NodePtr
  | [] => []
  | c :: cs => updateOrder c ++ updateOrderOf cs
end

mutual
/-- Modelled from the spec: the end of a tick (`engine/node.cc` is missing):
"the node and its entire subtree are unlinked", "after the full update pass
completes"; every child marked `pending-destroy` is dropped from its parent
with all that hangs below it. -/
def eraseDestroyed : Node → Node
  | mk a n l p cs => mk a n l p (eraseDestroyedIn cs)
/-- The end of a tick in a list of children. -/
def eraseDestroyedIn : List Node → List Node
  | [] => []
  | c :: cs =>
    if c.pending_destroy_ then eraseDestroyedIn cs
    else eraseDestroyed c :: eraseDestroyedIn cs
end

mutual
/-- The addresses of the node at `target` and of everything below it. -/
def subtree (target : NodePtr) : Node → List NodePtr
  | mk a _ _ _ cs => if a == target then a :: updateOrderOf cs else subtreeIn target cs
/-- The subtree of `target` within a list of children. -/
def subtreeIn (target : NodePtr) : List Node → List NodePtr
  | [] => []
  | c :: cs => subtree target c ++ subtreeIn target cs
end

mutual
/-- Whether every node at address `target` is marked `pending-destroy`. -/
def markedAt (target : NodePtr) : Node → Bool
  | mk a _ _ p cs => (a != target || p) && markedAtIn target cs
/-- Whether `target` is marked within a list of children. -/
def markedAtIn (target : NodePtr) : List Node → Bool
  | [] => true
  | c :: cs => markedAt target c && markedAtIn target cs
end

/-- Modelled from the spec: the end of a tick, seen from the root
(`engine/node.cc` is missing): "`Destroy()` marks the node and is deferred
until the end of the current tick, when the node and its entire subtree are
unlinked, given an on-destroy notification (leaf-first), unregistered from the
Scene's validity set, and released". When the root itself is marked, the whole
tree goes and nothing is left (`none`); otherwise the marked nodes below it
go. -/
def endOfTick (t : Node) : Option Node :=
  if t.pending_destroy_ then none else some t.eraseDestroyed

/-- Modelled from the spec: one tick of the tree (`engine/node.cc` is missing):
the update pass, during which `Destroy()` is called on the nodes at `calls` (in
this order, repeats allowed), then the end of the tick. The result is the tree
the next tick starts with, `none` when nothing is left. -/
def tick (t : Node) (calls : List NodePtr) : Option Node :=
  (calls.foldl (fun tree target => Destroy target tree) t).endOfTick

/-- Ticks one after the other, each with its own `Destroy()` calls, from what
an earlier tick left. -/
def ticks (t : Option Node) (callsPerTick : List (List NodePtr)) : Option Node :=
  callsPerTick.foldl (fun tree calls => tree.bind (fun t1 => tick t1 calls)) t

/-- Modelled from the spec: the nodes the update/draw traversal of a tick
visits, given what the tick before left (`engine/node.cc` is missing): every
node still linked into the tree, in the order of `updateOrder`, and none when
nothing is left. So "a node is never traversed for update/draw while marked
`pending-destroy` from a prior tick": the end of that tick has unlinked it. -/
def traversal : Option Node → List NodePtr
  | none => []
  | some t => t.updateOrder

end Node

/-- A small tree: the root 0 with the children 1, 2 and 4; node 2 has the
child 3. -/
def exampleTree : Node :=
  Node.mk 0 "SceneRoot" (2 ^ 64 - 1) false
    [Node.mk 1 "Plant" 1 false [],
     Node.mk 2 "PlantBullet" 1 false [Node.mk 3 "CircleCollider" 1 false []],
     Node.mk 4 "Player" 1 false []]

/-- The calls `Scene::InternalUpdate` and `Scene::InternalDraw` make on the root
node and on the render target: the update traversal of the root, `setView` on
the target, and the draw traversal of the root for a camera, with the view the
target has at the moment of the call. -/
inductive SceneEvent where
  | rootInternalUpdate (root : NodePtr)
  | setView (view : View)
  | rootInternalDraw (root : NodePtr) (camera : Nat) (view : View)
deriving DecidableEq, Repr

/-- The part of an `sf::RenderTarget` the scene sets: the current view. -/
structure RenderTarget where
  view : View
deriving DecidableEq, Repr

/-- Embeds `sf::RenderTarget::setView`. -/
def RenderTarget.setView (target : RenderTarget) (view : View) : RenderTarget :=
  { target with view := view }

/-- The members of `ng::Scene`. -/
structure Scene where
  name_ : String
  root_ : Node
  camera_manager_ : CameraManager
  scene_nodes_ : Finset NodePtr

namespace Scene

/-- Embeds `Scene::Scene(App&)`: the root is created with every layer bit set
(`static_cast<Layer>(~0ULL)`) and the name `"SceneRoot"`; the other members are
default-constructed. `rootAddr` is the address `std::make_unique<Node>` hands
out. -/
def new (rootAddr : NodePtr) : Scene :=
  { name_ := ""
    root_ := ((Node.new rootAddr).SetLayer (2 ^ 64 - 1)).SetName "SceneRoot"
    camera_manager_ := { cameras := [] }
    scene_nodes_ := ∅ }

/-- Embeds `Scene::IsValid`: `return scene_nodes_.contains(node);`. A `const` member:
it yields a value and no new scene. -/
def IsValid (s : Scene) (node : NodePtr) : Bool :=
  decide (node ∈ s.scene_nodes_)

/-- Embeds `Scene::RegisterNode`: `scene_nodes_.insert(node);`. -/
def RegisterNode (s : Scene) (node : NodePtr) : Scene :=
  { s with scene_nodes_ := insert node s.scene_nodes_ }

/-- Embeds `Scene::UnregisterNode`: `scene_nodes_.erase(node);`. -/
def UnregisterNode (s : Scene) (node : NodePtr) : Scene :=
  { s with scene_nodes_ := s.scene_nodes_.erase node }

/-- Embeds `Scene::InternalUpdate`: `root_->InternalUpdate();`. The call into the root
is recorded at the end of the trace. -/
def InternalUpdate (s : Scene) (trace : List SceneEvent) : List SceneEvent :=
  trace ++ [SceneEvent.rootInternalUpdate s.root_.addr]

/-- Embeds `Scene::InternalDraw`: for each camera of `GetCameras()`, in order,
`target.setView(camera->GetView());` and then
`root_->InternalDraw(*camera, target);`. The result is the render target and
the trace afterwards. -/
def InternalDraw (s : Scene) (target : RenderTarget) (trace : List SceneEvent) :
    RenderTarget × List SceneEvent :=
  s.camera_manager_.GetCameras.foldl
    (fun state camera =>
      let target1 := state.1.setView camera.view
      (target1,
        state.2 ++ [SceneEvent.setView camera.view,
          SceneEvent.rootInternalDraw s.root_.addr camera.addr target1.view]))
    (target, trace)

end Scene

/-- What `Scene::InternalDraw` is to do for a list of cameras, stated on the
cameras alone: for each camera in order, its view is set and then the root is
drawn for that camera under that view. -/
def expectedDraws (root : NodePtr) : List Camera → List SceneEvent
  | [] => []
  | camera :: rest =>
    SceneEvent.setView camera.view ::
      SceneEvent.rootInternalDraw root camera.addr camera.view :: expectedDraws root rest

/-- Whether an event is a call of the draw traversal of the root. -/
def SceneEvent.isDraw : SceneEvent → Bool
  | SceneEvent.rootInternalDraw _ _ _ => true
  | _ => false

/-- Whether an event is a call of the update traversal of the root. -/
def SceneEvent.isUpdate : SceneEvent → Bool
  | SceneEvent.rootInternalUpdate _ => true
  | _ => false

/-- One call on the registry of a scene: `RegisterNode`, `UnregisterNode`, or
the query `IsValid`. -/
inductive RegistryCall where
  | register (node : NodePtr)
  | unregister (node : NodePtr)
  | query (node : NodePtr)
deriving DecidableEq, Repr

namespace RegistryCall

/-- Whether the call is a `RegisterNode` or an `UnregisterNode` of `n`. -/
def names (n : NodePtr) : RegistryCall → Bool
  | register m => m == n
  | unregister m => m == n
  | query _ => false

/-- Performs the call on a scene. `IsValid` is `const`: its result is dropped
here and the scene is handed on as it is. -/
def apply (s : Scene) : RegistryCall → Scene
  | register n => s.RegisterNode n
  | unregister n => s.UnregisterNode n
  | query _ => s

/-- Performs a sequence of calls, oldest first. -/
def run (s : Scene) (calls : List RegistryCall) : Scene :=
  calls.foldl apply s

/-- The most recent `RegisterNode`/`UnregisterNode` call of the sequence that
names `n`, if any: stated on the history of calls alone, without reference to
the registry. -/
def lastNaming (n : NodePtr) (calls : List RegistryCall) : Option RegistryCall :=
  calls.reverse.find? (names n)

/-- What the history of calls says about `n`: registered when the most recent
call naming `n` is `RegisterNode(n)`, not registered when it is
`UnregisterNode(n)`, and `before` when no call names `n`. -/
def expected (before : Bool) (n : NodePtr) (calls : List RegistryCall) : Bool :=
  match lastNaming n calls with
  | some (register _) => true
  | some _ => false
  | none => before

end RegistryCall

/-! ## ResourceManager (`engine/resource_manager.h`, `engine/resource_manager.cc`) -/

/-- A `std::filesystem::path`, held as the string `string()` returns. Two paths
are the same key of a map when `Path.equal` holds, not when the strings are
the same. -/
abbrev Path := String

/-- Whether a path is absolute (POSIX): it starts with the separator. -/
def Path.isAbsolute (p : Path) : Bool :=
  p.data.head? == some '/'

/-- Embeds `operator/` of `std::filesystem::path` (POSIX): an absolute right operand
replaces the left one; otherwise the right operand is appended, after a
separator when the left operand has a filename, i.e. is non-empty and does not
end in a separator. -/
def Path.join (p q : Path) : Path :=
  if Path.isAbsolute q then q
  else if p.data.getLast? == none || p.data.getLast? == some '/' then p ++ q
  else p ++ "/" ++ q

/-- The pieces of a pathname between its separators, the empty ones included:
`a//b/` gives `a`, the empty piece, `b` and the empty piece. -/
def Path.pieces : List Char → List (List Char)
  | [] => [[]]
  | c :: cs =>
    if c = '/' then [] :: Path.pieces cs
    else
      match Path.pieces cs with
      | [] => [[c]]
      | n :: ns => (c :: n) :: ns

/-- The elements a `std::filesystem::path` iterates over (POSIX, where there is
no root name): the root directory `/` when the pathname starts with a
separator, then the filenames, and an empty last element when a separator
follows the last filename. A run of separators counts as one separator; the
filenames `.` and `..` are elements like any other. -/
def Path.elements (p : Path) : List (List Char) :=
  let filenames := (Path.pieces p.data).filter (fun n => !n.isEmpty)
  (if Path.isAbsolute p then [['/']] else [])
    ++ filenames
    ++ (if p.data.getLast? == some '/' && !filenames.isEmpty then [[]] else [])

/-- Embeds `operator==` of `std::filesystem::path`, which is `compare(...) == 0`:
the two paths have the same elements, so `a//b` equals `a/b`. The
`std::hash` of a path agrees with it, so this is the equality of the keys of an
`unordered_map`. -/
def Path.equal (p q : Path) : Bool :=
  p.elements == q.elements

/-- A loaded resource object (`sf::Texture`, `sf::SoundBuffer`, `sf::Font`):
the address of the heap object the `std::unique_ptr` owns, and what was decoded
from the file. Two references denote the very same object exactly when the
addresses agree. -/
structure Resource where
  addr : Nat
  payload : Nat
deriving DecidableEq, Repr

/-- What the three SFML constructors find on disk: for each kind of resource,
the decoded content of the file at a path, or `none` when the file is missing
or does not decode (the constructor throws). -/
structure Disk where
  font : Path → Option Nat
  texture : Path → Option Nat
  sound_buffer : Path → Option Nat

/-- The world outside the resource manager: the next free heap address, and the
log of the files the SFML constructors have opened, oldest first. -/
structure World where
  next_addr : Nat
  opened : List Path
deriving DecidableEq, Repr

/-- The construction `std::make_unique<T>(full_path)`: the file is opened
(logged); when it decodes a new heap object is returned, otherwise the
constructor throws (`none`). -/
def World.makeUnique (decode : Path → Option Nat) (w : World) (full_path : Path) :
    Option Resource × World :=
  match decode full_path with
  | none => (none, { w with opened := w.opened ++ [full_path] })
  | some payload =>
    (some { addr := w.next_addr, payload := payload },
      { next_addr := w.next_addr + 1, opened := w.opened ++ [full_path] })

/-- A `std::unordered_map<std::filesystem::path, std::unique_ptr<T>>`: its
entries. -/
abbrev Cache := List (Path × Resource)

namespace Cache

/-- Embeds `unordered_map::contains`: some entry has a key equal, as a path, to
the one asked for. -/
def contains (m : Cache) (key : Path) : Bool :=
  m.any (fun e => Path.equal e.1 key)

/-- Embeds `unordered_map::insert`: nothing is inserted when the key is present. -/
def insert (m : Cache) (key : Path) (value : Resource) : Cache :=
  if m.contains key then m else m ++ [(key, value)]

/-- Embeds `unordered_map::at`: the mapped value; throws (`none`) when the key is
absent. -/
def at_ (m : Cache) (key : Path) : Option Resource :=
  (m.find? (fun e => Path.equal e.1 key)).map (fun e => e.2)

/-- The number of entries stored under a key. -/
def entries (m : Cache) (key : Path) : Nat :=
  m.countP (fun e => Path.equal e.1 key)

/-- The invariant of an `unordered_map`: no two entries have equal keys. -/
def WF (m : Cache) : Prop :=
  m.Pairwise (fun a b => Path.equal a.1 b.1 = false)

end Cache

/-- The members of `ng::ResourceManager`. -/
structure ResourceManager where
  textures_ : Cache
  sound_buffers_ : Cache
  fonts_ : Cache
deriving DecidableEq, Repr

namespace ResourceManager

/-- Embeds `ResourceManager::kPrefix_`. -/
def kPrefix_ : Path := "resources/"

/-- Embeds `ResourceManager() = default`: three empty caches. -/
def new : ResourceManager :=
  { textures_ := [], sound_buffers_ := [], fonts_ := [] }

/-- Embeds `ResourceManager::LoadFont`. The result is the object returned (`none`
when an exception leaves the function), the manager and the world
afterwards. -/
def LoadFont (disk : Disk) (rm : ResourceManager) (w : World) (filename : Path) :
    Option Resource × ResourceManager × World :=
  let full_path := Path.join kPrefix_ filename
  if !rm.fonts_.contains full_path then
    match w.makeUnique disk.font full_path with
    | (none, w1) => (none, rm, w1)
    | (some font, w1) =>
      let rm1 := { rm with fonts_ := rm.fonts_.insert full_path font }
      (rm1.fonts_.at_ full_path, rm1, w1)
  else
    (rm.fonts_.at_ full_path, rm, w)

/-- Embeds `ResourceManager::LoadTexture`. -/
def LoadTexture (disk : Disk) (rm : ResourceManager) (w : World) (filename : Path) :
    Option Resource × ResourceManager × World :=
  let full_path := Path.join kPrefix_ filename
  if !rm.textures_.contains full_path then
    match w.makeUnique disk.texture full_path with
    | (none, w1) => (none, rm, w1)
    | (some texture, w1) =>
      let rm1 := { rm with textures_ := rm.textures_.insert full_path texture }
      (rm1.textures_.at_ full_path, rm1, w1)
  else
    (rm.textures_.at_ full_path, rm, w)

/-- Embeds `ResourceManager::LoadSoundBuffer`. -/
def LoadSoundBuffer (disk : Disk) (rm : ResourceManager) (w : World) (filename : Path) :
    Option Resource × ResourceManager × World :=
  let full_path := Path.join kPrefix_ filename
  if !rm.sound_buffers_.contains full_path then
    match w.makeUnique disk.sound_buffer full_path with
    | (none, w1) => (none, rm, w1)
    | (some sound_buffer, w1) =>
      let rm1 := { rm with sound_buffers_ := rm.sound_buffers_.insert full_path sound_buffer }
      (rm1.sound_buffers_.at_ full_path, rm1, w1)
  else
    (rm.sound_buffers_.at_ full_path, rm, w)

/-- The invariant of the three maps. -/
def WF (rm : ResourceManager) : Prop :=
  rm.textures_.WF ∧ rm.sound_buffers_.WF ∧ rm.fonts_.WF

/-- The three kinds of resource, to speak of the three loaders at once. -/
inductive Kind where
  | texture
  | soundBuffer
  | font
deriving DecidableEq, Repr

/-- The loader of a kind: `LoadTexture`, `LoadSoundBuffer` or `LoadFont`. -/
def Load : Kind → Disk → ResourceManager → World → Path →
    Option Resource × ResourceManager × World
  | Kind.texture => LoadTexture
  | Kind.soundBuffer => LoadSoundBuffer
  | Kind.font => LoadFont

/-- The cache of a kind: `textures_`, `sound_buffers_` or `fonts_`. -/
def cache (rm : ResourceManager) : Kind → Cache
  | Kind.texture => rm.textures_
  | Kind.soundBuffer => rm.sound_buffers_
  | Kind.font => rm.fonts_

/-- Calls a loader `n` more times with the same filename, each time on the
manager and world the previous call left, and collects the objects
returned. -/
def again (load : ResourceManager → World → Path → Option Resource × ResourceManager × World)
    (filename : Path) : Nat → ResourceManager → World →
      List (Option Resource) × ResourceManager × World
  | 0, rm, w => ([], rm, w)
  | n + 1, rm, w =>
    let r := load rm w filename
    let rest := again load filename n r.2.1 r.2.2
    (r.1 :: rest.1, rest.2.1, rest.2.2)

end ResourceManager

/-- A disk on which no file can be opened. -/
def emptyDisk : Disk :=
  { font := fun _ => none, texture := fun _ => none, sound_buffer := fun _ => none }

/-- A disk holding one texture, one sound and one font. -/
def exampleDisk : Disk :=
  { font := fun p => if p = "resources/arial.ttf" then some 1 else none
    texture := fun p => if p = "resources/Plant/Bullet.png" then some 2 else none
    sound_buffer := fun p => if p = "resources/Win_2.wav" then some 3 else none }

/-! ## Colliders (`engine/circle_collider.h`; `engine/circle_collider.cc`,
`engine/rectangle_collider.h`, `engine/rectangle_collider.cc` and
`engine/collider.h` are not among the sources at hand) -/

/-- Embeds `ng::CircleCollider`: the world position of the centre, as read from the
owning node at query time, and `radius_`. -/
structure CircleCollider where
  position : sf.Vector2f
  radius_ : ℚ
deriving DecidableEq, Repr

/-- Modelled from the spec: `ng::RectangleCollider` (`engine/rectangle_collider.h`
is missing): the world position of the centre, as read from the owning node at
query time, and the full size (`GetSize() / 2` is the half-extent in
`player.cc`). -/
structure RectangleCollider where
  position : sf.Vector2f
  size_ : sf.Vector2f
deriving DecidableEq, Repr

/-- The square of the distance of two points. -/
def distanceSquared (a b : sf.Vector2f) : ℚ :=
  (a.x - b.x) ^ 2 + (a.y - b.y) ^ 2

/-- Embeds `std::clamp(v, lo, hi)`. -/
def clamp (v lo hi : ℚ) : ℚ :=
  if v < lo then lo else if hi < v then hi else v

/-- The point of a rectangle closest to `p`: `p` clamped to the rectangle on
both axes. -/
def RectangleCollider.closestPoint (r : RectangleCollider) (p : sf.Vector2f) : sf.Vector2f :=
  ⟨clamp p.x (r.position.x - r.size_.x / 2) (r.position.x + r.size_.x / 2),
   clamp p.y (r.position.y - r.size_.y / 2) (r.position.y + r.size_.y / 2)⟩

namespace CircleCollider

/-- Embeds `CircleCollider::GetRadius` (declared in `engine/circle_collider.h`:
"returns the radius of the collider"). -/
def GetRadius (c : CircleCollider) : ℚ := c.radius_

/-- Modelled from the spec: `CircleCollider::Collides(const CircleCollider&)`
(`engine/circle_collider.cc` is missing): "circle-circle via
squared-distance-vs-sum-of-radii", boundary included. -/
def CollidesCircle (self other : CircleCollider) : Bool :=
  decide (distanceSquared self.position other.position
    ≤ (self.GetRadius + other.GetRadius) ^ 2)

/-- Modelled from the spec: `CircleCollider::Collides(const RectangleCollider&)`
(`engine/circle_collider.cc` is missing): "circle-rectangle via closest-point
clamp": the point of the rectangle closest to the centre is within the
radius. -/
def CollidesRectangle (self : CircleCollider) (other : RectangleCollider) : Bool :=
  decide (distanceSquared self.position (other.closestPoint self.position)
    ≤ self.GetRadius ^ 2)

end CircleCollider

namespace RectangleCollider

/-- Modelled from the spec: `RectangleCollider::Collides(const CircleCollider&)`
(`engine/rectangle_collider.cc` is missing): "circle-rectangle via
closest-point clamp", from the side of the rectangle: its point closest to the
centre of the circle is within the radius. -/
def CollidesCircle (self : RectangleCollider) (other : CircleCollider) : Bool :=
  decide (distanceSquared (self.closestPoint other.position) other.position
    ≤ other.GetRadius ^ 2)

/-- Modelled from the spec:
`RectangleCollider::Collides(const RectangleCollider&)`
(`engine/rectangle_collider.cc` is missing): "rectangle-rectangle via
axis-aligned-bounding-box overlap", boundary included. -/
def CollidesRectangle (self other : RectangleCollider) : Bool :=
  decide (self.position.x - self.size_.x / 2 ≤ other.position.x + other.size_.x / 2) &&
  decide (other.position.x - other.size_.x / 2 ≤ self.position.x + self.size_.x / 2) &&
  decide (self.position.y - self.size_.y / 2 ≤ other.position.y + other.size_.y / 2) &&
  decide (other.position.y - other.size_.y / 2 ≤ self.position.y + self.size_.y / 2)

end RectangleCollider

/-- A `Collider` by its dynamic type: the closed set of variants. -/
inductive Collider where
  | circle (c : CircleCollider)
  | rectangle (r : RectangleCollider)
deriving DecidableEq, Repr

namespace Collider

/-- The virtual `Collides(const CircleCollider&)`, resolved on the dynamic type
of `self`. -/
def CollidesCircle (self : Collider) (other : CircleCollider) : Bool :=
  match self with
  | circle c => c.CollidesCircle other
  | rectangle r => r.CollidesCircle other

/-- The virtual `Collides(const RectangleCollider&)`, resolved on the dynamic
type of `self`. -/
def CollidesRectangle (self : Collider) (other : RectangleCollider) : Bool :=
  match self with
  | circle c => c.CollidesRectangle other
  | rectangle r => r.CollidesRectangle other

/-- Modelled from the spec: the virtual `Collides(const Collider&)`
(`engine/circle_collider.cc` and `engine/rectangle_collider.cc` are missing):
"a first virtual call resolves the caller's dynamic type by re-invoking a
type-specific overload on `other`, which resolves the callee's dynamic type",
i.e. `return other.Collides(*this);`. -/
def Collides (self other : Collider) : Bool :=
  match self with
  | circle c => other.CollidesCircle c
  | rectangle r => other.CollidesRectangle r

end Collider

/-! ## States and the finite-state machine (`engine/state.h`; `engine/fsm.h` and
`engine/transition.h` are not among the sources at hand) -/

/-- Embeds `ng::State<TContext>` (`engine/state.h`): the ID, the pointer to the
context (`none` is `nullptr`), and the three virtual hooks. A hook is given by
what it does to the context value the machine operates on. -/
structure State (C : Type) where
  id_ : String
  context_ : Option Nat
  OnEnter : C → C
  Update : C → C
  OnExit : C → C

namespace State

/-- Embeds `State::State(ID id)` of a class that overrides no hook: `id_(std::move(id))`,
`context_ = nullptr`, and the hooks of the base class, which are empty. -/
def new {C : Type} (id : String) : State C :=
  { id_ := id, context_ := none, OnEnter := fun c => c, Update := fun c => c,
    OnExit := fun c => c }

/-- Embeds `State::GetID`. -/
def GetID {C : Type} (st : State C) : String := st.id_

/-- Embeds `State::GetContext`. -/
def GetContext {C : Type} (st : State C) : Option Nat := st.context_

/-- Embeds `State::SetContext`. -/
def SetContext {C : Type} (st : State C) (context : Option Nat) : State C :=
  { st with context_ := context }

/-- Embeds `State& operator=(const State& other) = default` and
`State& operator=(State&& other) = default`, as their target sees them:
memberwise, `id_` and `context_` become those of `other` (`id_` is not
`const`). The hooks are virtual functions of the class of the object, which an
assignment does not change. -/
def assign {C : Type} (st other : State C) : State C :=
  { st with id_ := other.id_, context_ := other.context_ }

/-- Embeds what `State(State&& other) = default` and the defaulted move assignment
leave in their source `other`: `id_` is a moved-from `std::string`, valid but
unspecified (`left`); the pointer `context_` is copied and stays. -/
def movedFrom {C : Type} (st : State C) (left : String) : State C :=
  { st with id_ := left }

end State

/-- Modelled from the spec: `ng::Transition` (`engine/transition.h` is missing):
"an ordered pair (from-ID, to-ID) plus a guard predicate over the context". -/
structure Transition (C : Type) where
  from_ : String
  to_ : String
  guard : C → Bool

/-- Modelled from the spec: the members of `ng::FSM` (`engine/fsm.h` is
missing): "owns the set of states (by unique ID), the ordered list of
transitions, and tracks exactly one current state", over a shared context
value. `context_ptr` is the address of the context the states are pointed
at. -/
structure FSM (C : Type) where
  context_ptr : Nat
  context_ : C
  states_ : List (State C)
  transitions_ : List (Transition C)
  current_state_ : String

namespace FSM

/-- The state registered under an ID, if any. -/
def findState {C : Type} (fsm : FSM C) (id : String) : Option (State C) :=
  fsm.states_.find? (fun st => st.GetID == id)

/-- Modelled from the spec: the constructor of `ng::FSM` (`engine/fsm.h` is
missing): "the FSM always starts in the state supplied at construction"; the
state gets its back-reference to the shared context. -/
def new {C : Type} (context_ptr : Nat) (context : C) (initial : State C) : FSM C :=
  { context_ptr := context_ptr
    context_ := context
    states_ := [initial.SetContext (some context_ptr)]
    transitions_ := []
    current_state_ := initial.GetID }

/-- Modelled from the spec: `FSM::AddState` (`engine/fsm.h` is missing):
"registers a state by its ID; duplicate IDs are a caller error" (`none`). -/
def AddState {C : Type} (fsm : FSM C) (st : State C) : Option (FSM C) :=
  match fsm.findState st.GetID with
  | some _ => none
  | none => some { fsm with states_ := fsm.states_ ++ [st.SetContext (some fsm.context_ptr)] }

/-- Modelled from the spec: `FSM::AddTransition` (`engine/fsm.h` is missing):
"appends to the transition list; no validation that referenced IDs exist until
evaluation time". -/
def AddTransition {C : Type} (fsm : FSM C) (t : Transition C) : FSM C :=
  { fsm with transitions_ := fsm.transitions_ ++ [t] }

/-- Whether a transition leaves the state `id` and its guard holds on `ctx`. -/
def enabled {C : Type} (id : String) (ctx : C) (t : Transition C) : Bool :=
  t.from_ == id && t.guard ctx

/-- Modelled from the spec: `FSM::Update` (`engine/fsm.h` is missing): "runs
the current state's per-tick update hook, then scans transitions whose `from`
equals the current state ID, in registration order, and applies the first whose
guard evaluates true. On a match: current state's exit hook fires, new state's
enter hook fires, current state pointer switches. If no transition matches, the
FSM remains in the current state for that tick." A state ID that is not
registered is found at evaluation time and is an error (`none`). -/
def Update {C : Type} (fsm : FSM C) : Option (FSM C) :=
  match fsm.findState fsm.current_state_ with
  | none => none
  | some current =>
    let ctx := current.Update fsm.context_
    match fsm.transitions_.find? (enabled fsm.current_state_ ctx) with
    | none => some { fsm with context_ := ctx }
    | some t =>
      match fsm.findState t.to_ with
      | none => none
      | some next =>
        some { fsm with context_ := next.OnEnter (current.OnExit ctx), current_state_ := t.to_ }

/-- The ID of the current state after one `Update`, if the update succeeds. -/
def stateAfterUpdate {C : Type} (fsm : FSM C) : Option String :=
  (fsm.Update).map (fun f => f.current_state_)

end FSM

/-- A machine with the states `"A"`, `"B"`, `"C"` over a counter that the exit
hook of `"A"` raises by 1 and the enter hook of `"B"` by 10, and with the
transitions `A -> B`, `A -> C`, `B -> C`, all of whose guards hold. -/
def abcMachine : FSM Nat :=
  { context_ptr := 0
    context_ := 0
    states_ :=
      [{ State.new "A" with OnExit := fun c => c + 1 },
       { State.new "B" with OnEnter := fun c => c + 10 },
       State.new "C"]
    transitions_ :=
      [⟨"A", "B", fun _ => true⟩, ⟨"A", "C", fun _ => true⟩, ⟨"B", "C", fun _ => true⟩]
    current_state_ := "A" }

/-- A machine in `"A"` with the states `"A"`, `"B"`, `"C"`, `"D"` and the
transitions `A -> D`, `A -> B`, `A -> C`, in this order, all of whose guards
hold: `A -> B` is registered before `A -> C`, and `A -> D` before both. -/
def adbMachine : FSM Nat :=
  { context_ptr := 0
    context_ := 0
    states_ := [State.new "A", State.new "B", State.new "C", State.new "D"]
    transitions_ :=
      [⟨"A", "D", fun _ => true⟩, ⟨"A", "B", fun _ => true⟩, ⟨"A", "C", fun _ => true⟩]
    current_state_ := "A" }

/-! ## The application loop (`engine/app.h`; `engine/app.cc` is not among the
sources at hand) -/

/-- What the loop does to scenes, as seen from outside: a scene is named by the
address of the `Scene` object. -/
inductive AppEvent where
  | sceneOnDestroy (scene : Nat)
  | sceneOnAdd (scene : Nat)
  | nodeUpdated (scene : Nat)
  | sceneDrawn (scene : Nat)
deriving DecidableEq, Repr

/-- The scene members of `ng::App` (`engine/app.h`), and the trace of what the
loop has done to scenes so far, oldest first. -/
structure App where
  scene_ : Option Nat
  scheduled_scene_to_load_ : Option Nat
  is_scene_unloading_scheduled_ : Bool
  trace : List AppEvent
deriving DecidableEq, Repr

/-- What can happen between the start of an iteration of the loop and its
render pass: a node of the active scene is updated, or the code of a node calls
`LoadScene` or `UnloadScene`. -/
inductive LoopStep where
  | nodeUpdate
  | loadScene (scene : Nat)
  | unloadScene
deriving DecidableEq, Repr

namespace App

/-- Modelled from the spec: `App::UnloadScene` (`engine/app.cc` is missing):
"a load or unload request made during a tick is recorded, not applied"; the
request is recorded in `is_scene_unloading_scheduled_`. -/
def UnloadScene (app : App) : App :=
  { app with is_scene_unloading_scheduled_ := true }

/-- Modelled from the spec: `App::LoadScene` (`engine/app.cc` is missing):
"replaces the active scene (deferred)"; the request is recorded in
`scheduled_scene_to_load_`, and "the old scene (if any) will be unloaded in the
next frame" (`engine/app.h`). -/
def LoadScene (app : App) (scene : Nat) : App :=
  { app.UnloadScene with scheduled_scene_to_load_ := some scene }

/-- Modelled from the spec: the start of an iteration of `App::Run`
(`engine/app.cc` is missing): "any scheduled unload triggers the old scene's
on-destroy traversal and release, then any scheduled load swaps in the new
scene and fires its on-add traversal". -/
def applyScheduled (app : App) : App :=
  let app1 : App :=
    if app.is_scene_unloading_scheduled_ then
      match app.scene_ with
      | some old =>
        { app with scene_ := none, is_scene_unloading_scheduled_ := false,
                   trace := app.trace ++ [AppEvent.sceneOnDestroy old] }
      | none => { app with is_scene_unloading_scheduled_ := false }
    else app
  match app1.scheduled_scene_to_load_ with
  | some scene =>
    { app1 with scene_ := some scene, scheduled_scene_to_load_ := none,
                trace := app1.trace ++ [AppEvent.sceneOnAdd scene] }
  | none => app1

/-- One step between the start of an iteration and its render pass: a node
update is an update of a node of the scene that is active at that moment. -/
def step (app : App) : LoopStep → App
  | LoopStep.nodeUpdate =>
    match app.scene_ with
    | some scene => { app with trace := app.trace ++ [AppEvent.nodeUpdated scene] }
    | none => app
  | LoopStep.loadScene scene => app.LoadScene scene
  | LoopStep.unloadScene => app.UnloadScene

/-- Modelled from the spec: the render pass of an iteration (`engine/app.cc` is
missing): "after tick processing, performs exactly one render pass", which
draws the active scene. -/
def render (app : App) : App :=
  match app.scene_ with
  | some scene => { app with trace := app.trace ++ [AppEvent.sceneDrawn scene] }
  | none => app

/-- The rest of an iteration after its start: the steps of its ticks, then the
render pass. -/
def finishIteration (app : App) (steps : List LoopStep) : App :=
  (steps.foldl step app).render

/-- One iteration of the loop: scheduled swaps, ticks, render. -/
def iteration (app : App) (steps : List LoopStep) : App :=
  app.applyScheduled.finishIteration steps

/-- Iterations one after the other. -/
def run (app : App) (iterations : List (List LoopStep)) : App :=
  iterations.foldl iteration app

/-- Modelled from the spec: `App::SecondsPerTick` (`engine/app.cc` is missing):
the "fixed logic-tick interval" of a loop run at `tps` ticks per second, in
seconds, as an exact rational. -/
def SecondsPerTick (tps : Nat) : ℚ := 1 / (tps : ℚ)

/-- Modelled from the spec: `App::NanosecondsPerTick` (`engine/app.cc` is
missing): the same interval in whole nanoseconds. -/
def NanosecondsPerTick (tps : Nat) : Nat := 1000000000 / tps

/-- Modelled from the spec: the tick loop of one iteration of `App::Run`
(`engine/app.cc` is missing): "while accumulated time ≥ one tick interval,
consumes one tick interval and runs exactly one logic update". `interval` and
`accumulated` are in one unit of time, `ticks` counts the logic updates run so
far. The result is the number of logic updates and the time carried over;
`none` when the loop has not ended within `fuel` rounds. -/
def tickLoop (interval : ℚ) : Nat → ℚ → Nat → Option (Nat × ℚ)
  | 0, accumulated, ticks =>
    if accumulated ≥ interval then none else some (ticks, accumulated)
  | fuel + 1, accumulated, ticks =>
    if accumulated ≥ interval then tickLoop interval fuel (accumulated - interval) (ticks + 1)
    else some (ticks, accumulated)

/-- Modelled from the spec: the time accounting of one iteration of `App::Run`
(`engine/app.cc` is missing): "accumulates real elapsed time since the previous
iteration", then runs the tick loop; the render pass follows. -/
def ticksBeforeRender (interval : ℚ) (fuel : Nat) (carry elapsed : ℚ) : Option (Nat × ℚ) :=
  tickLoop interval fuel (carry + elapsed) 0

end App

end ng

namespace game

/-! ## The animators of `Plant` and `Player` (`game/plant.cc`, `game/player.cc`) -/

namespace Plant

/-- Embeds `Plant::Context`: what the guards of the plant animator read. -/
structure Context where
  is_dead : Bool
  is_attacking : Bool
deriving DecidableEq, Repr

/-- Embeds `Plant::IdleState`: `OnEnter` starts and `Update` advances an animation on
which no callback is registered; the context is not touched. -/
def IdleState (id : String) : ng.State Context :=
  ng.State.new id

/-- Embeds `Plant::AttackState`: `Update` advances the animation, whose end callback
clears `is_attacking`. When the animation ends is decided by
`SpriteSheetAnimation`, which is not among the sources: `animation_ends` says
whether this update is the one. -/
def AttackState (id : String) (animation_ends : Bool) : ng.State Context :=
  { ng.State.new id with
    Update := fun c => if animation_ends then { c with is_attacking := false } else c }

/-- Embeds `Plant::HitState`: `OnEnter` starts the animation and plays the sound,
`Update` advances the animation (whose end callback destroys the plant); the
context is not touched. -/
def HitState (id : String) : ng.State Context :=
  ng.State.new id

/-- The animator as `Plant::Plant` builds it: initial state `"idle"`, then the
states `"attack"` and `"hit"`, then the four transitions in the order of the
`AddTransition` calls. `none` when an `AddState` fails. -/
def animator (context_ptr : Nat) (context : Context) (animation_ends : Bool) :
    Option (ng.FSM Context) :=
  ((ng.FSM.new context_ptr context (IdleState "idle")).AddState
      (AttackState "attack" animation_ends)).bind fun fsm1 =>
  (fsm1.AddState (HitState "hit")).map fun fsm2 =>
  (((fsm2.AddTransition ⟨"idle", "hit", fun c => c.is_dead⟩).AddTransition
      ⟨"idle", "attack", fun c => c.is_attacking⟩).AddTransition
      ⟨"attack", "idle", fun c => !c.is_attacking⟩).AddTransition
      ⟨"attack", "hit", fun c => c.is_dead⟩

end Plant

namespace Player

/-- The members of `Player` the guards of its animator capture by reference:
`velocity_` (the two coordinates, as exact rationals), `is_on_ground_` and
`is_dead_`. -/
structure Context where
  velocity_x : ℚ
  velocity_y : ℚ
  is_on_ground_ : Bool
  is_dead_ : Bool
deriving DecidableEq, Repr

/-- The five states of the player animator (`IdleState`, `RunState`,
`JumpState`, `FallState`, `HitState`): their hooks start or advance an
animation or play a sound and write none of the members the guards read. -/
def AnimationState (id : String) : ng.State Context :=
  ng.State.new id

/-- The animator as `Player::Player` builds it: initial state `"idle"`, the
states `"run"`, `"jump"`, `"fall"`, `"hit"`, and the eleven transitions in the
order of the `AddTransition` calls. -/
def animator (context_ptr : Nat) (context : Context) : Option (ng.FSM Context) :=
  ((ng.FSM.new context_ptr context (AnimationState "idle")).AddState
      (AnimationState "run")).bind fun fsm1 =>
  (fsm1.AddState (AnimationState "jump")).bind fun fsm2 =>
  (fsm2.AddState (AnimationState "fall")).bind fun fsm3 =>
  (fsm3.AddState (AnimationState "hit")).map fun fsm4 =>
  ((((((((((fsm4.AddTransition ⟨"idle", "run", fun c => c.velocity_x != 0⟩).AddTransition
      ⟨"run", "idle", fun c => c.velocity_x == 0⟩).AddTransition
      ⟨"idle", "jump", fun c => decide (c.velocity_y < 0)⟩).AddTransition
      ⟨"run", "jump", fun c => decide (c.velocity_y < 0)⟩).AddTransition
      ⟨"jump", "fall", fun c => decide (c.velocity_y > 0) && !c.is_on_ground_⟩).AddTransition
      ⟨"jump", "idle", fun c => c.is_on_ground_⟩).AddTransition
      ⟨"fall", "idle", fun c => c.is_on_ground_⟩).AddTransition
      ⟨"idle", "hit", fun c => c.is_dead_⟩).AddTransition
      ⟨"run", "hit", fun c => c.is_dead_⟩).AddTransition
      ⟨"jump", "hit", fun c => c.is_dead_⟩).AddTransition
      ⟨"fall", "hit", fun c => c.is_dead_⟩

end Player

/-! ## The plant bullet (`game/plant_bullet.cc`) -/

/-- The constants of `enum TileID` the collision test names (`game/tile_id.h` is
not among the sources at hand). -/
structure TileIDs where
  kVoid : Nat
  kInvisibleBarrier : Nat
  kDirtTopLeft : Nat
  kDirtBottomRight : Nat
  kStoneHorizontalLeft : Nat
  kStoneVerticalBottom : Nat
  kPlasticBlock : Nat
deriving DecidableEq, Repr

/-- What the game reads of an `ng::Tilemap` (`engine/tilemap.h` is not among the
sources at hand): whether a world position is inside the world, and the ID of
the tile at a world position. -/
structure Tilemap where
  IsWithinWorldBounds : sf.Vector2f → Bool
  GetWorldTile : sf.Vector2f → Nat

/-- Embeds `DoesCollide` of `plant_bullet.cc` (the same function stands in
`player.cc`): whether the tile at a position is solid. -/
def DoesCollide (ids : TileIDs) (position : sf.Vector2f) (tilemap : Tilemap) : Bool :=
  let id := tilemap.GetWorldTile position
  id == ids.kInvisibleBarrier ||
    (decide (id ≥ ids.kDirtTopLeft) && decide (id ≤ ids.kDirtBottomRight)) ||
    (decide (id ≥ ids.kStoneHorizontalLeft) && decide (id ≤ ids.kStoneVerticalBottom)) ||
    id == ids.kPlasticBlock

/-- The members of `PlantBullet` its `Update` reads or writes: the address of
the node, `is_dead_`, the global position and `direction_`. -/
structure PlantBullet where
  addr : ng.NodePtr
  is_dead_ : Bool
  position : sf.Vector2f
  direction_ : sf.Vector2f
deriving DecidableEq, Repr

/-- A call `PlantBullet::Update` makes on another object. -/
inductive BulletCall where
  | Destroy (node : ng.NodePtr)
  | MarioTakeDamage
deriving DecidableEq, Repr

namespace PlantBullet

/-- Embeds `kMovementSpeed` of `PlantBullet::Update`. -/
def kMovementSpeed : ℚ := 6

/-- Embeds `PlantBullet::Update`. `overlap` is the name of the parent of the collider
`Physics::Overlap` returns for the moved bullet (`none` for `nullptr`). The
result is the bullet afterwards and the calls made, in order; `Translate` moves
the position by the offset. -/
def Update (b : PlantBullet) (ids : TileIDs) (tilemap : Tilemap)
    (overlap : sf.Vector2f → Option String) : PlantBullet × List BulletCall :=
  if b.is_dead_ then (b, [])
  else
    let pos := b.position
    if !tilemap.IsWithinWorldBounds pos then
      ({ b with is_dead_ := true }, [BulletCall.Destroy b.addr])
    else if DoesCollide ids pos tilemap then
      ({ b with is_dead_ := true }, [BulletCall.Destroy b.addr])
    else
      let b1 := { b with position := b.position.add (b.direction_.scale kMovementSpeed) }
      match overlap b1.position with
      | some name => if name == "Mario" then (b1, [BulletCall.MarioTakeDamage]) else (b1, [])
      | none => (b1, [])

/-- The nodes on which a list of calls calls `Destroy()`. -/
def destroyed : List BulletCall → List ng.NodePtr
  | [] => []
  | BulletCall.Destroy node :: rest => node :: destroyed rest
  | BulletCall.MarioTakeDamage :: rest => destroyed rest

end PlantBullet

/-! ## The game manager (`game/game_manager.cc`) -/

namespace GameManager

/-- The values of `GameManager::State` that `game_manager.cc` names. -/
inductive State where
  | PLAY
  | WON
  | LOST
deriving DecidableEq, Repr

/-- Embeds `GameManager::Update`, as the calls it makes on the `App`: once the game
is won or lost and Enter goes down, `LoadScene(MakeDefaultScene(GetApp()))`,
where `fresh` is the address of the scene `MakeDefaultScene` builds. Nothing of
the manager itself is written. -/
def Update (state_ : State) (enterDown : Bool) (fresh : Nat) : List ng.LoopStep :=
  if state_ == State.WON || state_ == State.LOST then
    if enterDown then [ng.LoopStep.loadScene fresh] else []
  else []

end GameManager

end game

namespace ng

/-- What the constructor of a kind finds on disk: `font`, `texture` or
`sound_buffer`. -/
def Disk.decode (disk : Disk) : ResourceManager.Kind → Path → Option Nat
  | ResourceManager.Kind.texture => disk.texture
  | ResourceManager.Kind.soundBuffer => disk.sound_buffer
  | ResourceManager.Kind.font => disk.font

end ng

namespace ng

/-- One thing that happens to a `State` during its life: a call of a member
function (the two getters, `SetContext` with a pointer, `none` being
`nullptr`, and the three hooks), an assignment from another state that has the
given `id_` and `context_`, or being the source of a move, which leaves `left`
in `id_`. -/
inductive StateCall where
  | GetID
  | GetContext
  | SetContext (context : Option Nat)
  | OnEnter
  | Update
  | OnExit
  | Assign (other_id : String) (other_context : Option Nat)
  | MovedFrom (left : String)
deriving DecidableEq, Repr

namespace StateCall

/-- Whether the call is one of a member function that `State` declares by
name, not an assignment and not a move out of the state. -/
def isMemberCall : StateCall → Bool
  | Assign _ _ => false
  | MovedFrom _ => false
  | _ => true

/-- Performs the call on a state. The getters are `const`; the hooks act on the
context and on members of derived classes, `id_` and `context_` being private
to `State`; `SetContext` writes `context_`; an assignment writes `id_` and
`context_`; a move out of the state leaves its `id_` unspecified. -/
def apply {C : Type} (st : State C) : StateCall → State C
  | SetContext context => st.SetContext context
  | Assign other_id other_context =>
    st.assign ((State.new other_id : State C).SetContext other_context)
  | MovedFrom left => st.movedFrom left
  | _ => st

/-- Performs a sequence of calls, oldest first. -/
def run {C : Type} (st : State C) (calls : List StateCall) : State C :=
  calls.foldl apply st

/-- The argument of the most recent `SetContext` of the sequence, if there is
one: stated on the history of calls alone. -/
def lastSet (calls : List StateCall) : Option (Option Nat) :=
  calls.reverse.findSome? (fun call =>
    match call with
    | SetContext context => some context
    | _ => none)

end StateCall

end ng

namespace game

/-! ## The camera anchor (`game/follow_player.cc`) -/

/-- The member of `FollowPlayer` its functions read: `player_`, the retained
pointer to the player. -/
structure FollowPlayer where
  player_ : ng.NodePtr
deriving DecidableEq, Repr

namespace FollowPlayer

/-- The position `FollowPlayer::Follow` computes from the position of the
player: `std::min(std::max(x, 32.F * (32 - 19)), 32.F * (64 - 13))` and
`std::max(std::min(y, 32.F * (32 - 10)), 32.F * (10))`. -/
def newPos (player_pos : sf.Vector2f) : sf.Vector2f :=
  ⟨min (max player_pos.x (32 * (32 - 19))) (32 * (64 - 13)),
   max (min player_pos.y (32 * (32 - 10))) (32 * 10)⟩

/-- Embeds `FollowPlayer::Follow`. `memory` says what is at an address: the global
position of the live player there, or `none` when no live player is there, in
which case reading through the pointer is undefined and the function has no
result. `parent_position` is the local position of the parent. The result is
the local position of the parent afterwards and the addresses read through. -/
def Follow (fp : FollowPlayer) (scene : ng.Scene) (memory : ng.NodePtr → Option sf.Vector2f)
    (parent_position : sf.Vector2f) : Option (sf.Vector2f × List ng.NodePtr) :=
  if !scene.IsValid fp.player_ then some (parent_position, [])
  else
    match memory fp.player_ with
    | none => none
    | some player_pos => some (newPos player_pos, [fp.player_])

/-- Embeds `FollowPlayer::OnAdd`: `Follow();`. -/
def OnAdd (fp : FollowPlayer) (scene : ng.Scene) (memory : ng.NodePtr → Option sf.Vector2f)
    (parent_position : sf.Vector2f) : Option (sf.Vector2f × List ng.NodePtr) :=
  fp.Follow scene memory parent_position

/-- Embeds `FollowPlayer::Update`: `Follow();`. -/
def Update (fp : FollowPlayer) (scene : ng.Scene) (memory : ng.NodePtr → Option sf.Vector2f)
    (parent_position : sf.Vector2f) : Option (sf.Vector2f × List ng.NodePtr) :=
  fp.Follow scene memory parent_position

end FollowPlayer

end game

namespace game

/-! ## The game manager: winning and losing (`game/game_manager.cc`) -/

/-- A call `GameManager::Win` or `GameManager::Lose` makes on a canvas or on a
sound. -/
inductive GameManager.Call where
  | EnableWinCanvas
  | PlayWinSound
  | EnableLoseCanvas
  | PlayLoseSound
deriving DecidableEq, Repr

/-- The member `state_` of `GameManager`, and the calls made so far on the two
canvases and the two sounds, oldest first. -/
structure GameManager where
  state_ : GameManager.State
  calls : List GameManager.Call
deriving DecidableEq, Repr

namespace GameManager

/-- Embeds `GameManager::OnAdd`: after the two canvases are made, `state_ = State::PLAY`. -/
def OnAdd (gm : GameManager) : GameManager :=
  { gm with state_ := State.PLAY }

/-- Embeds `GameManager::Win`. -/
def Win (gm : GameManager) : GameManager :=
  if gm.state_ != State.PLAY then gm
  else
    { state_ := State.WON
      calls := gm.calls ++ [Call.EnableWinCanvas, Call.PlayWinSound] }

/-- Embeds `GameManager::Lose`. -/
def Lose (gm : GameManager) : GameManager :=
  if gm.state_ != State.PLAY then gm
  else
    { state_ := State.LOST
      calls := gm.calls ++ [Call.EnableLoseCanvas, Call.PlayLoseSound] }

/-- Embeds `GameManager::GetState`. -/
def GetState (gm : GameManager) : State := gm.state_

/-- A call of `Win()` or of `Lose()`. -/
inductive Verdict where
  | win
  | lose
deriving DecidableEq, Repr

/-- Performs a call of `Win()` or `Lose()`. -/
def apply (gm : GameManager) : Verdict → GameManager
  | Verdict.win => gm.Win
  | Verdict.lose => gm.Lose

/-- Performs a sequence of calls, oldest first. -/
def run (gm : GameManager) (verdicts : List Verdict) : GameManager :=
  verdicts.foldl apply gm

/-- The state the first call of a sequence decides, stated on the sequence
alone. -/
def decided : List Verdict → State
  | [] => State.PLAY
  | Verdict.win :: _ => State.WON
  | Verdict.lose :: _ => State.LOST

/-- The canvas and sound calls the first call of a sequence makes, stated on the
sequence alone. -/
def effects : List Verdict → List Call
  | [] => []
  | Verdict.win :: _ => [Call.EnableWinCanvas, Call.PlayWinSound]
  | Verdict.lose :: _ => [Call.EnableLoseCanvas, Call.PlayLoseSound]

end GameManager

end game

namespace game

/-! ## The plant (`game/plant.cc`) -/

/-- What `Physics::Overlap` returns, as far as the game reads it: the name of
the parent of the collider found, and of that parent (when it is of the class
the name says) the vertical velocity of a `Player`, `GetIsDead()` of a
`Mushroom` or a `Plant`, and `GetIsCollected()` of a `Banana`. -/
structure OverlapHit where
  parent_name : String
  velocity_y : ℚ
  is_dead : Bool
  is_collected : Bool
deriving DecidableEq, Repr

/-- A call `Plant::Update` makes outside the plant. -/
inductive Plant.Call where
  | Overlap
  | PlayerTakeDamage
deriving DecidableEq, Repr

/-- The members of `Plant` its functions read or write: `context_`,
`attack_timer_`, and of `animator_` the ID of the current state. -/
structure Plant where
  context_ : Plant.Context
  attack_timer_ : Int
  animator_state : String
deriving DecidableEq, Repr

namespace Plant

/-- Embeds `kAttackCooldown` of `Plant::Update`. -/
def kAttackCooldown : Int := 240

/-- Embeds `Plant::GetIsDead`. -/
def GetIsDead (p : Plant) : Bool := p.context_.is_dead

/-- Embeds `Plant::TakeDamage`: `context_.is_dead = true;`. -/
def TakeDamage (p : Plant) : Plant :=
  { p with context_ := { p.context_ with is_dead := true } }

/-- The animator of the plant in the state it is in: the machine `Plant::Plant`
builds, over the current context and in the current state. -/
def currentAnimator (p : Plant) (animation_ends : Bool) : Option (ng.FSM Context) :=
  (animator 0 p.context_ animation_ends).map
    (fun fsm => { fsm with current_state_ := p.animator_state })

/-- Embeds `Plant::Update`. `animation_ends` says whether the animation of the attack
state ends in this update; `overlap` is what `Overlap(*collider_)` returns
(`none` for `nullptr`). The result is the plant afterwards and the calls made
after the animator has run, in order (what the hooks of the animator do outside
the context, sounds, the bullet, `Destroy`, is not listed); `none` when the
animator fails. -/
def Update (p : Plant) (animation_ends : Bool) (overlap : Option OverlapHit) :
    Option (Plant × List Call) :=
  match (p.currentAnimator animation_ends).bind ng.FSM.Update with
  | none => none
  | some fsm =>
    let p1 : Plant := { p with context_ := fsm.context_, animator_state := fsm.current_state_ }
    if p1.context_.is_dead then some (p1, [])
    else
      let p2 : Plant :=
        if p1.attack_timer_ > 0 then { p1 with attack_timer_ := p1.attack_timer_ - 1 }
        else
          { p1 with context_ := { p1.context_ with is_attacking := true },
                    attack_timer_ := kAttackCooldown }
      match overlap with
      | none => some (p2, [Call.Overlap])
      | some other =>
        if other.parent_name == "Player" then
          if other.velocity_y ≤ 0 then some (p2, [Call.Overlap, Call.PlayerTakeDamage])
          else some (p2, [Call.Overlap])
        else some (p2, [Call.Overlap])

/-- Updates one after the other, each with its own inputs; the calls are
collected in order. -/
def updates : Plant → List (Bool × Option OverlapHit) → Option (Plant × List Call)
  | p, [] => some (p, [])
  | p, input :: rest =>
    match p.Update input.1 input.2 with
    | none => none
    | some (p1, calls) =>
      match updates p1 rest with
      | none => none
      | some (p2, more) => some (p2, calls ++ more)

/-- The IDs of the three states of the animator. -/
def knownState (id : String) : Prop :=
  id = "idle" ∨ id = "attack" ∨ id = "hit"

end Plant

end game

namespace ng

/-! ## Tileset (`engine/tileset.cc`; `engine/tileset.h` and `engine/tile.h` are not
among the sources at hand) -/

/-- An ID of a tile (`TileID`). -/
abbrev TileID := Nat

/-- A `Tile`, as far as the tileset reads it: the ID `GetID()` returns, and the
rest of the tile. -/
structure Tile where
  id_ : TileID
  content : Nat
deriving DecidableEq, Repr

/-- The accessor `Tile::GetID`, which `Tileset::AddTile` calls. -/
def Tile.GetID (tile : Tile) : TileID := tile.id_

/-- The members of `ng::Tileset`: `tile_size_`, `texture_` (the address of the
texture) and `tiles_`, a map from IDs to tiles, held as its entries. -/
structure Tileset where
  tile_size_ : Nat × Nat
  texture_ : Nat
  tiles_ : List (TileID × Tile)
deriving DecidableEq, Repr

namespace Tileset

/-- Embeds `Tileset::Tileset`: `tile_size_(tile_size), texture_(&texture)`, and no
tile. -/
def new (tile_size : Nat × Nat) (texture : Nat) : Tileset :=
  { tile_size_ := tile_size, texture_ := texture, tiles_ := [] }

/-- Embeds `Tileset::GetTile`: `return tiles_.at(id);`, which throws (`none`) when
the ID is absent. -/
def GetTile (ts : Tileset) (id : TileID) : Option Tile :=
  (ts.tiles_.find? (fun e => e.1 == id)).map (fun e => e.2)

/-- Embeds `Tileset::AddTile`: `tiles_.insert({tile.GetID(), tile});`, which inserts
nothing when the ID is present. -/
def AddTile (ts : Tileset) (tile : Tile) : Tileset :=
  if ts.tiles_.any (fun e => e.1 == tile.GetID) then ts
  else { ts with tiles_ := ts.tiles_ ++ [(tile.GetID, tile)] }

/-- Embeds `Tileset::GetTileSize`. -/
def GetTileSize (ts : Tileset) : Nat × Nat := ts.tile_size_

/-- Embeds `Tileset::GetTexture`. -/
def GetTexture (ts : Tileset) : Nat := ts.texture_

/-- Adds tiles one after the other. -/
def addAll (ts : Tileset) (tiles : List Tile) : Tileset :=
  tiles.foldl AddTile ts

end Tileset

/-! ## Scene: name and children (`engine/scene.cc`) -/

/-- Modelled from the spec: `Node::AddChild` (`engine/node.cc` is missing):
"transfers ownership into the children sequence; fails (caller error) if the
node is null" (`none`). -/
def Node.AddChild : Node → Option Node → Option Node
  | _, none => none
  | Node.mk a n l p cs, some new_child => some (Node.mk a n l p (cs ++ [new_child]))

namespace Scene

/-- Embeds `Scene::GetName`. -/
def GetName (s : Scene) : String := s.name_

/-- Embeds `Scene::SetName`. -/
def SetName (s : Scene) (name : String) : Scene :=
  { s with name_ := name }

/-- Embeds `Scene::AddChild`: `root_->AddChild(std::move(new_child));`. The result
is `none` when `Node::AddChild` fails. -/
def AddChild (s : Scene) (new_child : Option Node) : Option Scene :=
  (s.root_.AddChild new_child).map (fun root => { s with root_ := root })

end Scene

end ng

namespace game

/-! ## The player (`game/player.cc`) -/

/-- A call `Player::Update` makes outside the player, on its own node, on a
sound, on the score manager or on the node it overlaps. -/
inductive Player.Call where
  | PlasticBlockSound
  | SetLocalPosition (position : sf.Vector2f)
  | Overlap
  | MushroomTakeDamage
  | PlantTakeDamage
  | AddScore (score : Nat)
  | BananaCollect
  | BananaSound
  | EndGame
deriving DecidableEq, Repr

/-- The keys `Player::Update` asks for: `GetKey(A)`, `GetKey(D)` and
`GetKeyDown(Space)`. -/
structure Player.Input where
  keyA : Bool
  keyD : Bool
  spaceDown : Bool
deriving DecidableEq, Repr

/-- What `Player::Update` reads of the world besides the tilemap: the constants
of `TileID`, the size of a tile (`tilemap_->GetTileSize()`), the size of the
collider (`collider_->GetSize()`, `(32, 48)` as constructed), what
`SetWorldTile` makes of a tilemap (`engine/tilemap.h` is not among the sources
at hand), and what `Overlap(*collider_)` returns for the collider at a
position. -/
structure Player.Env where
  ids : TileIDs
  tile_size : sf.Vector2f
  collider_size : sf.Vector2f
  SetWorldTile : Tilemap → sf.Vector2f → Nat → Tilemap
  overlap : sf.Vector2f → Option OverlapHit

/-- The members of `Player` its functions read or write: `velocity_`,
`is_on_ground_`, `is_dead_`, `has_won_`, the local position of the node, the
scale of the sprite, and of `animator_` the ID of the current state. -/
structure Player where
  velocity_ : sf.Vector2f
  is_on_ground_ : Bool
  is_dead_ : Bool
  has_won_ : Bool
  local_position : sf.Vector2f
  sprite_scale : sf.Vector2f
  animator_state : String
deriving DecidableEq, Repr

namespace Player

/-- Embeds `kEps` of `Player::Update`: `0.001F`. -/
def kEps : ℚ := 1 / 1000

/-- Embeds `Player::GetVelocity`. -/
def GetVelocity (p : Player) : sf.Vector2f := p.velocity_

/-- Embeds `Player::TakeDamage`. -/
def TakeDamage (p : Player) : Player :=
  if p.is_dead_ then p else { p with is_dead_ := true }

/-- The probe `top_left` as first assigned in `Player::Update` (line 225); with
`new_pos` for `old_pos` it is the `top_left` assigned again at line 269. -/
def top_left (new_pos old_pos col_size : sf.Vector2f) : sf.Vector2f :=
  ⟨new_pos.x - (col_size.x - kEps), old_pos.y - (col_size.y - kEps)⟩

/-- The probe `middle_left` of `Player::Update` (line 227). -/
def middle_left (new_pos old_pos col_size : sf.Vector2f) : sf.Vector2f :=
  ⟨new_pos.x + (col_size.x - kEps), old_pos.y + (0 - kEps)⟩

/-- The probe `bottom_left` as first assigned in `Player::Update` (line 229);
with `new_pos` for `old_pos` it is the `bottom_left` assigned again at line
298. -/
def bottom_left (new_pos old_pos col_size : sf.Vector2f) : sf.Vector2f :=
  ⟨new_pos.x - (col_size.x - kEps), old_pos.y + (col_size.y - kEps)⟩

/-- The probe `top_right` as first assigned in `Player::Update` (line 247); with
`new_pos` for `old_pos` it is the `top_right` assigned again at line 270. -/
def top_right (new_pos old_pos col_size : sf.Vector2f) : sf.Vector2f :=
  ⟨new_pos.x + (col_size.x - kEps), old_pos.y - (col_size.y - kEps)⟩

/-- The probe `middle_right` of `Player::Update` (line 249). -/
def middle_right (new_pos old_pos col_size : sf.Vector2f) : sf.Vector2f :=
  ⟨new_pos.x + (col_size.x - kEps), old_pos.y + (0 - kEps)⟩

/-- The probe `bottom_right` as first assigned in `Player::Update` (line 251);
with `new_pos` for `old_pos` it is the `bottom_right` assigned again at line
300. -/
def bottom_right (new_pos old_pos col_size : sf.Vector2f) : sf.Vector2f :=
  ⟨new_pos.x + (col_size.x - kEps), old_pos.y + (col_size.y - kEps)⟩

/-- A condition `!IsWithinWorldBounds(a) || !IsWithinWorldBounds(b) || ...` of
`Player::Update`: the points are asked about from left to right until one is
outside. The result is whether one is outside, and the points asked about,
each with the answer. -/
def anyOutside (tilemap : Tilemap) : List sf.Vector2f → Bool × List (sf.Vector2f × Bool)
  | [] => (false, [])
  | point :: rest =>
    if tilemap.IsWithinWorldBounds point then
      ((anyOutside tilemap rest).1, (point, true) :: (anyOutside tilemap rest).2)
    else (true, [(point, false)])

/-- What an `Update` leaves: the player and the tilemap afterwards, the calls
made in order, and the points `IsWithinWorldBounds` was asked about, each with
the answer. -/
structure Result where
  player : Player
  tilemap : Tilemap
  calls : List Call
  bounds_checks : List (sf.Vector2f × Bool)

/-- The members and local variables of `Player::Update` between two of its
steps. -/
structure Frame where
  player : Player
  old_pos : sf.Vector2f
  new_pos : sf.Vector2f
  tilemap : Tilemap
  calls : List Call
  bounds_checks : List (sf.Vector2f × Bool)

/-- The exit `is_dead_ = true; return;` of `Player::Update`. -/
def Frame.exit (f : Frame) : Result :=
  { player := { f.player with is_dead_ := true }
    tilemap := f.tilemap
    calls := f.calls
    bounds_checks := f.bounds_checks }

/-- The half size `col_size = collider_->GetSize() / 2.F`. -/
def colSize (env : Env) : sf.Vector2f :=
  ⟨env.collider_size.x / 2, env.collider_size.y / 2⟩

/-- Lines 198 to 216 of `Player::Update`: the direction from the keys (and the
scale of the sprite), then `velocity_.x = dir.x * 4; velocity_.y += 1;` and the
jump. -/
def steer (p : Player) (input : Input) : Player :=
  let dir_x0 : ℚ := 0
  let left := !p.has_won_ && input.keyA
  let dir_x1 : ℚ := if left then dir_x0 + -1 else dir_x0
  let scale1 : sf.Vector2f := if left then ⟨-2, 2⟩ else p.sprite_scale
  let right := !p.has_won_ && input.keyD
  let dir_x2 : ℚ := if right then dir_x1 + 1 else dir_x1
  let scale2 : sf.Vector2f := if right then ⟨2, 2⟩ else scale1
  let velocity_y1 : ℚ := p.velocity_.y + 1
  let velocity_y2 : ℚ :=
    if !p.has_won_ && p.is_on_ground_ && input.spaceDown then velocity_y1 - 15
    else velocity_y1
  { p with velocity_ := ⟨dir_x2 * 4, velocity_y2⟩, sprite_scale := scale2 }

/-- Lines 218 and 219 of `Player::Update`: `old_pos` is the global position of
the collider, which sits at `(0, 8)` in the player, the player being placed in
world coordinates (as `SetLocalPosition(new_pos - (0, 8))` takes it);
`new_pos = old_pos + velocity_`. -/
def start (p : Player) (tilemap : Tilemap) : Frame :=
  let old_pos := p.local_position.add ⟨0, 8⟩
  { player := p
    old_pos := old_pos
    new_pos := old_pos.add p.velocity_
    tilemap := tilemap
    calls := []
    bounds_checks := [] }

/-- Lines 224 to 245 of `Player::Update`: the three left probes, the bounds
exit, and the collision to the left. -/
def leftStep (env : Env) (f : Frame) : Except Result Frame :=
  let col_size := colSize env
  let tl := top_left f.new_pos f.old_pos col_size
  let ml := middle_left f.new_pos f.old_pos col_size
  let bl := bottom_left f.new_pos f.old_pos col_size
  let check := anyOutside f.tilemap [tl, ml, bl]
  let f1 := { f with bounds_checks := f.bounds_checks ++ check.2 }
  if check.1 then Except.error f1.exit
  else if decide (f1.player.velocity_.x < 0) &&
      (DoesCollide env.ids tl f1.tilemap || DoesCollide env.ids ml f1.tilemap ||
        DoesCollide env.ids bl f1.tilemap) then
    Except.ok { f1 with
      new_pos := ⟨(⌈tl.x / env.tile_size.x⌉ : ℚ) * env.tile_size.x + col_size.x, f1.new_pos.y⟩
      player := { f1.player with velocity_ := ⟨0, f1.player.velocity_.y⟩ } }
  else Except.ok f1

/-- Lines 247 to 267 of `Player::Update`: the three right probes, the bounds
exit, and the collision to the right. -/
def rightStep (env : Env) (f : Frame) : Except Result Frame :=
  let col_size := colSize env
  let tr := top_right f.new_pos f.old_pos col_size
  let mr := middle_right f.new_pos f.old_pos col_size
  let br := bottom_right f.new_pos f.old_pos col_size
  let check := anyOutside f.tilemap [tr, mr, br]
  let f1 := { f with bounds_checks := f.bounds_checks ++ check.2 }
  if check.1 then Except.error f1.exit
  else if decide (f1.player.velocity_.x > 0) &&
      (DoesCollide env.ids tr f1.tilemap || DoesCollide env.ids mr f1.tilemap ||
        DoesCollide env.ids br f1.tilemap) then
    Except.ok { f1 with
      new_pos := ⟨(⌊tr.x / env.tile_size.x⌋ : ℚ) * env.tile_size.x - col_size.x, f1.new_pos.y⟩
      player := { f1.player with velocity_ := ⟨0, f1.player.velocity_.y⟩ } }
  else Except.ok f1

/-- Lines 282 to 290 of `Player::Update`: a plastic block at a probe is replaced
by void and the sound is played. -/
def breakBlock (env : Env) (f : Frame) (probe : sf.Vector2f) : Frame :=
  if f.tilemap.GetWorldTile probe == env.ids.kPlasticBlock then
    { f with tilemap := env.SetWorldTile f.tilemap probe env.ids.kVoid
             calls := f.calls ++ [Call.PlasticBlockSound] }
  else f

/-- Lines 269 to 296 of `Player::Update`: the two top probes at `new_pos`, the
bounds exit, and the collision upwards. -/
def topStep (env : Env) (f : Frame) : Except Result Frame :=
  let col_size := colSize env
  let tl := top_left f.new_pos f.new_pos col_size
  let tr := top_right f.new_pos f.new_pos col_size
  let check := anyOutside f.tilemap [tl, tr]
  let f1 := { f with bounds_checks := f.bounds_checks ++ check.2 }
  if check.1 then Except.error f1.exit
  else if decide (f1.player.velocity_.y < 0) &&
      (DoesCollide env.ids tl f1.tilemap || DoesCollide env.ids tr f1.tilemap) then
    let f2 := breakBlock env (breakBlock env f1 tl) tr
    Except.ok { f2 with
      new_pos := ⟨f2.new_pos.x, (⌈tl.y / env.tile_size.y⌉ : ℚ) * env.tile_size.y + col_size.y⟩
      player := { f2.player with velocity_ := ⟨f2.player.velocity_.x, 0⟩ } }
  else Except.ok f1

/-- Lines 298 to 317 of `Player::Update`: the two bottom probes at `new_pos`, the
bounds exit, and the collision downwards, which decides `is_on_ground_`. -/
def bottomStep (env : Env) (f : Frame) : Except Result Frame :=
  let col_size := colSize env
  let bl := bottom_left f.new_pos f.new_pos col_size
  let br := bottom_right f.new_pos f.new_pos col_size
  let check := anyOutside f.tilemap [bl, br]
  let f1 := { f with bounds_checks := f.bounds_checks ++ check.2 }
  if check.1 then Except.error f1.exit
  else if decide (f1.player.velocity_.y > 0) &&
      (DoesCollide env.ids bl f1.tilemap || DoesCollide env.ids br f1.tilemap) then
    Except.ok { f1 with
      new_pos := ⟨f1.new_pos.x, (⌊bl.y / env.tile_size.y⌋ : ℚ) * env.tile_size.y - col_size.y⟩
      player := { f1.player with velocity_ := ⟨f1.player.velocity_.x, 0⟩,
                                 is_on_ground_ := true } }
  else Except.ok { f1 with player := { f1.player with is_on_ground_ := false } }

/-- Lines 319 to 356 of `Player::Update`: `SetLocalPosition(new_pos - (0, 8))`,
the overlap query, and what follows from the node found. -/
def finish (env : Env) (f : Frame) : Result :=
  let position : sf.Vector2f := ⟨f.new_pos.x - 0, f.new_pos.y - 8⟩
  let p := { f.player with local_position := position }
  let calls := f.calls ++ [Call.SetLocalPosition position, Call.Overlap]
  let done (p : Player) (calls : List Call) : Result :=
    { player := p, tilemap := f.tilemap, calls := calls, bounds_checks := f.bounds_checks }
  match env.overlap f.new_pos with
  | none => done p calls
  | some other =>
    if other.parent_name == "Mushroom" then
      if p.velocity_.y > 0 then
        if !other.is_dead then
          done { p with velocity_ := ⟨p.velocity_.x, -10⟩ }
            (calls ++ [Call.MushroomTakeDamage, Call.AddScore 100])
        else done p calls
      else done p calls
    else if other.parent_name == "Plant" then
      if p.velocity_.y > 0 then
        if !other.is_dead then
          done { p with velocity_ := ⟨p.velocity_.x, -10⟩ }
            (calls ++ [Call.PlantTakeDamage, Call.AddScore 150])
        else done p calls
      else done p calls
    else if other.parent_name == "Banana" then
      if !other.is_collected then
        done p (calls ++ [Call.BananaCollect, Call.AddScore 500, Call.BananaSound])
      else done p calls
    else if other.parent_name == "End" then
      if !p.has_won_ then
        done { p with velocity_ := ⟨p.velocity_.x, -15⟩, has_won_ := true }
          (calls ++ [Call.EndGame])
      else done p calls
    else done p calls

/-- The animator of the player in the state it is in: the machine
`Player::Player` builds, with the guards reading the members as they are, in
the current state. -/
def currentAnimator (p : Player) : Option (ng.FSM Context) :=
  (animator 0 ⟨p.velocity_.x, p.velocity_.y, p.is_on_ground_, p.is_dead_⟩).map
    (fun fsm => { fsm with current_state_ := p.animator_state })

/-- Lines 218 to 356 of `Player::Update`, for a player that is not dead: the
four steps with their bounds exits, then the move and the overlap. -/
def move (p : Player) (env : Env) (tilemap : Tilemap) : Result :=
  match leftStep env (start p tilemap) with
  | Except.error r => r
  | Except.ok f1 =>
    match rightStep env f1 with
    | Except.error r => r
    | Except.ok f2 =>
      match topStep env f2 with
      | Except.error r => r
      | Except.ok f3 =>
        match bottomStep env f3 with
        | Except.error r => r
        | Except.ok f4 => finish env f4

/-- Embeds `Player::Update`: the animator is updated; a dead player returns; otherwise
the keys are read and the player is moved. The calls of the result are those
made after the animator has run (what its hooks do outside the members the
guards read, animations, sounds, `Lose` and `Destroy` at the end of the hit
animation, is not listed). `none` when the animator fails. -/
def Update (p : Player) (env : Env) (input : Input) (tilemap : Tilemap) : Option Result :=
  match p.currentAnimator.bind ng.FSM.stateAfterUpdate with
  | none => none
  | some state =>
    let p1 := { p with animator_state := state }
    if p1.is_dead_ then
      some { player := p1, tilemap := tilemap, calls := [], bounds_checks := [] }
    else some (move (steer p1 input) env tilemap)

/-- The IDs of the five states of the animator. -/
def knownState (id : String) : Prop :=
  id = "idle" ∨ id = "run" ∨ id = "jump" ∨ id = "fall" ∨ id = "hit"

end Player

end game

namespace game

namespace Player

/-- The transitions of the animator, in the order `Player::Player` adds them. -/
def transitions : List (ng.Transition Context) :=
  [⟨"idle", "run", fun c => c.velocity_x != 0⟩,
   ⟨"run", "idle", fun c => c.velocity_x == 0⟩,
   ⟨"idle", "jump", fun c => decide (c.velocity_y < 0)⟩,
   ⟨"run", "jump", fun c => decide (c.velocity_y < 0)⟩,
   ⟨"jump", "fall", fun c => decide (c.velocity_y > 0) && !c.is_on_ground_⟩,
   ⟨"jump", "idle", fun c => c.is_on_ground_⟩,
   ⟨"fall", "idle", fun c => c.is_on_ground_⟩,
   ⟨"idle", "hit", fun c => c.is_dead_⟩,
   ⟨"run", "hit", fun c => c.is_dead_⟩,
   ⟨"jump", "hit", fun c => c.is_dead_⟩,
   ⟨"fall", "hit", fun c => c.is_dead_⟩]

/-- The states of the animator, in the order `Player::Player` adds them, each
pointed at the context. -/
def states (context_ptr : Nat) : List (ng.State Context) :=
  [(AnimationState "idle").SetContext (some context_ptr),
   (AnimationState "run").SetContext (some context_ptr),
   (AnimationState "jump").SetContext (some context_ptr),
   (AnimationState "fall").SetContext (some context_ptr),
   (AnimationState "hit").SetContext (some context_ptr)]

/-- Whether every call of a list is the sound of a plastic block. -/
def onlyBlockSounds (calls : List Call) : Prop :=
  ∀ c ∈ calls, c = Call.PlasticBlockSound

/-- A frame of an update that has not left through a bounds exit: the player is
not dead and sits where it sat (`position`), `count` points have been asked
about and all were inside, and no call but block sounds has been made. -/
def Frame.Running (position : sf.Vector2f) (count : Nat) (f : Frame) : Prop :=
  f.player.is_dead_ = false ∧ f.player.local_position = position
    ∧ f.bounds_checks.length = count ∧ (∀ e ∈ f.bounds_checks, e.2 = true)
    ∧ onlyBlockSounds f.calls

/-- What a bounds exit leaves: `is_dead_` set, the player where it sat
(`position`), a point found outside, and no call but block sounds. -/
def Result.Exited (position : sf.Vector2f) (r : Result) : Prop :=
  r.player.is_dead_ = true ∧ r.player.local_position = position
    ∧ (∃ e ∈ r.bounds_checks, e.2 = false)
    ∧ onlyBlockSounds r.calls

/-- Whether a call is a `SetLocalPosition`. -/
def Call.isSetLocalPosition : Call → Bool
  | Call.SetLocalPosition _ => true
  | _ => false

/-- What an update that reaches `SetLocalPosition` leaves: the player not dead,
all ten points asked about inside, and among the calls exactly one
`SetLocalPosition`, with the position the player has afterwards. -/
def Result.Moved (r : Result) : Prop :=
  r.player.is_dead_ = false
    ∧ r.bounds_checks.length = 10 ∧ (∀ e ∈ r.bounds_checks, e.2 = true)
    ∧ r.calls.filter Call.isSetLocalPosition
        = [Call.SetLocalPosition r.player.local_position]

end Player

end game

namespace game

/-- Constants of `TileID` for the examples: void 0, dirt 1 to 9, stone 10 to 15,
plastic block 20, invisible barrier 100. -/
def exampleIds : TileIDs :=
  { kVoid := 0, kInvisibleBarrier := 100, kDirtTopLeft := 1, kDirtBottomRight := 9,
    kStoneHorizontalLeft := 10, kStoneVerticalBottom := 15, kPlasticBlock := 20 }

/-- A world of 640 by 640 with tiles of 32 by 32, void but for one dirt tile:
the tile of column 2 and row 5, which covers `64 ≤ x < 96` and
`160 ≤ y < 192`. -/
def exampleTilemap : Tilemap :=
  { IsWithinWorldBounds := fun point =>
      decide (0 ≤ point.x) && decide (point.x < 640) && decide (0 ≤ point.y) &&
        decide (point.y < 640)
    GetWorldTile := fun point =>
      if 64 ≤ point.x ∧ point.x < 96 ∧ 160 ≤ point.y ∧ point.y < 192 then 1 else 0 }

/-- The world of the examples around the tilemap: tiles of 32 by 32, the collider
of 32 by 48 the player is constructed with, `SetWorldTile` replacing the tile
at the point given, and nothing to overlap. -/
def exampleEnv : Player.Env :=
  { ids := exampleIds
    tile_size := ⟨32, 32⟩
    collider_size := ⟨32, 48⟩
    SetWorldTile := fun tilemap point id =>
      { tilemap with GetWorldTile := fun q => if q = point then id else tilemap.GetWorldTile q }
    overlap := fun _ => none }

/-- A player standing right of the dirt tile of `exampleTilemap`: the collider is
centred at `(113, 176)`, so its left edge is at `x = 97` and the tile lies
beside its middle, between the top and the bottom probe. -/
def examplePlayer : Player :=
  { velocity_ := ⟨0, -1⟩, is_on_ground_ := false, is_dead_ := false, has_won_ := false,
    local_position := ⟨113, 168⟩, sprite_scale := ⟨2, 2⟩, animator_state := "idle" }

/-- A world of 640 by 640 with tiles of 32 by 32, void but for the second row of
tiles, which is dirt: the tiles covering `32 ≤ y < 64`. -/
def snapTilemap : Tilemap :=
  { IsWithinWorldBounds := fun point =>
      decide (0 ≤ point.x) && decide (point.x < 640) && decide (0 ≤ point.y) &&
        decide (point.y < 640)
    GetWorldTile := fun point => if 32 ≤ point.y ∧ point.y < 64 then 1 else 0 }

/-- A player at rest near the top of `snapTilemap`, not dead: the collider is
centred at `(320, 30)`, so it reaches from `y = 6` to `y = 54`, into the dirt
row. -/
def snapPlayer : Player :=
  { velocity_ := ⟨0, 0⟩, is_on_ground_ := false, is_dead_ := false, has_won_ := false,
    local_position := ⟨320, 22⟩, sprite_scale := ⟨2, 2⟩, animator_state := "idle" }

end game

/-! # Theorems -/

namespace ng

theorem RegistryCall.run_append (s : Scene) (calls : List RegistryCall) (c : RegistryCall) :
    RegistryCall.run s (calls ++ [c]) = RegistryCall.apply (RegistryCall.run s calls) c := by
  simp [RegistryCall.run, List.foldl_append]

theorem RegistryCall.lastNaming_append (n : NodePtr) (calls : List RegistryCall)
    (c : RegistryCall) :
    RegistryCall.lastNaming n (calls ++ [c]) =
      if c.names n then some c else RegistryCall.lastNaming n calls := by
  simp [RegistryCall.lastNaming, List.find?_cons]
  split <;> simp_all

theorem Scene.isValid_register (s : Scene) (m n : NodePtr) :
    (s.RegisterNode m).IsValid n = (decide (n = m) || s.IsValid n) := by
  simp [Scene.RegisterNode, Scene.IsValid, Finset.mem_insert]

theorem Scene.isValid_unregister (s : Scene) (m n : NodePtr) :
    (s.UnregisterNode m).IsValid n = (!decide (n = m) && s.IsValid n) := by
  simp [Scene.UnregisterNode, Scene.IsValid, Finset.mem_erase]

theorem RegistryCall.isValid_run (s : Scene) (n : NodePtr) (calls : List RegistryCall) :
    (RegistryCall.run s calls).IsValid n = RegistryCall.expected (s.IsValid n) n calls := by
  induction calls using List.reverseRecOn with
  | nil => simp [RegistryCall.run, RegistryCall.expected, RegistryCall.lastNaming]
  | append_singleton calls c ih =>
    rw [RegistryCall.run_append]
    unfold RegistryCall.expected at ih ⊢
    rw [RegistryCall.lastNaming_append]
    cases c with
    | register m =>
      by_cases h : m = n
      · subst h
        simp [RegistryCall.apply, RegistryCall.names, Scene.isValid_register]
      · have h2 : ¬ n = m := fun e => h e.symm
        simp [RegistryCall.apply, RegistryCall.names, Scene.isValid_register, h, h2, ih]
    | unregister m =>
      by_cases h : m = n
      · subst h
        simp [RegistryCall.apply, RegistryCall.names, Scene.isValid_unregister]
      · have h2 : ¬ n = m := fun e => h e.symm
        simp [RegistryCall.apply, RegistryCall.names, Scene.isValid_unregister, h, h2, ih]
    | query m =>
      simp [RegistryCall.apply, RegistryCall.names, ih]

/-- C1: for every scene `s`, node `n` and sequence of `RegisterNode` /
`UnregisterNode` calls (with `IsValid` queries interleaved at will),
`IsValid(n)` afterwards is `true` exactly when the most recent call naming `n`
was `RegisterNode(n)`; when no call names `n` it is what it was before, which
is `false` in a newly constructed scene. A call naming another node `m ≠ n`
leaves `IsValid(n)` as it is, and an `IsValid` query leaves the registry as it
is. -/
theorem C1_isValid_iff_last_call_registers (s : Scene) (n : NodePtr)
    (calls : List RegistryCall) (rootAddr : NodePtr) :
    ((RegistryCall.run s calls).IsValid n = RegistryCall.expected (s.IsValid n) n calls)
    ∧ ((RegistryCall.run (Scene.new rootAddr) calls).IsValid n = true ↔
        ∃ m, RegistryCall.lastNaming n calls = some (RegistryCall.register m))
    ∧ (∀ m, m ≠ n → (s.RegisterNode m).IsValid n = s.IsValid n
        ∧ (s.UnregisterNode m).IsValid n = s.IsValid n)
    ∧ (∀ m, (RegistryCall.apply s (RegistryCall.query m)).scene_nodes_ = s.scene_nodes_) := by
  refine ⟨RegistryCall.isValid_run s n calls, ?_, ?_, ?_⟩
  · rw [RegistryCall.isValid_run]
    unfold RegistryCall.expected
    cases h : RegistryCall.lastNaming n calls with
    | none => simp [Scene.new, Scene.IsValid]
    | some c => cases c <;> simp
  · intro m hm
    have h2 : ¬ n = m := fun e => hm e.symm
    simp [Scene.isValid_register, Scene.isValid_unregister, h2]
  · intro m
    rfl

/-! ### The resource caches -/

theorem Path.equal_iff (p q : Path) : Path.equal p q = true ↔ p.elements = q.elements := by
  simp [Path.equal]

theorem Path.equal_refl (p : Path) : Path.equal p p = true := by
  simp [Path.equal]

theorem Path.equal_congr (e p q : Path) (h : Path.equal p q = true) :
    Path.equal e p = Path.equal e q := by
  have hpq := (Path.equal_iff p q).mp h
  simp [Path.equal, hpq]

theorem Path.equal_congr_left (p q e : Path) (h : Path.equal p q = true) :
    Path.equal p e = Path.equal q e := by
  have hpq := (Path.equal_iff p q).mp h
  simp [Path.equal, hpq]

theorem Cache.contains_congr (m : Cache) (p q : Path) (h : Path.equal p q = true) :
    Cache.contains m p = Cache.contains m q := by
  unfold Cache.contains
  congr 1
  funext e
  exact Path.equal_congr e.1 p q h

theorem Cache.at_congr (m : Cache) (p q : Path) (h : Path.equal p q = true) :
    Cache.at_ m p = Cache.at_ m q := by
  unfold Cache.at_
  congr 2
  funext e
  exact Path.equal_congr e.1 p q h

theorem Cache.contains_append (m : Cache) (k : Path) (e : Path × Resource) :
    Cache.contains (m ++ [e]) k = (Cache.contains m k || Path.equal e.1 k) := by
  simp [Cache.contains, List.any_append]

theorem Cache.at_of_not_contains (m : Cache) (k : Path) (v : Resource)
    (h : Cache.contains m k = false) : Cache.at_ (m ++ [(k, v)]) k = some v := by
  unfold Cache.at_
  induction m with
  | nil => simp [Path.equal_refl]
  | cons e m ih =>
    simp only [Cache.contains, List.any_cons, Bool.or_eq_false_iff] at h
    simp only [List.cons_append, List.find?_cons, h.1]
    exact ih (by simpa [Cache.contains] using h.2)

theorem Cache.entries_of_not_contains (m : Cache) (k : Path)
    (h : Cache.contains m k = false) : Cache.entries m k = 0 := by
  unfold Cache.entries
  rw [List.countP_eq_zero]
  intro e he
  simp only [Cache.contains, List.any_eq_false] at h
  exact h e he

theorem Cache.entries_of_contains (m : Cache) (k : Path) (hwf : Cache.WF m)
    (h : Cache.contains m k = true) : Cache.entries m k = 1 := by
  induction m with
  | nil => simp [Cache.contains] at h
  | cons e m ih =>
    have hnd : (∀ x ∈ m, Path.equal e.1 x.1 = false) ∧ Cache.WF m := by
      simpa [Cache.WF, List.pairwise_cons] using hwf
    by_cases hk : Path.equal e.1 k = true
    · have hm : Cache.contains m k = false := by
        cases hc : Cache.contains m k with
        | false => rfl
        | true =>
          exfalso
          simp only [Cache.contains, List.any_eq_true] at hc
          obtain ⟨x, hx, hxk⟩ := hc
          have h1 := hnd.1 x hx
          have h2 : Path.equal e.1 x.1 = true := by
            have hek := (Path.equal_iff _ _).mp hk
            have hxk2 := (Path.equal_iff _ _).mp hxk
            exact (Path.equal_iff _ _).mpr (hek.trans hxk2.symm)
          rw [h1] at h2
          exact Bool.false_ne_true h2
      have h0 := Cache.entries_of_not_contains m k hm
      unfold Cache.entries at h0 ⊢
      rw [List.countP_cons, h0]; simp [hk]
    · have hm : Cache.contains m k = true := by
        simp only [Cache.contains, List.any_cons, Bool.or_eq_true] at h
        rcases h with h | h
        · exact absurd h hk
        · simpa [Cache.contains] using h
      have h1 := ih hnd.2 hm
      unfold Cache.entries at h1 ⊢
      rw [List.countP_cons, h1]; simpa using hk

theorem Cache.entries_append_new (m : Cache) (k : Path) (v : Resource)
    (h : Cache.contains m k = false) : Cache.entries (m ++ [(k, v)]) k = 1 := by
  have h0 := Cache.entries_of_not_contains m k h
  unfold Cache.entries at h0 ⊢
  simp [List.countP_append, h0, Path.equal_refl]

theorem Cache.wf_append_new (m : Cache) (k : Path) (v : Resource) (hwf : Cache.WF m)
    (h : Cache.contains m k = false) : Cache.WF (m ++ [(k, v)]) := by
  unfold Cache.WF at hwf ⊢
  rw [List.pairwise_append]
  refine ⟨hwf, List.pairwise_singleton _ _, ?_⟩
  intro a ha b hb
  simp only [List.mem_singleton] at hb
  subst hb
  simp only [Cache.contains, List.any_eq_false] at h
  simpa using h a ha

/-- What a successful load leaves behind, for a cache `m` that the call turned
into `m1`: the key is present, mapped to the returned object, under exactly
one entry, and the map invariant holds. -/
theorem Cache.after_load (m : Cache) (key : Path) (r : Resource) (hwf : Cache.WF m)
    (h : (Cache.contains m key = true ∧ Cache.at_ m key = some r)
          ∨ Cache.contains m key = false) :
    Cache.contains (if Cache.contains m key then m else Cache.insert m key r) key = true
    ∧ Cache.at_ (if Cache.contains m key then m else Cache.insert m key r) key = some r
    ∧ Cache.entries (if Cache.contains m key then m else Cache.insert m key r) key = 1
    ∧ Cache.WF (if Cache.contains m key then m else Cache.insert m key r) := by
  rcases h with ⟨hc, ha⟩ | hc
  · have hif : (if Cache.contains m key then m else Cache.insert m key r) = m := by
      simp [hc]
    rw [hif]
    exact ⟨hc, ha, Cache.entries_of_contains m key hwf hc, hwf⟩
  · have hif : (if Cache.contains m key then m else Cache.insert m key r)
        = m ++ [(key, r)] := by
      simp [hc, Cache.insert]
    rw [hif]
    exact ⟨by simp [Cache.contains_append, Path.equal_refl],
      Cache.at_of_not_contains m key r hc, Cache.entries_append_new m key r hc,
      Cache.wf_append_new m key r hwf hc⟩

theorem ResourceManager.loadTexture_first (disk : Disk) (rm rm1 : ResourceManager)
    (w w1 : World) (f : Path) (r : Resource)
    (h : ResourceManager.LoadTexture disk rm w f = (some r, rm1, w1)) :
    rm1 = { rm with textures_ :=
              if Cache.contains rm.textures_ (Path.join ResourceManager.kPrefix_ f)
              then rm.textures_
              else Cache.insert rm.textures_ (Path.join ResourceManager.kPrefix_ f) r }
    ∧ ((Cache.contains rm.textures_ (Path.join ResourceManager.kPrefix_ f) = true
          ∧ Cache.at_ rm.textures_ (Path.join ResourceManager.kPrefix_ f) = some r ∧ w1 = w)
        ∨ (Cache.contains rm.textures_ (Path.join ResourceManager.kPrefix_ f) = false
          ∧ disk.texture (Path.join ResourceManager.kPrefix_ f) = some r.payload
          ∧ r.addr = w.next_addr
          ∧ w1 = { next_addr := w.next_addr + 1,
                   opened := w.opened ++ [Path.join ResourceManager.kPrefix_ f] })) := by
  unfold ResourceManager.LoadTexture at h
  simp only at h
  cases hc : Cache.contains rm.textures_ (Path.join ResourceManager.kPrefix_ f) with
  | true =>
    simp only [hc, Bool.not_true, Bool.false_eq_true, if_false, Prod.mk.injEq] at h
    obtain ⟨h1, h2, h3⟩ := h
    subst h2 h3
    simp [h1]
  | false =>
    simp only [hc, Bool.not_false, if_true, World.makeUnique] at h
    cases hd : disk.texture (Path.join ResourceManager.kPrefix_ f) with
    | none => simp [hd] at h
    | some payload =>
      simp only [hd, Cache.insert, hc, Bool.false_eq_true, if_false, Prod.mk.injEq] at h
      obtain ⟨h1, h2, h3⟩ := h
      rw [Cache.at_of_not_contains _ _ _ hc] at h1
      have hr : r = { addr := w.next_addr, payload := payload } := by
        simpa using h1.symm
      subst hr
      subst h2 h3
      simp [Cache.insert, hc]

theorem ResourceManager.loadSoundBuffer_first (disk : Disk) (rm rm1 : ResourceManager)
    (w w1 : World) (f : Path) (r : Resource)
    (h : ResourceManager.LoadSoundBuffer disk rm w f = (some r, rm1, w1)) :
    rm1 = { rm with sound_buffers_ :=
              if Cache.contains rm.sound_buffers_ (Path.join ResourceManager.kPrefix_ f)
              then rm.sound_buffers_
              else Cache.insert rm.sound_buffers_ (Path.join ResourceManager.kPrefix_ f) r }
    ∧ ((Cache.contains rm.sound_buffers_ (Path.join ResourceManager.kPrefix_ f) = true
          ∧ Cache.at_ rm.sound_buffers_ (Path.join ResourceManager.kPrefix_ f) = some r
          ∧ w1 = w)
        ∨ (Cache.contains rm.sound_buffers_ (Path.join ResourceManager.kPrefix_ f) = false
          ∧ disk.sound_buffer (Path.join ResourceManager.kPrefix_ f) = some r.payload
          ∧ r.addr = w.next_addr
          ∧ w1 = { next_addr := w.next_addr + 1,
                   opened := w.opened ++ [Path.join ResourceManager.kPrefix_ f] })) := by
  unfold ResourceManager.LoadSoundBuffer at h
  simp only at h
  cases hc : Cache.contains rm.sound_buffers_ (Path.join ResourceManager.kPrefix_ f) with
  | true =>
    simp only [hc, Bool.not_true, Bool.false_eq_true, if_false, Prod.mk.injEq] at h
    obtain ⟨h1, h2, h3⟩ := h
    subst h2 h3
    simp [h1]
  | false =>
    simp only [hc, Bool.not_false, if_true, World.makeUnique] at h
    cases hd : disk.sound_buffer (Path.join ResourceManager.kPrefix_ f) with
    | none => simp [hd] at h
    | some payload =>
      simp only [hd, Cache.insert, hc, Bool.false_eq_true, if_false, Prod.mk.injEq] at h
      obtain ⟨h1, h2, h3⟩ := h
      rw [Cache.at_of_not_contains _ _ _ hc] at h1
      have hr : r = { addr := w.next_addr, payload := payload } := by
        simpa using h1.symm
      subst hr
      subst h2 h3
      simp [Cache.insert, hc]

theorem ResourceManager.loadFont_first (disk : Disk) (rm rm1 : ResourceManager)
    (w w1 : World) (f : Path) (r : Resource)
    (h : ResourceManager.LoadFont disk rm w f = (some r, rm1, w1)) :
    rm1 = { rm with fonts_ :=
              if Cache.contains rm.fonts_ (Path.join ResourceManager.kPrefix_ f)
              then rm.fonts_
              else Cache.insert rm.fonts_ (Path.join ResourceManager.kPrefix_ f) r }
    ∧ ((Cache.contains rm.fonts_ (Path.join ResourceManager.kPrefix_ f) = true
          ∧ Cache.at_ rm.fonts_ (Path.join ResourceManager.kPrefix_ f) = some r ∧ w1 = w)
        ∨ (Cache.contains rm.fonts_ (Path.join ResourceManager.kPrefix_ f) = false
          ∧ disk.font (Path.join ResourceManager.kPrefix_ f) = some r.payload
          ∧ r.addr = w.next_addr
          ∧ w1 = { next_addr := w.next_addr + 1,
                   opened := w.opened ++ [Path.join ResourceManager.kPrefix_ f] })) := by
  unfold ResourceManager.LoadFont at h
  simp only at h
  cases hc : Cache.contains rm.fonts_ (Path.join ResourceManager.kPrefix_ f) with
  | true =>
    simp only [hc, Bool.not_true, Bool.false_eq_true, if_false, Prod.mk.injEq] at h
    obtain ⟨h1, h2, h3⟩ := h
    subst h2 h3
    simp [h1]
  | false =>
    simp only [hc, Bool.not_false, if_true, World.makeUnique] at h
    cases hd : disk.font (Path.join ResourceManager.kPrefix_ f) with
    | none => simp [hd] at h
    | some payload =>
      simp only [hd, Cache.insert, hc, Bool.false_eq_true, if_false, Prod.mk.injEq] at h
      obtain ⟨h1, h2, h3⟩ := h
      rw [Cache.at_of_not_contains _ _ _ hc] at h1
      have hr : r = { addr := w.next_addr, payload := payload } := by
        simpa using h1.symm
      subst hr
      subst h2 h3
      simp [Cache.insert, hc]

/-- A load whose key is cached returns the cached object and changes nothing. -/
theorem ResourceManager.load_cached (k : ResourceManager.Kind) (disk : Disk)
    (rm : ResourceManager) (w : World) (g : Path) (r : Resource)
    (hc : Cache.contains (rm.cache k) (Path.join ResourceManager.kPrefix_ g) = true)
    (ha : Cache.at_ (rm.cache k) (Path.join ResourceManager.kPrefix_ g) = some r) :
    ResourceManager.Load k disk rm w g = (some r, rm, w) := by
  cases k <;>
    simp only [ResourceManager.cache] at hc ha <;>
    simp [ResourceManager.Load, ResourceManager.LoadTexture, ResourceManager.LoadSoundBuffer,
      ResourceManager.LoadFont, hc, ha]

/-- What a successful load establishes, for the three loaders at once. -/
theorem ResourceManager.load_first (k : ResourceManager.Kind) (disk : Disk)
    (rm rm1 : ResourceManager) (w w1 : World) (f : Path) (r : Resource) (hwf : rm.WF)
    (h : ResourceManager.Load k disk rm w f = (some r, rm1, w1)) :
    Cache.contains (rm1.cache k) (Path.join ResourceManager.kPrefix_ f) = true
    ∧ Cache.at_ (rm1.cache k) (Path.join ResourceManager.kPrefix_ f) = some r
    ∧ Cache.entries (rm1.cache k) (Path.join ResourceManager.kPrefix_ f) = 1
    ∧ rm1.WF
    ∧ (Cache.contains (rm.cache k) (Path.join ResourceManager.kPrefix_ f) = false →
        disk.decode k (Path.join ResourceManager.kPrefix_ f) = some r.payload
        ∧ r.addr = w.next_addr
        ∧ w1 = { next_addr := w.next_addr + 1,
                 opened := w.opened ++ [Path.join ResourceManager.kPrefix_ f] }) := by
  cases k with
  | texture =>
    obtain ⟨h1, h2⟩ := ResourceManager.loadTexture_first disk rm rm1 w w1 f r h
    have hcase : (Cache.contains rm.textures_ (Path.join ResourceManager.kPrefix_ f) = true
          ∧ Cache.at_ rm.textures_ (Path.join ResourceManager.kPrefix_ f) = some r)
        ∨ Cache.contains rm.textures_ (Path.join ResourceManager.kPrefix_ f) = false := by
      rcases h2 with h2 | h2
      · exact Or.inl ⟨h2.1, h2.2.1⟩
      · exact Or.inr h2.1
    have ha := Cache.after_load rm.textures_ _ r hwf.1 hcase
    subst h1
    refine ⟨ha.1, ha.2.1, ha.2.2.1, ⟨ha.2.2.2, hwf.2.1, hwf.2.2⟩, ?_⟩
    intro hc
    rcases h2 with h2 | h2
    · simp only [ResourceManager.cache] at hc
      rw [hc] at h2
      exact absurd h2.1 Bool.false_ne_true
    · exact h2.2
  | soundBuffer =>
    obtain ⟨h1, h2⟩ := ResourceManager.loadSoundBuffer_first disk rm rm1 w w1 f r h
    have hcase : (Cache.contains rm.sound_buffers_ (Path.join ResourceManager.kPrefix_ f) = true
          ∧ Cache.at_ rm.sound_buffers_ (Path.join ResourceManager.kPrefix_ f) = some r)
        ∨ Cache.contains rm.sound_buffers_ (Path.join ResourceManager.kPrefix_ f) = false := by
      rcases h2 with h2 | h2
      · exact Or.inl ⟨h2.1, h2.2.1⟩
      · exact Or.inr h2.1
    have ha := Cache.after_load rm.sound_buffers_ _ r hwf.2.1 hcase
    subst h1
    refine ⟨ha.1, ha.2.1, ha.2.2.1, ⟨hwf.1, ha.2.2.2, hwf.2.2⟩, ?_⟩
    intro hc
    rcases h2 with h2 | h2
    · simp only [ResourceManager.cache] at hc
      rw [hc] at h2
      exact absurd h2.1 Bool.false_ne_true
    · exact h2.2
  | font =>
    obtain ⟨h1, h2⟩ := ResourceManager.loadFont_first disk rm rm1 w w1 f r h
    have hcase : (Cache.contains rm.fonts_ (Path.join ResourceManager.kPrefix_ f) = true
          ∧ Cache.at_ rm.fonts_ (Path.join ResourceManager.kPrefix_ f) = some r)
        ∨ Cache.contains rm.fonts_ (Path.join ResourceManager.kPrefix_ f) = false := by
      rcases h2 with h2 | h2
      · exact Or.inl ⟨h2.1, h2.2.1⟩
      · exact Or.inr h2.1
    have ha := Cache.after_load rm.fonts_ _ r hwf.2.2 hcase
    subst h1
    refine ⟨ha.1, ha.2.1, ha.2.2.1, ⟨hwf.1, hwf.2.1, ha.2.2.2⟩, ?_⟩
    intro hc
    rcases h2 with h2 | h2
    · simp only [ResourceManager.cache] at hc
      rw [hc] at h2
      exact absurd h2.1 Bool.false_ne_true
    · exact h2.2

theorem ResourceManager.again_of_fixed
    (load : ResourceManager → World → Path → Option Resource × ResourceManager × World)
    (rm : ResourceManager) (w : World) (f : Path) (r : Resource)
    (h : load rm w f = (some r, rm, w)) (n : Nat) :
    ResourceManager.again load f n rm w = (List.replicate n (some r), rm, w) := by
  induction n with
  | zero => rfl
  | succ n ih => simp [ResourceManager.again, h, ih, List.replicate_succ]

theorem Path.join_prefix_of_relative (f : Path) (h : Path.isAbsolute f = false) :
    Path.join ResourceManager.kPrefix_ f = "resources/" ++ f := by
  unfold Path.join
  rw [h]
  rfl

/-- C2: for each of `LoadTexture`, `LoadSoundBuffer` and `LoadFont`, when a
call with filename `f` succeeds and returns the object `r`, a further call with
the same `f` (whatever is on disk by then) returns the very same object `r`
and leaves the manager and the world as they were: no file is opened, nothing
is allocated, nothing is inserted. The same holds for any number `n` of
further calls, and for a further call with any other spelling `g` of the same
path (as `Plant//Bullet.png` for `Plant/Bullet.png`), since the caches are
keyed by path. The cache of that kind holds exactly one entry under the key
`kPrefix_ / f`, which is `"resources/" + f` for a relative filename, and it
still has no two entries with equal keys. When the first call did not find
the file cached, it was a load: the file `kPrefix_ / f` was opened once and
decoded into a newly allocated object, which is `r`. -/
theorem C2_repeated_load_returns_cached_object (k : ResourceManager.Kind)
    (disk disk2 : Disk) (rm rm1 : ResourceManager) (w w1 : World) (f : Path) (r : Resource)
    (n : Nat) (hwf : rm.WF)
    (h : ResourceManager.Load k disk rm w f = (some r, rm1, w1)) :
    ResourceManager.Load k disk2 rm1 w1 f = (some r, rm1, w1)
    ∧ ResourceManager.again (ResourceManager.Load k disk2) f n rm1 w1
        = (List.replicate n (some r), rm1, w1)
    ∧ (∀ g : Path,
        Path.equal (Path.join ResourceManager.kPrefix_ g)
          (Path.join ResourceManager.kPrefix_ f) = true →
        ResourceManager.Load k disk2 rm1 w1 g = (some r, rm1, w1))
    ∧ Cache.entries (rm1.cache k) (Path.join ResourceManager.kPrefix_ f) = 1
    ∧ (Path.isAbsolute f = false →
        Cache.entries (rm1.cache k) ("resources/" ++ f) = 1)
    ∧ rm1.WF
    ∧ (Cache.contains (rm.cache k) (Path.join ResourceManager.kPrefix_ f) = false →
        disk.decode k (Path.join ResourceManager.kPrefix_ f) = some r.payload
        ∧ r.addr = w.next_addr
        ∧ w1 = { next_addr := w.next_addr + 1,
                 opened := w.opened ++ [Path.join ResourceManager.kPrefix_ f] }) := by
  obtain ⟨hc, ha, he, hwf1, hfirst⟩ := ResourceManager.load_first k disk rm rm1 w w1 f r hwf h
  have hsame : ∀ g : Path,
      Path.equal (Path.join ResourceManager.kPrefix_ g)
        (Path.join ResourceManager.kPrefix_ f) = true →
      ResourceManager.Load k disk2 rm1 w1 g = (some r, rm1, w1) := by
    intro g hg
    apply ResourceManager.load_cached
    · rw [Cache.contains_congr _ _ _ hg]; exact hc
    · rw [Cache.at_congr _ _ _ hg]; exact ha
  have hagain := hsame f (Path.equal_refl _)
  refine ⟨hagain, ResourceManager.again_of_fixed _ rm1 w1 f r hagain n, hsame, he, ?_, hwf1,
    hfirst⟩
  intro hrel
  rw [← Path.join_prefix_of_relative f hrel]
  exact he

/-- C2 at concrete inputs, one for each loader: the texture `Plant/Bullet.png`,
the sound `Win_2.wav` and the font `arial.ttf` are each loaded into an empty
manager and requested three more times from a disk that has lost the file;
the texture is also requested under the spelling `Plant//Bullet.png`. -/
theorem C2_repeated_load_returns_cached_object_witness :
    (ResourceManager.Load ResourceManager.Kind.texture exampleDisk ResourceManager.new
        ⟨100, []⟩ "Plant/Bullet.png"
      = (some ⟨100, 2⟩, ⟨[("resources/Plant/Bullet.png", ⟨100, 2⟩)], [], []⟩,
          ⟨101, ["resources/Plant/Bullet.png"]⟩)
    ∧ ResourceManager.again (ResourceManager.Load ResourceManager.Kind.texture emptyDisk)
        "Plant/Bullet.png" 3
        ⟨[("resources/Plant/Bullet.png", ⟨100, 2⟩)], [], []⟩
        ⟨101, ["resources/Plant/Bullet.png"]⟩
      = (List.replicate 3 (some ⟨100, 2⟩),
          ⟨[("resources/Plant/Bullet.png", ⟨100, 2⟩)], [], []⟩,
          ⟨101, ["resources/Plant/Bullet.png"]⟩)
    ∧ ResourceManager.Load ResourceManager.Kind.texture emptyDisk
        ⟨[("resources/Plant/Bullet.png", ⟨100, 2⟩)], [], []⟩
        ⟨101, ["resources/Plant/Bullet.png"]⟩ "Plant//Bullet.png"
      = (some ⟨100, 2⟩, ⟨[("resources/Plant/Bullet.png", ⟨100, 2⟩)], [], []⟩,
          ⟨101, ["resources/Plant/Bullet.png"]⟩))
    ∧ (ResourceManager.Load ResourceManager.Kind.soundBuffer exampleDisk ResourceManager.new
        ⟨100, []⟩ "Win_2.wav"
      = (some ⟨100, 3⟩, ⟨[], [("resources/Win_2.wav", ⟨100, 3⟩)], []⟩,
          ⟨101, ["resources/Win_2.wav"]⟩)
    ∧ ResourceManager.again (ResourceManager.Load ResourceManager.Kind.soundBuffer emptyDisk)
        "Win_2.wav" 3
        ⟨[], [("resources/Win_2.wav", ⟨100, 3⟩)], []⟩ ⟨101, ["resources/Win_2.wav"]⟩
      = (List.replicate 3 (some ⟨100, 3⟩),
          ⟨[], [("resources/Win_2.wav", ⟨100, 3⟩)], []⟩, ⟨101, ["resources/Win_2.wav"]⟩))
    ∧ (ResourceManager.Load ResourceManager.Kind.font exampleDisk ResourceManager.new
        ⟨100, []⟩ "arial.ttf"
      = (some ⟨100, 1⟩, ⟨[], [], [("resources/arial.ttf", ⟨100, 1⟩)]⟩,
          ⟨101, ["resources/arial.ttf"]⟩)
    ∧ ResourceManager.again (ResourceManager.Load ResourceManager.Kind.font emptyDisk)
        "arial.ttf" 3
        ⟨[], [], [("resources/arial.ttf", ⟨100, 1⟩)]⟩ ⟨101, ["resources/arial.ttf"]⟩
      = (List.replicate 3 (some ⟨100, 1⟩),
          ⟨[], [], [("resources/arial.ttf", ⟨100, 1⟩)]⟩, ⟨101, ["resources/arial.ttf"]⟩)) :=
  ⟨⟨by decide,
    (C2_repeated_load_returns_cached_object ResourceManager.Kind.texture exampleDisk emptyDisk
      ResourceManager.new _ ⟨100, []⟩ _ "Plant/Bullet.png" _ 3
      (by simp [ResourceManager.WF, ResourceManager.new, Cache.WF]) (by decide)).2.1,
    (C2_repeated_load_returns_cached_object ResourceManager.Kind.texture exampleDisk emptyDisk
      ResourceManager.new _ ⟨100, []⟩ _ "Plant/Bullet.png" _ 3
      (by simp [ResourceManager.WF, ResourceManager.new, Cache.WF]) (by decide)).2.2.1
      "Plant//Bullet.png" (by decide)⟩,
   ⟨by decide,
    (C2_repeated_load_returns_cached_object ResourceManager.Kind.soundBuffer exampleDisk
      emptyDisk ResourceManager.new _ ⟨100, []⟩ _ "Win_2.wav" _ 3
      (by simp [ResourceManager.WF, ResourceManager.new, Cache.WF]) (by decide)).2.1⟩,
   ⟨by decide,
    (C2_repeated_load_returns_cached_object ResourceManager.Kind.font exampleDisk emptyDisk
      ResourceManager.new _ ⟨100, []⟩ _ "arial.ttf" _ 3
      (by simp [ResourceManager.WF, ResourceManager.new, Cache.WF]) (by decide)).2.1⟩⟩

/-! ### The finite-state machine -/

theorem FSM.find_first_enabled {C : Type} (p : Transition C → Bool)
    (pre rest : List (Transition C)) (t : Transition C)
    (hpre : ∀ u ∈ pre, p u = false) (ht : p t = true) :
    (pre ++ t :: rest).find? p = some t := by
  induction pre with
  | nil => simp [List.find?_cons, ht]
  | cons u pre ih =>
    have hu : p u = false := hpre u (List.mem_cons_self u pre)
    simp only [List.cons_append, List.find?_cons, hu]
    exact ih (fun v hv => hpre v (List.mem_cons_of_mem u hv))

theorem FSM.update_fires_first_enabled {C : Type} (fsm : FSM C) (current next : State C)
    (t : Transition C) (pre rest : List (Transition C))
    (hcur : fsm.findState fsm.current_state_ = some current)
    (hnext : fsm.findState t.to_ = some next)
    (hts : fsm.transitions_ = pre ++ t :: rest)
    (hpre : ∀ u ∈ pre,
      FSM.enabled fsm.current_state_ (current.Update fsm.context_) u = false)
    (ht : FSM.enabled fsm.current_state_ (current.Update fsm.context_) t = true) :
    fsm.Update = some { fsm with
      context_ := next.OnEnter (current.OnExit (current.Update fsm.context_))
      current_state_ := t.to_ } := by
  unfold FSM.Update
  simp only [hcur, hts, FSM.find_first_enabled _ pre rest t hpre ht, hnext]

/-- C3, as stated, fails when another enabled transition out of `A` is
registered in front of `A -> B`: `adbMachine` is in `"A"`, its transition list
holds `A -> B` before `A -> C`, both guards are true, yet one `Update` leaves
it in `"D"`, not in `"B"`, because `A -> D` is registered first and its guard
holds too. -/
theorem C3_earlier_enabled_transition_wins :
    adbMachine.current_state_ = "A"
    ∧ adbMachine.transitions_.map (fun t => (t.from_, t.to_, t.guard adbMachine.context_))
        = [("A", "D", true), ("A", "B", true), ("A", "C", true)]
    ∧ adbMachine.stateAfterUpdate = some "D"
    ∧ adbMachine.stateAfterUpdate ≠ some "B" := by
  decide

/-- C3 (amended): `FSM::Update` is first-match-wins. In every machine whose
current state is `A` (`A` and `B` being registered states) and whose
transition list holds `A -> B` before `A -> C`, both guards true on the context
the scan sees, and no transition out of `A` with a true guard in front of
`A -> B`, one `Update` ends in `B`, and not in `C` unless `C` is `B`. For the
`Plant` animator (`idle -> hit` is registered before `idle -> attack`), an
`Update` in `"idle"` with `is_dead` and `is_attacking` both true ends in
`"hit"`. -/
theorem C3_update_first_match_wins :
    (∀ (C : Type) (fsm : FSM C) (stA stB : State C) (tB tC : Transition C)
        (pre mid post : List (Transition C)),
      fsm.findState fsm.current_state_ = some stA →
      fsm.findState tB.to_ = some stB →
      fsm.transitions_ = pre ++ tB :: (mid ++ tC :: post) →
      (∀ u ∈ pre, FSM.enabled fsm.current_state_ (stA.Update fsm.context_) u = false) →
      tB.from_ = fsm.current_state_ → tC.from_ = fsm.current_state_ →
      tB.guard (stA.Update fsm.context_) = true →
      tC.guard (stA.Update fsm.context_) = true →
      fsm.stateAfterUpdate = some tB.to_
        ∧ (tC.to_ ≠ tB.to_ → fsm.stateAfterUpdate ≠ some tC.to_))
    ∧ (∀ (context_ptr : Nat) (animation_ends : Bool),
        (game.Plant.animator context_ptr ⟨true, true⟩ animation_ends).bind FSM.stateAfterUpdate
          = some "hit") := by
  constructor
  · intro C fsm stA stB tB tC pre mid post hA hB hts hpre hfB _ hgB _
    have ht : FSM.enabled fsm.current_state_ (stA.Update fsm.context_) tB = true := by
      simp [FSM.enabled, hfB, hgB]
    have h : fsm.stateAfterUpdate = some tB.to_ := by
      simp [FSM.stateAfterUpdate,
        FSM.update_fires_first_enabled fsm stA stB tB pre _ hA hB hts hpre ht]
    refine ⟨h, ?_⟩
    intro hne
    rw [h]
    simp only [ne_eq, Option.some.injEq]
    exact fun e => hne e.symm
  · intro context_ptr animation_ends
    cases animation_ends <;> rfl

/-- C3 (amended) at a concrete machine: `abcMachine` in `"A"`, with `A -> B` in
front of `A -> C` and nothing in front of `A -> B`, ends in `"B"`. -/
theorem C3_update_first_match_wins_witness :
    abcMachine.stateAfterUpdate = some "B" :=
  (C3_update_first_match_wins.1 Nat abcMachine
    { State.new "A" with OnExit := fun c => c + 1 }
    { State.new "B" with OnEnter := fun c => c + 10 }
    ⟨"A", "B", fun _ => true⟩ ⟨"A", "C", fun _ => true⟩ [] [] [⟨"B", "C", fun _ => true⟩]
    rfl rfl rfl (by simp) rfl rfl rfl rfl).1

/-- C4, as stated, fails for the `Player` animator: in `"idle"` with
`velocity_ = (4, -15)` and `is_on_ground_` true the guards of `idle -> jump`
and `jump -> idle` both hold, yet one `Update` ends in `"run"`, because
`idle -> run` is registered first and its guard `velocity_.x != 0` holds. -/
theorem C4_player_idle_moving_ends_in_run :
    (game.Player.animator 0 ⟨4, -15, true, false⟩).bind FSM.stateAfterUpdate = some "run"
    ∧ (game.Player.animator 0 ⟨4, -15, true, false⟩).bind FSM.stateAfterUpdate ≠ some "jump" := by
  decide

/-- C4 (amended): a single `FSM::Update` fires at most one transition. In every
machine, when the first enabled transition `A -> B` fires and a transition
`B -> C` exists whose guard holds on the context after the switch, the machine
after that `Update` is the one after exactly the one switch to `B` (one exit
hook, one enter hook), and it is not in `C` unless `C` is `B`. For the `Player`
animator in `"idle"` with `velocity_.x == 0`, `velocity_.y < 0` and
`is_on_ground_` true, one `Update` ends in `"jump"`. -/
theorem C4_update_fires_at_most_one_transition :
    (∀ (C : Type) (fsm : FSM C) (stA stB : State C) (tAB tBC : Transition C)
        (pre rest : List (Transition C)),
      fsm.findState fsm.current_state_ = some stA →
      fsm.findState tAB.to_ = some stB →
      fsm.transitions_ = pre ++ tAB :: rest →
      (∀ u ∈ pre, FSM.enabled fsm.current_state_ (stA.Update fsm.context_) u = false) →
      FSM.enabled fsm.current_state_ (stA.Update fsm.context_) tAB = true →
      tBC ∈ fsm.transitions_ →
      FSM.enabled tAB.to_ (stB.OnEnter (stA.OnExit (stA.Update fsm.context_))) tBC = true →
      fsm.Update = some { fsm with
          context_ := stB.OnEnter (stA.OnExit (stA.Update fsm.context_))
          current_state_ := tAB.to_ }
        ∧ fsm.stateAfterUpdate = some tAB.to_
        ∧ (tBC.to_ ≠ tAB.to_ → fsm.stateAfterUpdate ≠ some tBC.to_))
    ∧ (∀ (context_ptr : Nat) (ctx : game.Player.Context),
        ctx.velocity_x = 0 → ctx.velocity_y < 0 → ctx.is_on_ground_ = true →
        (game.Player.animator context_ptr ctx).bind FSM.stateAfterUpdate = some "jump") := by
  constructor
  · intro C fsm stA stB tAB tBC pre rest hA hB hts hpre ht _ _
    have h := FSM.update_fires_first_enabled fsm stA stB tAB pre rest hA hB hts hpre ht
    refine ⟨h, by simp [FSM.stateAfterUpdate, h], ?_⟩
    intro hne
    simp only [FSM.stateAfterUpdate, h, Option.map_some', ne_eq, Option.some.injEq]
    exact fun e => hne e.symm
  · intro context_ptr ctx hx hy hg
    obtain ⟨vx, vy, g, d⟩ := ctx
    simp only at hx hy hg
    subst hx hg
    simp [game.Player.animator, FSM.new, FSM.AddState, FSM.AddTransition, FSM.findState,
      State.SetContext, State.GetID, game.Player.AnimationState, State.new,
      FSM.stateAfterUpdate, FSM.Update, FSM.enabled, hy]

/-- C4 (amended) at a concrete machine: `abcMachine` in `"A"` fires `A -> B`
only, although the guard of `B -> C` holds: the counter shows one exit and one
enter hook, and the state is `"B"`. -/
theorem C4_update_fires_at_most_one_transition_witness :
    abcMachine.Update = some { abcMachine with context_ := 11, current_state_ := "B" } :=
  (C4_update_fires_at_most_one_transition.1 Nat abcMachine
    { State.new "A" with OnExit := fun c => c + 1 }
    { State.new "B" with OnEnter := fun c => c + 10 }
    ⟨"A", "B", fun _ => true⟩ ⟨"B", "C", fun _ => true⟩ []
    [⟨"A", "C", fun _ => true⟩, ⟨"B", "C", fun _ => true⟩]
    rfl rfl rfl (by simp) rfl (by simp [abcMachine]) rfl).1

/-! ### The application loop: scene swaps -/

theorem App.tickLoop_spec (interval : ℚ) (hT : 0 < interval) :
    ∀ (k fuel : Nat) (accumulated : ℚ) (ticks : Nat), k ≤ fuel →
      (k : ℚ) * interval ≤ accumulated → accumulated < ((k : ℚ) + 1) * interval →
      App.tickLoop interval fuel accumulated ticks
        = some (ticks + k, accumulated - (k : ℚ) * interval) := by
  intro k
  induction k with
  | zero =>
    intro fuel accumulated ticks _ _ hlt
    have hnot : ¬ accumulated ≥ interval := by
      simp only [Nat.cast_zero, zero_add, one_mul] at hlt
      exact not_le.mpr hlt
    cases fuel <;> simp [App.tickLoop, hnot]
  | succ k ih =>
    intro fuel accumulated ticks hfuel hle hlt
    cases fuel with
    | zero => omega
    | succ fuel =>
      push_cast at hle hlt
      have hk : (0 : ℚ) ≤ (k : ℚ) := Nat.cast_nonneg k
      have hge : accumulated ≥ interval := by nlinarith
      have h := ih fuel (accumulated - interval) (ticks + 1) (by omega)
        (by linarith) (by linarith)
      simp only [App.tickLoop, hge, if_true, h]
      congr 2
      · omega
      · push_cast; ring

/-- C6: in one iteration of the loop with tick interval `interval > 0`, carry-over
`carry ≥ 0` and elapsed time `elapsed ≥ 0`, the tick loop ends (any fuel of at
least `floor(A / interval)` rounds is enough, `A = carry + elapsed`), the
number of logic ticks run before the render pass is `floor(A / interval)`, and
the carry-over left is `A - floor(A / interval) * interval`, which is at least
0 and less than `interval`. With `interval = 1/60` s (`tps = 60`), no carry-over
and `3/60` s elapsed, exactly 3 ticks run and nothing is carried over. -/
theorem C6_ticks_before_render (interval carry elapsed : ℚ) (fuel : Nat)
    (hT : 0 < interval) (hc : 0 ≤ carry) (he : 0 ≤ elapsed)
    (hfuel : ⌊(carry + elapsed) / interval⌋₊ ≤ fuel) :
    App.ticksBeforeRender interval fuel carry elapsed
        = some (⌊(carry + elapsed) / interval⌋₊,
            (carry + elapsed) - (⌊(carry + elapsed) / interval⌋₊ : ℚ) * interval)
    ∧ 0 ≤ (carry + elapsed) - (⌊(carry + elapsed) / interval⌋₊ : ℚ) * interval
    ∧ (carry + elapsed) - (⌊(carry + elapsed) / interval⌋₊ : ℚ) * interval < interval
    ∧ App.ticksBeforeRender (App.SecondsPerTick 60) 3 0 (3 / 60) = some (3, 0) := by
  have hA : 0 ≤ (carry + elapsed) / interval := div_nonneg (by linarith) hT.le
  have h1 : (⌊(carry + elapsed) / interval⌋₊ : ℚ) * interval ≤ carry + elapsed :=
    (le_div_iff₀ hT).mp (Nat.floor_le hA)
  have h2 : carry + elapsed < ((⌊(carry + elapsed) / interval⌋₊ : ℚ) + 1) * interval :=
    (div_lt_iff₀ hT).mp (Nat.lt_floor_add_one _)
  refine ⟨?_, by linarith, by linarith, ?_⟩
  · unfold App.ticksBeforeRender
    rw [App.tickLoop_spec interval hT _ fuel (carry + elapsed) 0 hfuel h1 h2]
    simp
  · norm_num [App.ticksBeforeRender, App.tickLoop, App.SecondsPerTick]

/-- C6 at a concrete input, in nanoseconds: at 60 ticks per second the interval
is 16666666 ns; with 2 ns carried over and 50000000 ns elapsed, 3 ticks run and
4 ns are carried over. -/
theorem C6_ticks_before_render_witness :
    App.ticksBeforeRender (App.NanosecondsPerTick 60) 3 2 50000000 = some (3, 4) := by
  have hi : ((App.NanosecondsPerTick 60 : Nat) : ℚ) = 16666666 := by
    norm_num [App.NanosecondsPerTick]
  have hf : ⌊((2 : ℚ) + 50000000) / ((App.NanosecondsPerTick 60 : Nat) : ℚ)⌋₊ = 3 := by
    rw [hi, Nat.floor_eq_iff (by norm_num)]
    norm_num
  have h := (C6_ticks_before_render (App.NanosecondsPerTick 60) 2 50000000 3
    (by rw [hi]; norm_num) (by norm_num) (by norm_num) (by rw [hf])).1
  rw [hf, hi] at h
  rw [hi, h]
  norm_num

/-! ### The scene tree: deferred destruction -/

mutual
theorem Node.updateOrder_Destroy (m : NodePtr) :
    ∀ t : Node, (Node.Destroy m t).updateOrder = t.updateOrder
  | Node.mk a n l p cs => by
    simp [Node.Destroy, Node.updateOrder, Node.updateOrderOf_DestroyIn m cs]
theorem Node.updateOrderOf_DestroyIn (m : NodePtr) :
    ∀ cs : List Node, Node.updateOrderOf (Node.DestroyIn m cs) = Node.updateOrderOf cs
  | [] => by simp [Node.DestroyIn]
  | c :: cs => by
    simp [Node.DestroyIn, Node.updateOrderOf, Node.updateOrder_Destroy m c,
      Node.updateOrderOf_DestroyIn m cs]
end

mutual
theorem Node.Destroy_idem (m : NodePtr) :
    ∀ t : Node, Node.Destroy m (Node.Destroy m t) = Node.Destroy m t
  | Node.mk a n l p cs => by
    simp [Node.Destroy, Node.DestroyIn_idem m cs, Bool.or_assoc]
theorem Node.DestroyIn_idem (m : NodePtr) :
    ∀ cs : List Node, Node.DestroyIn m (Node.DestroyIn m cs) = Node.DestroyIn m cs
  | [] => by simp [Node.DestroyIn]
  | c :: cs => by
    simp [Node.DestroyIn, Node.Destroy_idem m c, Node.DestroyIn_idem m cs]
end

mutual
theorem Node.subtree_Destroy (n m : NodePtr) :
    ∀ t : Node, (Node.Destroy m t).subtree n = t.subtree n
  | Node.mk a nm l p cs => by
    simp [Node.Destroy, Node.subtree, Node.updateOrderOf_DestroyIn m cs,
      Node.subtreeIn_DestroyIn n m cs]
theorem Node.subtreeIn_DestroyIn (n m : NodePtr) :
    ∀ cs : List Node, Node.subtreeIn n (Node.DestroyIn m cs) = Node.subtreeIn n cs
  | [] => by simp [Node.DestroyIn]
  | c :: cs => by
    simp [Node.DestroyIn, Node.subtreeIn, Node.subtree_Destroy n m c,
      Node.subtreeIn_DestroyIn n m cs]
end

mutual
theorem Node.markedAt_Destroy_self (n : NodePtr) :
    ∀ t : Node, (Node.Destroy n t).markedAt n = true
  | Node.mk a nm l p cs => by
    simp only [Node.Destroy, Node.markedAt, Node.markedAtIn_DestroyIn_self n cs, Bool.and_true]
    by_cases h : a = n <;> simp [h]
theorem Node.markedAtIn_DestroyIn_self (n : NodePtr) :
    ∀ cs : List Node, Node.markedAtIn n (Node.DestroyIn n cs) = true
  | [] => by simp [Node.DestroyIn, Node.markedAtIn]
  | c :: cs => by
    simp [Node.DestroyIn, Node.markedAtIn, Node.markedAt_Destroy_self n c,
      Node.markedAtIn_DestroyIn_self n cs]
end

mutual
theorem Node.markedAt_Destroy (n m : NodePtr) :
    ∀ t : Node, t.markedAt n = true → (Node.Destroy m t).markedAt n = true
  | Node.mk a nm l p cs => by
    intro h
    simp only [Node.markedAt, Bool.and_eq_true, Bool.or_eq_true] at h
    simp only [Node.Destroy, Node.markedAt, Node.markedAtIn_DestroyIn n m cs h.2,
      Bool.and_true, Bool.or_eq_true]
    rcases h.1 with h1 | h1
    · exact Or.inl h1
    · exact Or.inr (Or.inl h1)
theorem Node.markedAtIn_DestroyIn (n m : NodePtr) :
    ∀ cs : List Node, Node.markedAtIn n cs = true →
      Node.markedAtIn n (Node.DestroyIn m cs) = true
  | [] => by simp [Node.DestroyIn, Node.markedAtIn]
  | c :: cs => by
    intro h
    simp only [Node.markedAtIn, Bool.and_eq_true] at h
    simp [Node.DestroyIn, Node.markedAtIn, Node.markedAt_Destroy n m c h.1,
      Node.markedAtIn_DestroyIn n m cs h.2]
end

theorem Node.updateOrder_foldl_Destroy (calls : List NodePtr) (t : Node) :
    (calls.foldl (fun tree target => Node.Destroy target tree) t).updateOrder
      = t.updateOrder := by
  induction calls generalizing t with
  | nil => rfl
  | cons c calls ih => rw [List.foldl_cons, ih, Node.updateOrder_Destroy]

theorem Node.subtree_foldl_Destroy (n : NodePtr) (calls : List NodePtr) (t : Node) :
    (calls.foldl (fun tree target => Node.Destroy target tree) t).subtree n
      = t.subtree n := by
  induction calls generalizing t with
  | nil => rfl
  | cons c calls ih => rw [List.foldl_cons, ih, Node.subtree_Destroy]

theorem Node.markedAt_foldl_keep (n : NodePtr) (calls : List NodePtr) (t : Node)
    (h : t.markedAt n = true) :
    (calls.foldl (fun tree target => Node.Destroy target tree) t).markedAt n = true := by
  induction calls generalizing t with
  | nil => exact h
  | cons c calls ih =>
    rw [List.foldl_cons]
    exact ih _ (Node.markedAt_Destroy n c t h)

theorem Node.markedAt_foldl (n : NodePtr) (calls : List NodePtr) (t : Node)
    (h : n ∈ calls) :
    (calls.foldl (fun tree target => Node.Destroy target tree) t).markedAt n = true := by
  induction calls generalizing t with
  | nil => simp at h
  | cons c calls ih =>
    rw [List.foldl_cons]
    rcases List.mem_cons.mp h with h1 | h1
    · subst h1
      exact Node.markedAt_foldl_keep n calls _ (Node.markedAt_Destroy_self n t)
    · exact ih _ h1

mutual
theorem Node.updateOrder_eraseDestroyed_subset :
    ∀ (t : Node) (d : NodePtr), d ∈ t.eraseDestroyed.updateOrder → d ∈ t.updateOrder
  | Node.mk a n l p cs, d => by
    intro h
    simp only [Node.eraseDestroyed, Node.updateOrder, List.mem_cons] at h ⊢
    rcases h with h | h
    · exact Or.inl h
    · exact Or.inr (Node.updateOrderOf_eraseDestroyedIn_subset cs d h)
theorem Node.updateOrderOf_eraseDestroyedIn_subset :
    ∀ (cs : List Node) (d : NodePtr),
      d ∈ Node.updateOrderOf (Node.eraseDestroyedIn cs) → d ∈ Node.updateOrderOf cs
  | [], d => by simp [Node.eraseDestroyedIn]
  | c :: cs, d => by
    intro h
    simp only [Node.eraseDestroyedIn] at h
    simp only [Node.updateOrderOf, List.mem_append]
    split at h
    · exact Or.inr (Node.updateOrderOf_eraseDestroyedIn_subset cs d h)
    · simp only [Node.updateOrderOf, List.mem_append] at h
      rcases h with h | h
      · exact Or.inl (Node.updateOrder_eraseDestroyed_subset c d h)
      · exact Or.inr (Node.updateOrderOf_eraseDestroyedIn_subset cs d h)
end

mutual
theorem Node.subtree_subset (n : NodePtr) :
    ∀ (t : Node) (d : NodePtr), d ∈ t.subtree n → d ∈ t.updateOrder
  | Node.mk a nm l p cs, d => by
    intro h
    simp only [Node.subtree] at h
    simp only [Node.updateOrder, List.mem_cons]
    split at h
    · simpa using h
    · exact Or.inr (Node.subtreeIn_subset n cs d h)
theorem Node.subtreeIn_subset (n : NodePtr) :
    ∀ (cs : List Node) (d : NodePtr), d ∈ Node.subtreeIn n cs → d ∈ Node.updateOrderOf cs
  | [], d => by simp [Node.subtreeIn]
  | c :: cs, d => by
    intro h
    simp only [Node.subtreeIn, List.mem_append] at h
    simp only [Node.updateOrderOf, List.mem_append]
    rcases h with h | h
    · exact Or.inl (Node.subtree_subset n c d h)
    · exact Or.inr (Node.subtreeIn_subset n cs d h)
end

mutual
theorem Node.subtree_erased (n : NodePtr) :
    ∀ (t : Node) (d : NodePtr), t.updateOrder.Nodup → t.markedAt n = true →
      t.pending_destroy_ = false → d ∈ t.subtree n → d ∉ t.eraseDestroyed.updateOrder
  | Node.mk a nm l p cs, d => by
    intro hnd hm hp hd
    simp only [Node.pending_destroy_] at hp
    subst hp
    simp only [Node.markedAt, Bool.or_false, Bool.and_eq_true, bne_iff_ne, ne_eq] at hm
    simp only [Node.updateOrder, List.nodup_cons] at hnd
    have hne : ¬ (a == n) = true := by simpa using hm.1
    simp only [Node.subtree, hne, if_false] at hd
    simp only [Node.eraseDestroyed, Node.updateOrder, List.mem_cons, not_or]
    refine ⟨?_, Node.subtreeIn_erased n cs d hnd.2 hm.2 hd⟩
    intro e
    exact hnd.1 (e ▸ Node.subtreeIn_subset n cs d hd)
theorem Node.subtreeIn_erased (n : NodePtr) :
    ∀ (cs : List Node) (d : NodePtr), (Node.updateOrderOf cs).Nodup →
      Node.markedAtIn n cs = true → d ∈ Node.subtreeIn n cs →
      d ∉ Node.updateOrderOf (Node.eraseDestroyedIn cs)
  | [], d => by simp [Node.subtreeIn]
  | c :: cs, d => by
    intro hnd hm hd
    simp only [Node.updateOrderOf, List.nodup_append] at hnd
    obtain ⟨hc, hcs, hdis⟩ := hnd
    simp only [Node.markedAtIn, Bool.and_eq_true] at hm
    simp only [Node.subtreeIn, List.mem_append] at hd
    have hrest : d ∈ Node.subtree n c → d ∉ Node.updateOrderOf (Node.eraseDestroyedIn cs) :=
      fun h1 h2 => hdis (Node.subtree_subset n c d h1)
        (Node.updateOrderOf_eraseDestroyedIn_subset cs d h2)
    simp only [Node.eraseDestroyedIn]
    cases hp : c.pending_destroy_ with
    | true =>
      simp only [if_true]
      rcases hd with h | h
      · exact hrest h
      · exact Node.subtreeIn_erased n cs d hcs hm.2 h
    | false =>
      simp only [Bool.false_eq_true, if_false, Node.updateOrderOf, List.mem_append, not_or]
      rcases hd with h | h
      · exact ⟨Node.subtree_erased n c d hc hm.1 hp h, hrest h⟩
      · refine ⟨?_, Node.subtreeIn_erased n cs d hcs hm.2 h⟩
        intro h2
        exact hdis (Node.updateOrder_eraseDestroyed_subset c d h2) (Node.subtreeIn_subset n cs d h)
end

mutual
theorem Node.marked_erased (n : NodePtr) :
    ∀ (t : Node), t.markedAt n = true → t.pending_destroy_ = false →
      n ∉ t.eraseDestroyed.updateOrder
  | Node.mk a nm l p cs => by
    intro hm hp
    simp only [Node.pending_destroy_] at hp
    subst hp
    simp only [Node.markedAt, Bool.or_false, Bool.and_eq_true, bne_iff_ne, ne_eq] at hm
    simp only [Node.eraseDestroyed, Node.updateOrder, List.mem_cons, not_or]
    exact ⟨fun e => hm.1 e.symm, Node.markedIn_erased n cs hm.2⟩
theorem Node.markedIn_erased (n : NodePtr) :
    ∀ (cs : List Node), Node.markedAtIn n cs = true →
      n ∉ Node.updateOrderOf (Node.eraseDestroyedIn cs)
  | [] => by simp [Node.eraseDestroyedIn, Node.updateOrderOf]
  | c :: cs => by
    intro hm
    simp only [Node.markedAtIn, Bool.and_eq_true] at hm
    simp only [Node.eraseDestroyedIn]
    cases hp : c.pending_destroy_ with
    | true => simpa using Node.markedIn_erased n cs hm.2
    | false =>
      simp only [Bool.false_eq_true, if_false, Node.updateOrderOf, List.mem_append, not_or]
      exact ⟨Node.marked_erased n c hm.1 hp, Node.markedIn_erased n cs hm.2⟩
end

theorem Node.addr_of_updateOrder_eq (t1 t : Node) (h : t1.updateOrder = t.updateOrder) :
    t1.addr = t.addr := by
  cases t1; cases t
  simp only [Node.updateOrder, List.cons.injEq] at h
  exact h.1

theorem Node.traversal_endOfTick_subset (t : Node) (d : NodePtr)
    (h : d ∈ Node.traversal t.endOfTick) : d ∈ t.updateOrder := by
  unfold Node.endOfTick at h
  split at h
  · simp [Node.traversal] at h
  · exact Node.updateOrder_eraseDestroyed_subset t d h

theorem Node.traversal_tick_subset (t : Node) (calls : List NodePtr) (d : NodePtr)
    (h : d ∈ Node.traversal (t.tick calls)) : d ∈ t.updateOrder := by
  have h1 := Node.traversal_endOfTick_subset _ d h
  rwa [Node.updateOrder_foldl_Destroy] at h1

theorem Node.traversal_ticks_subset (callsPerTick : List (List NodePtr)) (o : Option Node)
    (d : NodePtr) (h : d ∈ Node.traversal (Node.ticks o callsPerTick)) :
    d ∈ Node.traversal o := by
  induction callsPerTick generalizing o with
  | nil => exact h
  | cons calls rest ih =>
    have h1 := ih (o.bind (fun t1 => Node.tick t1 calls)) h
    cases o with
    | none => simp [Node.traversal] at h1
    | some t => exact Node.traversal_tick_subset t calls d h1

theorem Node.tick_erases (t : Node) (calls : List NodePtr) (n d : NodePtr)
    (hn : n ∈ calls) (hroot : n ≠ t.addr) (hnd : t.updateOrder.Nodup)
    (hd : d ∈ t.subtree n) : d ∉ Node.traversal (t.tick calls) := by
  have hm := Node.markedAt_foldl n calls t hn
  have hs := Node.subtree_foldl_Destroy n calls t
  have ho := Node.updateOrder_foldl_Destroy calls t
  unfold Node.tick
  generalize calls.foldl (fun tree target => Node.Destroy target tree) t = t1 at hm hs ho
  rw [← hs] at hd
  rw [← ho] at hnd
  rw [← Node.addr_of_updateOrder_eq t1 t ho] at hroot
  obtain ⟨a, nm, l, p, cs⟩ := t1
  simp only [Node.addr] at hroot
  have hne : ¬ (a == n) = true := by simpa using fun e : a = n => hroot e.symm
  simp only [Node.subtree, hne, if_false] at hd
  simp only [Node.markedAt, Bool.and_eq_true] at hm
  simp only [Node.updateOrder, List.nodup_cons] at hnd
  cases p with
  | true => simp [Node.endOfTick, Node.pending_destroy_, Node.traversal]
  | false =>
    simp only [Node.endOfTick, Node.pending_destroy_, Bool.false_eq_true, if_false,
      Node.traversal, Node.eraseDestroyed, Node.updateOrder, List.mem_cons, not_or]
    refine ⟨?_, Node.subtreeIn_erased n cs d hnd.2 hm.2 hd⟩
    intro e
    exact hnd.1 (e ▸ Node.subtreeIn_subset n cs d hd)

theorem Node.tick_erases_self (t : Node) (calls : List NodePtr) (n : NodePtr)
    (hn : n ∈ calls) (hroot : n ≠ t.addr) : n ∉ Node.traversal (t.tick calls) := by
  have hm := Node.markedAt_foldl n calls t hn
  have ho := Node.updateOrder_foldl_Destroy calls t
  unfold Node.tick
  generalize calls.foldl (fun tree target => Node.Destroy target tree) t = t1 at hm ho
  rw [← Node.addr_of_updateOrder_eq t1 t ho] at hroot
  obtain ⟨a, nm, l, p, cs⟩ := t1
  simp only [Node.addr] at hroot
  simp only [Node.markedAt, Bool.and_eq_true] at hm
  cases p with
  | true => simp [Node.endOfTick, Node.pending_destroy_, Node.traversal]
  | false =>
    simp only [Node.endOfTick, Node.pending_destroy_, Bool.false_eq_true, if_false,
      Node.traversal, Node.eraseDestroyed, Node.updateOrder, List.mem_cons, not_or]
    exact ⟨hroot, Node.markedIn_erased n cs hm.2⟩

theorem PlantBullet_update_destroys (b : game.PlantBullet) (ids : game.TileIDs)
    (tilemap : game.Tilemap) (overlap : sf.Vector2f → Option String)
    (halive : b.is_dead_ = false)
    (hout : tilemap.IsWithinWorldBounds b.position = false
      ∨ game.DoesCollide ids b.position tilemap = true) :
    b.Update ids tilemap overlap
      = ({ b with is_dead_ := true }, [game.BulletCall.Destroy b.addr]) := by
  unfold game.PlantBullet.Update
  rcases hout with h | h
  · simp [halive, h]
  · cases hb : tilemap.IsWithinWorldBounds b.position <;> simp [halive, h, hb]

theorem Node.pending_Destroy (m : NodePtr) (t : Node) (h : t.pending_destroy_ = true) :
    (Node.Destroy m t).pending_destroy_ = true := by
  obtain ⟨a, n, l, p, cs⟩ := t
  simp only [Node.pending_destroy_] at h
  simp [Node.Destroy, Node.pending_destroy_, h]

theorem Node.pending_Destroy_self (t : Node) :
    (Node.Destroy t.addr t).pending_destroy_ = true := by
  obtain ⟨a, n, l, p, cs⟩ := t
  simp [Node.Destroy, Node.pending_destroy_, Node.addr]

theorem Node.addr_Destroy (m : NodePtr) (t : Node) : (Node.Destroy m t).addr = t.addr := by
  obtain ⟨a, n, l, p, cs⟩ := t
  simp [Node.Destroy, Node.addr]

theorem Node.pending_foldl_keep (calls : List NodePtr) (t : Node)
    (h : t.pending_destroy_ = true) :
    (calls.foldl (fun tree target => Node.Destroy target tree) t).pending_destroy_ = true := by
  induction calls generalizing t with
  | nil => exact h
  | cons c calls ih =>
    rw [List.foldl_cons]
    exact ih _ (Node.pending_Destroy c t h)

theorem Node.pending_foldl (calls : List NodePtr) (t : Node) (h : t.addr ∈ calls) :
    (calls.foldl (fun tree target => Node.Destroy target tree) t).pending_destroy_ = true := by
  induction calls generalizing t with
  | nil => simp at h
  | cons c calls ih =>
    rw [List.foldl_cons]
    rcases List.mem_cons.mp h with h1 | h1
    · rw [← h1]
      exact Node.pending_foldl_keep calls _ (Node.pending_Destroy_self t)
    · exact ih _ (by rw [Node.addr_Destroy]; exact h1)

/-- A tick in which `Destroy()` is called on the root leaves nothing of the
tree. -/
theorem Node.tick_root (t : Node) (calls : List NodePtr) (h : t.addr ∈ calls) :
    t.tick calls = none := by
  unfold Node.tick Node.endOfTick
  rw [Node.pending_foldl calls t h]
  rfl

theorem Node.ticks_none (callsPerTick : List (List NodePtr)) :
    Node.ticks none callsPerTick = none := by
  induction callsPerTick with
  | nil => rfl
  | cons calls rest ih =>
    unfold Node.ticks at ih ⊢
    rw [List.foldl_cons]
    exact ih

/-- After a tick in which `Destroy()` was called on `n`, no node of the subtree
of `n` is traversed, whether `n` is the root or not. -/
theorem Node.tick_leaves_traversal (t : Node) (calls : List NodePtr)
    (later : List (List NodePtr)) (n d : NodePtr) (hn : n ∈ calls)
    (hd : d = n ∨ (t.updateOrder.Nodup ∧ d ∈ t.subtree n)) :
    d ∉ Node.traversal (Node.ticks (t.tick calls) later) := by
  by_cases hroot : n = t.addr
  · rw [Node.tick_root t calls (hroot ▸ hn), Node.ticks_none]
    simp [Node.traversal]
  · intro h
    have h1 := Node.traversal_ticks_subset later _ d h
    rcases hd with hd | hd
    · subst hd
      exact Node.tick_erases_self t calls d hn hroot h1
    · exact Node.tick_erases t calls n d hn hroot hd.1 hd.2 h1

/-- C7: destruction is deferred and idempotent. Let `Destroy()` be called on the
node `N` (any node, the root included), once or several times, among the calls
of a tick on the tree `t`. Whatever calls have been made so far in that tick,
the nodes linked into the tree and the subtree of `N` are what they were, so
`N` and its subtree are still part of the tree; a second `Destroy()` changes
nothing. The traversal of the next tick does not visit `N`, nor (addresses
being distinct) any node of its subtree, and neither does the traversal of any
later tick, whatever is destroyed in between. For a `PlantBullet` that is out of
bounds or on a solid tile, `Update` returns with `is_dead_` set and exactly one
call, `Destroy()` on itself; a further `Update` does nothing and makes no call;
and the bullet is in no traversal after that tick. -/
theorem C7_destruction_is_deferred (t : Node) (calls : List NodePtr)
    (later : List (List NodePtr)) (N : NodePtr)
    (hN : N ∈ calls) (hnd : t.updateOrder.Nodup) :
    (∀ done : List NodePtr,
        (done.foldl (fun tree target => Node.Destroy target tree) t).updateOrder = t.updateOrder
        ∧ (done.foldl (fun tree target => Node.Destroy target tree) t).subtree N
            = t.subtree N)
    ∧ (∀ tree : Node, Node.Destroy N (Node.Destroy N tree) = Node.Destroy N tree)
    ∧ N ∉ Node.traversal (t.tick calls)
    ∧ N ∉ Node.traversal (Node.ticks (t.tick calls) later)
    ∧ (∀ d ∈ t.subtree N,
        d ∉ Node.traversal (t.tick calls)
        ∧ d ∉ Node.traversal (Node.ticks (t.tick calls) later))
    ∧ (∀ (b : game.PlantBullet) (ids : game.TileIDs) (tilemap tilemap2 : game.Tilemap)
        (overlap overlap2 : sf.Vector2f → Option String) (before after : List NodePtr),
        b.is_dead_ = false →
        (tilemap.IsWithinWorldBounds b.position = false
          ∨ game.DoesCollide ids b.position tilemap = true) →
        b.Update ids tilemap overlap
            = ({ b with is_dead_ := true }, [game.BulletCall.Destroy b.addr])
        ∧ (b.Update ids tilemap overlap).1.Update ids tilemap2 overlap2
            = ((b.Update ids tilemap overlap).1, [])
        ∧ b.addr ∉ Node.traversal (Node.ticks (t.tick (before
              ++ game.PlantBullet.destroyed (b.Update ids tilemap overlap).2
              ++ after)) later)) := by
  refine ⟨fun done => ⟨Node.updateOrder_foldl_Destroy done t,
      Node.subtree_foldl_Destroy N done t⟩,
    Node.Destroy_idem N,
    Node.tick_leaves_traversal t calls [] N N hN (Or.inl rfl),
    Node.tick_leaves_traversal t calls later N N hN (Or.inl rfl), ?_, ?_⟩
  · intro d hd
    exact ⟨Node.tick_leaves_traversal t calls [] N d hN (Or.inr ⟨hnd, hd⟩),
      Node.tick_leaves_traversal t calls later N d hN (Or.inr ⟨hnd, hd⟩)⟩
  · intro b ids tilemap tilemap2 overlap overlap2 before after halive hout
    have hu := PlantBullet_update_destroys b ids tilemap overlap halive hout
    refine ⟨hu, ?_, ?_⟩
    · rw [hu]
      simp [game.PlantBullet.Update]
    · rw [hu]
      exact Node.tick_leaves_traversal t _ later b.addr b.addr
        (by simp [game.PlantBullet.destroyed]) (Or.inl rfl)

/-- C7 at a concrete tree: root 0 with the children 1, 2 (which has the child 3)
and 4. When `Destroy()` is called twice on node 2 during a tick, node 3, in the
subtree of node 2, is in no traversal after the tick, nor one tick later. When
`Destroy()` is called on the root 0, node 4, in the subtree of the root, is in
no traversal after the tick, nor one tick later. -/
theorem C7_destruction_is_deferred_witness :
    ((3 : NodePtr) ∉ Node.traversal (exampleTree.tick [2, 2])
      ∧ (3 : NodePtr) ∉ Node.traversal (Node.ticks (exampleTree.tick [2, 2]) [[1]]))
    ∧ ((4 : NodePtr) ∉ Node.traversal (exampleTree.tick [0])
      ∧ (4 : NodePtr) ∉ Node.traversal (Node.ticks (exampleTree.tick [0]) [[1]])) :=
  ⟨(C7_destruction_is_deferred exampleTree [2, 2] [[1]] 2
      (by decide) (by decide)).2.2.2.2.1 3 (by decide),
    (C7_destruction_is_deferred exampleTree [0] [[1]] 0
      (by decide) (by decide)).2.2.2.2.1 4 (by decide)⟩

/-! ### Colliders -/

theorem distanceSquared_comm (a b : sf.Vector2f) :
    distanceSquared a b = distanceSquared b a := by
  unfold distanceSquared
  ring

/-- C8: for two circle colliders with radii `r1, r2 ≥ 0` whose centres are at
(Euclidean) distance `d`, `Collides` is true exactly when `d ≤ r1 + r2`,
equivalently `d² ≤ (r1 + r2)²`, boundary included. Radii 4 and 4 at distance 8
collide (centres on an axis, or `(0, 0)` and `(4.8, 6.4)`); at distance 8.001
they do not. -/
theorem C8_circles_collide_iff_distance_le_radii (c1 c2 : CircleCollider)
    (h1 : 0 ≤ c1.radius_) (h2 : 0 ≤ c2.radius_) :
    (c1.CollidesCircle c2 = true ↔
      Real.sqrt (((c1.position.x : ℝ) - c2.position.x) ^ 2
          + ((c1.position.y : ℝ) - c2.position.y) ^ 2)
        ≤ (c1.radius_ : ℝ) + c2.radius_)
    ∧ (c1.CollidesCircle c2 = true ↔
      distanceSquared c1.position c2.position ≤ (c1.radius_ + c2.radius_) ^ 2)
    ∧ CircleCollider.CollidesCircle ⟨⟨0, 0⟩, 4⟩ ⟨⟨8, 0⟩, 4⟩ = true
    ∧ CircleCollider.CollidesCircle ⟨⟨0, 0⟩, 4⟩ ⟨⟨24 / 5, 32 / 5⟩, 4⟩ = true
    ∧ CircleCollider.CollidesCircle ⟨⟨0, 0⟩, 4⟩ ⟨⟨8001 / 1000, 0⟩, 4⟩ = false := by
  have key : c1.CollidesCircle c2 = true ↔
      distanceSquared c1.position c2.position ≤ (c1.radius_ + c2.radius_) ^ 2 := by
    simp [CircleCollider.CollidesCircle, CircleCollider.GetRadius]
  refine ⟨?_, key, ?_, ?_, ?_⟩
  · have hr : (0 : ℝ) ≤ (c1.radius_ : ℝ) + c2.radius_ :=
      add_nonneg (by exact_mod_cast h1) (by exact_mod_cast h2)
    rw [key, Real.sqrt_le_iff, ← Rat.cast_le (K := ℝ)]
    unfold distanceSquared
    push_cast
    exact ⟨fun h => ⟨hr, h⟩, fun h => h.2⟩
  · norm_num [CircleCollider.CollidesCircle, CircleCollider.GetRadius, distanceSquared]
  · norm_num [CircleCollider.CollidesCircle, CircleCollider.GetRadius, distanceSquared]
  · norm_num [CircleCollider.CollidesCircle, CircleCollider.GetRadius, distanceSquared]


/-- C8 at a concrete input: radii 4 and 4, centres `(0, 0)` and `(8, 0)`. -/
theorem C8_circles_collide_iff_distance_le_radii_witness :
    CircleCollider.CollidesCircle ⟨⟨0, 0⟩, 4⟩ ⟨⟨8, 0⟩, 4⟩ = true ↔
      distanceSquared (⟨0, 0⟩ : sf.Vector2f) ⟨8, 0⟩ ≤ ((4 : ℚ) + 4) ^ 2 :=
  (C8_circles_collide_iff_distance_le_radii ⟨⟨0, 0⟩, 4⟩ ⟨⟨8, 0⟩, 4⟩
    (by norm_num) (by norm_num)).2.1

/-- C9: `Collides` is symmetric under double dispatch: for every two colliders
`a`, `b`, each a circle or a rectangle anywhere in the world,
`a.Collides(b) == b.Collides(a)`; the circle-vs-rectangle overload of
`CircleCollider` and the rectangle-vs-circle overload of `RectangleCollider`
give the same answer. -/
theorem C9_collides_is_symmetric (a b : Collider) (c : CircleCollider)
    (r : RectangleCollider) :
    a.Collides b = b.Collides a
    ∧ c.CollidesRectangle r = r.CollidesCircle c
    ∧ (Collider.circle c).Collides (Collider.rectangle r)
        = (Collider.rectangle r).Collides (Collider.circle c) := by
  have hcr : ∀ (c : CircleCollider) (r : RectangleCollider),
      c.CollidesRectangle r = r.CollidesCircle c := by
    intro c r
    simp only [CircleCollider.CollidesRectangle, RectangleCollider.CollidesCircle]
    rw [distanceSquared_comm]
  have hcc : ∀ c1 c2 : CircleCollider, c1.CollidesCircle c2 = c2.CollidesCircle c1 := by
    intro c1 c2
    simp only [CircleCollider.CollidesCircle]
    rw [distanceSquared_comm, add_comm]
  have hrr : ∀ r1 r2 : RectangleCollider,
      r1.CollidesRectangle r2 = r2.CollidesRectangle r1 := by
    intro r1 r2
    simp only [RectangleCollider.CollidesRectangle]
    cases decide (r1.position.x - r1.size_.x / 2 ≤ r2.position.x + r2.size_.x / 2) <;>
    cases decide (r2.position.x - r2.size_.x / 2 ≤ r1.position.x + r1.size_.x / 2) <;>
    cases decide (r1.position.y - r1.size_.y / 2 ≤ r2.position.y + r2.size_.y / 2) <;>
    cases decide (r2.position.y - r2.size_.y / 2 ≤ r1.position.y + r1.size_.y / 2) <;>
    rfl
  refine ⟨?_, hcr c r, ?_⟩
  · cases a with
    | circle c1 =>
      cases b with
      | circle c2 => exact hcc c2 c1
      | rectangle r2 => exact (hcr c1 r2).symm
    | rectangle r1 =>
      cases b with
      | circle c2 => exact hcr c2 r1
      | rectangle r2 => exact hrr r2 r1
  · exact (hcr c r).symm

/-! ### Scene dispatch -/

theorem Scene.internalDraw_fold (root : NodePtr) (cameras : List Camera)
    (target : RenderTarget) (trace : List SceneEvent) :
    (cameras.foldl
      (fun (state : RenderTarget × List SceneEvent) camera =>
        let target1 := state.1.setView camera.view
        (target1,
          state.2 ++ [SceneEvent.setView camera.view,
            SceneEvent.rootInternalDraw root camera.addr target1.view]))
      (target, trace)).2 = trace ++ expectedDraws root cameras := by
  induction cameras generalizing target trace with
  | nil => simp [expectedDraws]
  | cons camera rest ih =>
    rw [List.foldl_cons, ih]
    simp [expectedDraws, RenderTarget.setView]

theorem expectedDraws_filter_isDraw (root : NodePtr) (cameras : List Camera) :
    (expectedDraws root cameras).filter SceneEvent.isDraw
      = cameras.map (fun camera => SceneEvent.rootInternalDraw root camera.addr camera.view) := by
  induction cameras with
  | nil => rfl
  | cons camera rest ih => simp [expectedDraws, SceneEvent.isDraw, ih]

/-- C10: `Scene::InternalUpdate` calls the update traversal of the root exactly
once per call. `Scene::InternalDraw` adds to the trace, for each camera of the
camera manager in the order of that collection, `setView` with the view of the
camera followed by one draw traversal of the root for that camera, made while
the target has that view: as many draw traversals as cameras, and with no
camera the trace and the render target stay as they were. -/
theorem C10_scene_dispatch_counts (s : Scene) (target : RenderTarget)
    (trace : List SceneEvent) :
    s.InternalUpdate trace = trace ++ [SceneEvent.rootInternalUpdate s.root_.addr]
    ∧ (s.InternalUpdate trace).countP SceneEvent.isUpdate
        = trace.countP SceneEvent.isUpdate + 1
    ∧ (s.InternalDraw target trace).2
        = trace ++ expectedDraws s.root_.addr s.camera_manager_.GetCameras
    ∧ (expectedDraws s.root_.addr s.camera_manager_.GetCameras).filter SceneEvent.isDraw
        = s.camera_manager_.GetCameras.map
            (fun camera => SceneEvent.rootInternalDraw s.root_.addr camera.addr camera.view)
    ∧ (s.InternalDraw target trace).2.countP SceneEvent.isDraw
        = trace.countP SceneEvent.isDraw + s.camera_manager_.GetCameras.length
    ∧ (s.camera_manager_.GetCameras = [] → s.InternalDraw target trace = (target, trace)) := by
  have hd : (s.InternalDraw target trace).2
      = trace ++ expectedDraws s.root_.addr s.camera_manager_.GetCameras :=
    Scene.internalDraw_fold s.root_.addr s.camera_manager_.GetCameras target trace
  refine ⟨rfl, ?_, hd, expectedDraws_filter_isDraw _ _, ?_, ?_⟩
  · simp [Scene.InternalUpdate, List.countP_append, SceneEvent.isUpdate]
  · rw [hd, List.countP_append, List.countP_eq_length_filter (l := expectedDraws _ _),
      expectedDraws_filter_isDraw, List.length_map]
  · intro h
    simp [Scene.InternalDraw, h]

end ng

namespace ng

/-! ### The resource caches: failed loads -/

/-- C11: for each of `LoadTexture`, `LoadSoundBuffer` and `LoadFont`, when the
file `kPrefix_ / f` is not cached (no entry has a key equal to it as a path)
and does not load (the SFML constructor throws), the call returns no object
(the exception leaves the function, no placeholder is made) and the manager
afterwards is the manager before: the cache of that kind holds no entry for
the file and the other two caches are untouched. Nothing is allocated; the one
file was opened. -/
theorem C11_failed_load_leaves_caches (k : ResourceManager.Kind) (disk : Disk)
    (rm : ResourceManager) (w : World) (f : Path)
    (hmiss : Cache.contains (rm.cache k) (Path.join ResourceManager.kPrefix_ f) = false)
    (hfail : disk.decode k (Path.join ResourceManager.kPrefix_ f) = none) :
    (ResourceManager.Load k disk rm w f).1 = none
    ∧ (ResourceManager.Load k disk rm w f).2.1 = rm
    ∧ Cache.entries ((ResourceManager.Load k disk rm w f).2.1.cache k)
        (Path.join ResourceManager.kPrefix_ f) = 0
    ∧ (ResourceManager.Load k disk rm w f).2.1.textures_ = rm.textures_
    ∧ (ResourceManager.Load k disk rm w f).2.1.sound_buffers_ = rm.sound_buffers_
    ∧ (ResourceManager.Load k disk rm w f).2.1.fonts_ = rm.fonts_
    ∧ (ResourceManager.Load k disk rm w f).2.2
        = { w with opened := w.opened ++ [Path.join ResourceManager.kPrefix_ f] } := by
  have key : ResourceManager.Load k disk rm w f
      = (none, rm, { w with opened := w.opened ++ [Path.join ResourceManager.kPrefix_ f] }) := by
    cases k <;>
      simp only [ResourceManager.cache, Disk.decode] at hmiss hfail <;>
      simp [ResourceManager.Load, ResourceManager.LoadTexture, ResourceManager.LoadSoundBuffer,
        ResourceManager.LoadFont, World.makeUnique, hmiss, hfail]
  rw [key]
  exact ⟨rfl, rfl, Cache.entries_of_not_contains _ _ hmiss, rfl, rfl, rfl, rfl⟩

/-- C11 at concrete inputs, one for each loader: a texture, a sound and a font
named `missing` are requested from a manager that holds another resource of
each kind, on a disk without the files. -/
theorem C11_failed_load_leaves_caches_witness :
    ResourceManager.Load ResourceManager.Kind.texture exampleDisk
        ⟨[("resources/Plant/Bullet.png", ⟨100, 2⟩)], [("resources/Win_2.wav", ⟨101, 3⟩)],
          [("resources/arial.ttf", ⟨102, 1⟩)]⟩ ⟨103, []⟩ "missing.png"
      = (none, ⟨[("resources/Plant/Bullet.png", ⟨100, 2⟩)],
          [("resources/Win_2.wav", ⟨101, 3⟩)], [("resources/arial.ttf", ⟨102, 1⟩)]⟩,
          ⟨103, ["resources/missing.png"]⟩)
    ∧ ResourceManager.Load ResourceManager.Kind.soundBuffer exampleDisk
        ⟨[("resources/Plant/Bullet.png", ⟨100, 2⟩)], [("resources/Win_2.wav", ⟨101, 3⟩)],
          [("resources/arial.ttf", ⟨102, 1⟩)]⟩ ⟨103, []⟩ "missing.wav"
      = (none, ⟨[("resources/Plant/Bullet.png", ⟨100, 2⟩)],
          [("resources/Win_2.wav", ⟨101, 3⟩)], [("resources/arial.ttf", ⟨102, 1⟩)]⟩,
          ⟨103, ["resources/missing.wav"]⟩)
    ∧ ResourceManager.Load ResourceManager.Kind.font exampleDisk
        ⟨[("resources/Plant/Bullet.png", ⟨100, 2⟩)], [("resources/Win_2.wav", ⟨101, 3⟩)],
          [("resources/arial.ttf", ⟨102, 1⟩)]⟩ ⟨103, []⟩ "missing.ttf"
      = (none, ⟨[("resources/Plant/Bullet.png", ⟨100, 2⟩)],
          [("resources/Win_2.wav", ⟨101, 3⟩)], [("resources/arial.ttf", ⟨102, 1⟩)]⟩,
          ⟨103, ["resources/missing.ttf"]⟩) := by
  have ht := C11_failed_load_leaves_caches ResourceManager.Kind.texture exampleDisk
    ⟨[("resources/Plant/Bullet.png", ⟨100, 2⟩)], [("resources/Win_2.wav", ⟨101, 3⟩)],
      [("resources/arial.ttf", ⟨102, 1⟩)]⟩ ⟨103, []⟩ "missing.png" (by decide) (by decide)
  have hs := C11_failed_load_leaves_caches ResourceManager.Kind.soundBuffer exampleDisk
    ⟨[("resources/Plant/Bullet.png", ⟨100, 2⟩)], [("resources/Win_2.wav", ⟨101, 3⟩)],
      [("resources/arial.ttf", ⟨102, 1⟩)]⟩ ⟨103, []⟩ "missing.wav" (by decide) (by decide)
  have hf := C11_failed_load_leaves_caches ResourceManager.Kind.font exampleDisk
    ⟨[("resources/Plant/Bullet.png", ⟨100, 2⟩)], [("resources/Win_2.wav", ⟨101, 3⟩)],
      [("resources/arial.ttf", ⟨102, 1⟩)]⟩ ⟨103, []⟩ "missing.ttf" (by decide) (by decide)
  exact ⟨Prod.ext ht.1 (Prod.ext ht.2.1 ht.2.2.2.2.2.2),
    Prod.ext hs.1 (Prod.ext hs.2.1 hs.2.2.2.2.2.2),
    Prod.ext hf.1 (Prod.ext hf.2.1 hf.2.2.2.2.2.2)⟩

end ng

namespace ng

/-! ### States -/

theorem StateCall.run_append_call {C : Type} (st : State C) (calls : List StateCall)
    (call : StateCall) :
    StateCall.run st (calls ++ [call]) = StateCall.apply (StateCall.run st calls) call := by
  simp [StateCall.run, List.foldl_append]

theorem StateCall.getID_run {C : Type} (st : State C) (calls : List StateCall)
    (hmem : ∀ call ∈ calls, call.isMemberCall = true) :
    (StateCall.run st calls).GetID = st.GetID := by
  induction calls using List.reverseRecOn with
  | nil => rfl
  | append_singleton calls call ih =>
    rw [StateCall.run_append_call]
    have ih1 := ih (fun x hx => hmem x (List.mem_append_left _ hx))
    have hc := hmem call (by simp)
    cases call <;>
      first
      | (exfalso; simp [StateCall.isMemberCall] at hc; done)
      | simpa [StateCall.apply, State.SetContext, State.GetID] using ih1

theorem StateCall.getContext_run {C : Type} (st : State C) (calls : List StateCall)
    (hmem : ∀ call ∈ calls, call.isMemberCall = true) :
    (StateCall.run st calls).GetContext
      = (StateCall.lastSet calls).getD st.GetContext := by
  induction calls using List.reverseRecOn with
  | nil => rfl
  | append_singleton calls call ih =>
    rw [StateCall.run_append_call]
    have ih1 := ih (fun x hx => hmem x (List.mem_append_left _ hx))
    have hc := hmem call (by simp)
    unfold StateCall.lastSet at ih1 ⊢
    cases call <;>
      first
      | (exfalso; simp [StateCall.isMemberCall] at hc; done)
      | (simp [StateCall.apply, State.SetContext, State.GetContext, List.findSome?_cons] <;>
          simpa [State.GetContext] using ih1)

/-- C12, as stated, fails: `state.h` defaults the copy and the move operations of
`State`, and `id_` is not `const`. A state constructed with the ID `"idle"`
answers `GetID()` with `"hit"` once a state constructed with `"hit"` has been
assigned to it, also when `SetContext` was called before; and once it has been
moved from it answers with what the move left in `id_`, which is the empty
string where a moved-from `std::string` is empty. -/
theorem C12_assignment_changes_the_id :
    ((State.new "idle" : State Unit).assign (State.new "hit")).GetID = "hit"
    ∧ ((State.new "idle" : State Unit).assign (State.new "hit")).GetID ≠ "idle"
    ∧ (StateCall.run (State.new "idle" : State Unit)
          [StateCall.SetContext (some 1), StateCall.Assign "hit" none]).GetID = "hit"
    ∧ (StateCall.run (State.new "idle" : State Unit) [StateCall.MovedFrom ""]).GetID = ""
    ∧ (StateCall.run (State.new "idle" : State Unit) [StateCall.MovedFrom ""]).GetID
        ≠ "idle" := by
  decide

/-- C12 (amended): for every state constructed with ID `s`, after any sequence
of calls of its member functions (`SetContext`, the getters, the hooks), with
no assignment to the state and no move out of it among them, `GetID()` returns
`s`; `GetContext()` returns null as long as the sequence holds no
`SetContext`, and otherwise the argument of the most recent `SetContext`:
right after `SetContext(c)` it returns exactly `c`, and the ID is what it
was. An assignment from another state replaces both the ID and the context by
those of the other state. -/
theorem C12_state_id_and_context (C : Type) (s : String) (calls : List StateCall)
    (st other : State C) (c : Option Nat)
    (hmem : ∀ call ∈ calls, call.isMemberCall = true) :
    (StateCall.run (State.new s : State C) calls).GetID = s
    ∧ (State.new s : State C).GetContext = none
    ∧ (StateCall.lastSet calls = none →
        (StateCall.run (State.new s : State C) calls).GetContext = none)
    ∧ (StateCall.run (State.new s : State C) (calls ++ [StateCall.SetContext c])).GetContext
        = c
    ∧ (StateCall.run (State.new s : State C) calls).GetContext
        = (StateCall.lastSet calls).getD none
    ∧ (st.SetContext c).GetContext = c
    ∧ (st.SetContext c).GetID = st.GetID
    ∧ (StateCall.run st calls).GetID = st.GetID
    ∧ (st.assign other).GetID = other.GetID
    ∧ (st.assign other).GetContext = other.GetContext := by
  refine ⟨StateCall.getID_run _ calls hmem, rfl, ?_, ?_, StateCall.getContext_run _ calls hmem,
    rfl, rfl, StateCall.getID_run st calls hmem, rfl, rfl⟩
  · intro h
    rw [StateCall.getContext_run _ calls hmem, h]
    rfl
  · rw [StateCall.run_append_call]
    rfl

/-- C12 (amended) at a concrete state: constructed with `"idle"`, then asked
for its ID, given the context at address 7, updated and asked for its
context, the state still answers `GetID()` with `"idle"`, and `GetContext()`
with the address 7. -/
theorem C12_state_id_and_context_witness :
    (StateCall.run (State.new "idle" : State Unit)
        [StateCall.GetID, StateCall.SetContext (some 7), StateCall.Update,
          StateCall.GetContext]).GetID = "idle"
    ∧ (StateCall.run (State.new "idle" : State Unit)
        [StateCall.GetID, StateCall.SetContext (some 7), StateCall.Update,
          StateCall.GetContext]).GetContext = (some 7 : Option Nat) := by
  have h := C12_state_id_and_context Unit "idle"
    [StateCall.GetID, StateCall.SetContext (some 7), StateCall.Update, StateCall.GetContext]
    (State.new "run") (State.new "hit") none (by decide)
  exact ⟨h.1, h.2.2.2.2.1⟩

end ng

namespace game

/-! ### The camera anchor -/

/-- C13: `FollowPlayer` validates before dereferencing. Whenever
`Scene::IsValid(player_)` is false, `Follow` (and so `OnAdd` and `Update`)
returns, whatever is or is not at the address, without reading through
`player_` and with the local position of the parent as it was. In every run of
`Follow` that reads through a pointer, the pointer is `player_` and
`IsValid(player_)` is true. -/
theorem C13_follow_validates_before_dereferencing (fp : FollowPlayer) (scene : ng.Scene)
    (memory : ng.NodePtr → Option sf.Vector2f) (parent_position : sf.Vector2f) :
    (scene.IsValid fp.player_ = false →
      fp.Follow scene memory parent_position = some (parent_position, [])
      ∧ fp.OnAdd scene memory parent_position = some (parent_position, [])
      ∧ fp.Update scene memory parent_position = some (parent_position, []))
    ∧ (∀ (position : sf.Vector2f) (reads : List ng.NodePtr) (a : ng.NodePtr),
        fp.Follow scene memory parent_position = some (position, reads) → a ∈ reads →
        a = fp.player_ ∧ scene.IsValid fp.player_ = true) := by
  constructor
  · intro h
    simp [FollowPlayer.OnAdd, FollowPlayer.Update, FollowPlayer.Follow, h]
  · intro position reads a h ha
    unfold FollowPlayer.Follow at h
    cases hv : scene.IsValid fp.player_ with
    | false =>
      simp only [hv, Bool.not_false, if_true, Option.some.injEq, Prod.mk.injEq] at h
      rw [← h.2] at ha
      simp at ha
    | true =>
      simp only [hv, Bool.not_true, Bool.false_eq_true, if_false] at h
      cases hm : memory fp.player_ with
      | none => simp [hm] at h
      | some player_pos =>
        simp only [hm, Option.some.injEq, Prod.mk.injEq] at h
        rw [← h.2] at ha
        simp only [List.mem_singleton] at ha
        exact ⟨ha, rfl⟩

/-- The clamp of `Follow` on one point, with the bounds evaluated. -/
theorem FollowPlayer.newPos_eq (p : sf.Vector2f) :
    FollowPlayer.newPos p = ⟨min (max p.x 416) 1632, max (min p.y 704) 320⟩ := by
  unfold FollowPlayer.newPos
  norm_num

/-- C17: `FollowPlayer` clamps the camera anchor. For every valid player at the
world position `(px, py)`, `Follow` sets the local position of the parent to
`(min(max(px, 416), 1632), max(min(py, 704), 320))`; the result satisfies
`416 ≤ x ≤ 1632` and `320 ≤ y ≤ 704`, it is `(px, py)` when the player is inside
that box, and clamping twice gives what clamping once gives. -/
theorem C17_follow_clamps_the_anchor (fp : FollowPlayer) (scene : ng.Scene)
    (memory : ng.NodePtr → Option sf.Vector2f) (parent_position : sf.Vector2f) (px py : ℚ)
    (hvalid : scene.IsValid fp.player_ = true)
    (hplayer : memory fp.player_ = some ⟨px, py⟩) :
    fp.Follow scene memory parent_position
        = some (⟨min (max px 416) 1632, max (min py 704) 320⟩, [fp.player_])
    ∧ (416 ≤ (FollowPlayer.newPos ⟨px, py⟩).x ∧ (FollowPlayer.newPos ⟨px, py⟩).x ≤ 1632)
    ∧ (320 ≤ (FollowPlayer.newPos ⟨px, py⟩).y ∧ (FollowPlayer.newPos ⟨px, py⟩).y ≤ 704)
    ∧ (416 ≤ px → px ≤ 1632 → 320 ≤ py → py ≤ 704 →
        FollowPlayer.newPos ⟨px, py⟩ = ⟨px, py⟩)
    ∧ FollowPlayer.newPos (FollowPlayer.newPos ⟨px, py⟩) = FollowPlayer.newPos ⟨px, py⟩ := by
  have hx1 : (416 : ℚ) ≤ min (max px 416) 1632 := le_min (le_max_right _ _) (by norm_num)
  have hx2 : min (max px 416) 1632 ≤ (1632 : ℚ) := min_le_right _ _
  have hy1 : (320 : ℚ) ≤ max (min py 704) 320 := le_max_right _ _
  have hy2 : max (min py 704) 320 ≤ (704 : ℚ) := max_le (min_le_right _ _) (by norm_num)
  have inside : ∀ x y : ℚ, 416 ≤ x → x ≤ 1632 → 320 ≤ y → y ≤ 704 →
      FollowPlayer.newPos ⟨x, y⟩ = ⟨x, y⟩ := by
    intro x y h1 h2 h3 h4
    rw [FollowPlayer.newPos_eq]
    simp only [max_eq_left h1, min_eq_left h2, min_eq_left h4, max_eq_left h3]
  refine ⟨?_, ?_, ?_, inside px py, ?_⟩
  · simp [FollowPlayer.Follow, hvalid, hplayer, FollowPlayer.newPos_eq]
  · rw [FollowPlayer.newPos_eq]; exact ⟨hx1, hx2⟩
  · rw [FollowPlayer.newPos_eq]; exact ⟨hy1, hy2⟩
  · rw [FollowPlayer.newPos_eq ⟨px, py⟩]
    exact inside _ _ hx1 hx2 hy1 hy2

/-- C13 at a concrete input: a newly constructed scene, in which no node is
registered, and a pointer to address 5 with nothing there. -/
theorem C13_follow_validates_before_dereferencing_witness :
    FollowPlayer.Follow ⟨5⟩ (ng.Scene.new 0) (fun _ => none) ⟨7, 9⟩ = some (⟨7, 9⟩, []) :=
  ((C13_follow_validates_before_dereferencing ⟨5⟩ (ng.Scene.new 0) (fun _ => none)
    ⟨7, 9⟩).1 (by decide)).1

/-- C17 at a concrete input: the player of address 5 is registered and stands at
`(100, 1000)`, outside the box on both axes. -/
theorem C17_follow_clamps_the_anchor_witness :
    FollowPlayer.Follow ⟨5⟩ ((ng.Scene.new 0).RegisterNode 5)
        (fun a => if a = 5 then some ⟨100, 1000⟩ else none) ⟨7, 9⟩
      = some (⟨min (max 100 416) 1632, max (min 1000 704) 320⟩, [5]) :=
  (C17_follow_clamps_the_anchor ⟨5⟩ ((ng.Scene.new 0).RegisterNode 5)
    (fun a => if a = 5 then some ⟨100, 1000⟩ else none) ⟨7, 9⟩ 100 1000
    (by decide) (by simp)).1

end game

namespace game

/-! ### The game manager -/

theorem GameManager.apply_of_decided (gm : GameManager) (v : GameManager.Verdict)
    (h : gm.state_ ≠ GameManager.State.PLAY) : gm.apply v = gm := by
  cases v <;> simp [GameManager.apply, GameManager.Win, GameManager.Lose, h]

theorem GameManager.run_of_decided (verdicts : List GameManager.Verdict) (gm : GameManager)
    (h : gm.state_ ≠ GameManager.State.PLAY) : gm.run verdicts = gm := by
  induction verdicts with
  | nil => rfl
  | cons v rest ih =>
    simp only [GameManager.run, List.foldl_cons] at ih ⊢
    rw [GameManager.apply_of_decided gm v h]
    exact ih

/-- C14: the outcome is decided once. Starting from `state_ == PLAY` (as
`OnAdd` leaves it), after any sequence of `Win()` and `Lose()` calls the state
is `WON` when the first call was `Win` and `LOST` when it was `Lose`, and the
calls made on canvases and sounds are those of that first call alone: one
canvas enabled, one sound played. In `WON` and in `LOST` every `Win()` and
`Lose()` leaves the manager as it is, so at most one of the two canvases is
ever enabled. -/
theorem C14_outcome_is_decided_once (gm : GameManager)
    (verdicts : List GameManager.Verdict) (hplay : gm.state_ = GameManager.State.PLAY) :
    (gm.run verdicts).GetState = GameManager.decided verdicts
    ∧ (gm.run verdicts).calls = gm.calls ++ GameManager.effects verdicts
    ∧ (GameManager.effects verdicts).count GameManager.Call.EnableWinCanvas
        + (GameManager.effects verdicts).count GameManager.Call.EnableLoseCanvas ≤ 1
    ∧ (∀ later : GameManager, later.state_ ≠ GameManager.State.PLAY →
        later.Win = later ∧ later.Lose = later
        ∧ ∀ more : List GameManager.Verdict, later.run more = later)
    ∧ (gm.OnAdd).state_ = GameManager.State.PLAY := by
  refine ⟨?_, ?_, ?_, ?_, rfl⟩
  · cases verdicts with
    | nil => exact hplay
    | cons v rest =>
      simp only [GameManager.run, List.foldl_cons]
      cases v
      · have h : (gm.apply GameManager.Verdict.win).state_ ≠ GameManager.State.PLAY := by
          simp [GameManager.apply, GameManager.Win, hplay]
        have e := GameManager.run_of_decided rest _ h
        simp only [GameManager.run] at e
        rw [e]
        simp [GameManager.apply, GameManager.Win, hplay, GameManager.GetState,
          GameManager.decided]
      · have h : (gm.apply GameManager.Verdict.lose).state_ ≠ GameManager.State.PLAY := by
          simp [GameManager.apply, GameManager.Lose, hplay]
        have e := GameManager.run_of_decided rest _ h
        simp only [GameManager.run] at e
        rw [e]
        simp [GameManager.apply, GameManager.Lose, hplay, GameManager.GetState,
          GameManager.decided]
  · cases verdicts with
    | nil => simp [GameManager.run, GameManager.effects]
    | cons v rest =>
      simp only [GameManager.run, List.foldl_cons]
      cases v
      · have h : (gm.apply GameManager.Verdict.win).state_ ≠ GameManager.State.PLAY := by
          simp [GameManager.apply, GameManager.Win, hplay]
        have e := GameManager.run_of_decided rest _ h
        simp only [GameManager.run] at e
        rw [e]
        simp [GameManager.apply, GameManager.Win, hplay, GameManager.effects]
      · have h : (gm.apply GameManager.Verdict.lose).state_ ≠ GameManager.State.PLAY := by
          simp [GameManager.apply, GameManager.Lose, hplay]
        have e := GameManager.run_of_decided rest _ h
        simp only [GameManager.run] at e
        rw [e]
        simp [GameManager.apply, GameManager.Lose, hplay, GameManager.effects]
  · cases verdicts with
    | nil => decide
    | cons v rest => cases v <;> simp [GameManager.effects]
  · intro later h
    exact ⟨GameManager.apply_of_decided later GameManager.Verdict.win h,
      GameManager.apply_of_decided later GameManager.Verdict.lose h,
      fun more => GameManager.run_of_decided more later h⟩

/-- C14 at a concrete input: after `OnAdd`, the calls `Lose()`, `Win()`, `Win()`,
`Lose()` leave the state `LOST`, with the lose canvas enabled and the lose sound
played once. -/
theorem C14_outcome_is_decided_once_witness :
    (GameManager.run ⟨GameManager.State.PLAY, []⟩
        [GameManager.Verdict.lose, GameManager.Verdict.win, GameManager.Verdict.win,
          GameManager.Verdict.lose])
      = ⟨GameManager.State.LOST,
          [GameManager.Call.EnableLoseCanvas, GameManager.Call.PlayLoseSound]⟩ := by
  have h := C14_outcome_is_decided_once ⟨GameManager.State.PLAY, []⟩
    [GameManager.Verdict.lose, GameManager.Verdict.win, GameManager.Verdict.win,
      GameManager.Verdict.lose] rfl
  have h1 := h.1
  have h2 := h.2.1
  generalize GameManager.run ⟨GameManager.State.PLAY, []⟩
    [GameManager.Verdict.lose, GameManager.Verdict.win, GameManager.Verdict.win,
      GameManager.Verdict.lose] = r at h1 h2
  cases r
  simp only [GameManager.GetState] at h1 h2
  rw [h1, h2]
  rfl

end game

namespace game

/-! ### The plant -/

theorem Plant.update_of_dead (p : Plant) (animation_ends : Bool)
    (overlap : Option OverlapHit) (hdead : p.context_.is_dead = true)
    (hstate : Plant.knownState p.animator_state) :
    ∃ p1 : Plant, p.Update animation_ends overlap = some (p1, [])
      ∧ p1.attack_timer_ = p.attack_timer_
      ∧ p1.context_.is_dead = true
      ∧ (p1.context_.is_attacking = true → p.context_.is_attacking = true)
      ∧ Plant.knownState p1.animator_state := by
  obtain ⟨⟨dead, attacking⟩, timer, state⟩ := p
  simp only at hdead hstate
  subst hdead
  rcases hstate with h | h | h <;> subst h <;> cases attacking <;> cases animation_ends <;>
    exact ⟨_, rfl, rfl, rfl, by first | exact fun _ => rfl | exact fun h => h,
      by simp [Plant.knownState]⟩

theorem Plant.updates_of_dead (inputs : List (Bool × Option OverlapHit)) (p : Plant)
    (hdead : p.context_.is_dead = true) (hstate : Plant.knownState p.animator_state) :
    ∃ p2 : Plant, p.updates inputs = some (p2, [])
      ∧ p2.attack_timer_ = p.attack_timer_ ∧ p2.context_.is_dead = true := by
  induction inputs generalizing p with
  | nil => exact ⟨p, rfl, rfl, hdead⟩
  | cons input rest ih =>
    obtain ⟨p1, h1, ht, hd, _, hs⟩ := Plant.update_of_dead p input.1 input.2 hdead hstate
    obtain ⟨p2, h2, ht2, hd2⟩ := ih p1 hd hs
    exact ⟨p2, by simp [Plant.updates, h1, h2], by rw [ht2, ht], hd2⟩

theorem Plant.update_none_of_unknown (p : Plant) (animation_ends : Bool)
    (overlap : Option OverlapHit) (hstate : ¬ Plant.knownState p.animator_state) :
    p.Update animation_ends overlap = none := by
  obtain ⟨ctx, timer, state⟩ := p
  simp only [Plant.knownState, not_or] at hstate
  obtain ⟨h1, h2, h3⟩ := hstate
  have e1 : ("idle" == state) = false := by simpa using fun e : "idle" = state => h1 e.symm
  have e2 : ("attack" == state) = false := by simpa using fun e : "attack" = state => h2 e.symm
  have e3 : ("hit" == state) = false := by simpa using fun e : "hit" = state => h3 e.symm
  simp [Plant.Update, Plant.currentAnimator, Plant.animator, ng.FSM.new, ng.FSM.AddState,
    ng.FSM.AddTransition, ng.FSM.findState, ng.State.SetContext, ng.State.GetID,
    Plant.IdleState, Plant.AttackState, Plant.HitState, ng.State.new, ng.FSM.Update, e1, e2, e3]

theorem Plant.update_keeps_dead (p p1 : Plant) (animation_ends : Bool)
    (overlap : Option OverlapHit) (calls : List Plant.Call)
    (hdead : p.context_.is_dead = true)
    (h : p.Update animation_ends overlap = some (p1, calls)) :
    p1.context_.is_dead = true := by
  by_cases hs : Plant.knownState p.animator_state
  · obtain ⟨q, hq, _, hd, _, _⟩ := Plant.update_of_dead p animation_ends overlap hdead hs
    rw [hq] at h
    simp only [Option.some.injEq, Prod.mk.injEq] at h
    rw [← h.1]
    exact hd
  · rw [Plant.update_none_of_unknown p animation_ends overlap hs] at h
    simp at h

/-- C15: a dead plant is inert. For every plant with `context_.is_dead` true,
`Plant::Update` runs the animator and returns: `attack_timer_` is what it was,
`is_attacking` is not set (it is true afterwards only if it was before), no
overlap query is issued and `Player::TakeDamage` is not called; the same holds
through any number of updates. `TakeDamage` sets `is_dead`, and neither it nor
`Update` ever resets it. Hence after a stomp (`Plant::TakeDamage`) no later
update of that plant makes any call. -/
theorem C15_dead_plant_is_inert (p : Plant) (animation_ends : Bool)
    (overlap : Option OverlapHit) (inputs : List (Bool × Option OverlapHit))
    (hdead : p.context_.is_dead = true) (hstate : Plant.knownState p.animator_state) :
    (∃ p1 : Plant, p.Update animation_ends overlap = some (p1, [])
      ∧ p1.attack_timer_ = p.attack_timer_
      ∧ p1.context_.is_dead = true
      ∧ (p1.context_.is_attacking = true → p.context_.is_attacking = true))
    ∧ (∃ p2 : Plant, p.updates inputs = some (p2, [])
      ∧ p2.attack_timer_ = p.attack_timer_ ∧ p2.context_.is_dead = true)
    ∧ (∀ q : Plant, q.TakeDamage.GetIsDead = true)
    ∧ (∀ (q q1 : Plant) (ends : Bool) (other : Option OverlapHit) (calls : List Plant.Call),
        q.context_.is_dead = true → q.Update ends other = some (q1, calls) →
        q1.context_.is_dead = true)
    ∧ (∀ q : Plant, Plant.knownState q.animator_state →
        ∃ q2 : Plant, q.TakeDamage.updates inputs = some (q2, [])) := by
  refine ⟨?_, Plant.updates_of_dead inputs p hdead hstate, fun q => rfl, ?_, ?_⟩
  · obtain ⟨p1, h1, h2, h3, h4, _⟩ :=
      Plant.update_of_dead p animation_ends overlap hdead hstate
    exact ⟨p1, h1, h2, h3, h4⟩
  · intro q q1 ends other calls hq h
    exact Plant.update_keeps_dead q q1 ends other calls hq h
  · intro q hq
    obtain ⟨q2, h2, _⟩ := Plant.updates_of_dead inputs q.TakeDamage rfl hq
    exact ⟨q2, h2⟩

/-- C15 at a concrete input: a dead plant in the state `"attack"` with
`attack_timer_ == 0` and the player, moving up, on its collider, updated three
times: no call is made. -/
theorem C15_dead_plant_is_inert_witness :
    ∃ p2 : Plant, Plant.updates ⟨⟨true, true⟩, 0, "attack"⟩
        [(true, some ⟨"Player", -3, false, false⟩), (false, some ⟨"Player", -3, false, false⟩),
          (false, none)] = some (p2, [])
      ∧ p2.attack_timer_ = 0 ∧ p2.context_.is_dead = true :=
  (C15_dead_plant_is_inert ⟨⟨true, true⟩, 0, "attack"⟩ true none
    [(true, some ⟨"Player", -3, false, false⟩), (false, some ⟨"Player", -3, false, false⟩),
      (false, none)] rfl (Or.inr (Or.inl rfl))).2.1

end game

namespace ng

/-! ### Tileset -/

theorem Tileset.getTile_eq_none_iff (ts : Tileset) (id : TileID) :
    ts.GetTile id = none ↔ ts.tiles_.any (fun e => e.1 == id) = false := by
  unfold Tileset.GetTile
  induction ts.tiles_ with
  | nil => simp
  | cons e rest ih =>
    by_cases h : (e.1 == id) = true
    · simp [List.find?_cons, h]
    · have h2 : (e.1 == id) = false := by simpa using h
      simp [List.find?_cons, h2, ih]

theorem Tileset.getTile_addTile (ts : Tileset) (tile : Tile) (id : TileID) :
    (ts.AddTile tile).GetTile id
      = match ts.GetTile id with
        | some first => some first
        | none => if tile.GetID = id then some tile else none := by
  unfold Tileset.AddTile
  cases hany : ts.tiles_.any (fun e => e.1 == tile.GetID) with
  | true =>
    simp only [if_true]
    cases hg : ts.GetTile id with
    | some first => rfl
    | none =>
      have h0 := (Tileset.getTile_eq_none_iff ts id).mp hg
      by_cases hid : tile.GetID = id
      · rw [hid] at hany
        rw [hany] at h0
        exact absurd h0 (by simp)
      · simp [hid]
  | false =>
    simp only [Bool.false_eq_true, if_false, Tileset.GetTile, List.find?_append]
    cases hf : ts.tiles_.find? (fun e => e.1 == id) with
    | some e => simp
    | none =>
      by_cases hid : tile.GetID = id
      · simp [List.find?_cons, hid]
      · simp [List.find?_cons, hid]

theorem Tileset.getTile_addAll (tiles : List Tile) (ts : Tileset) (id : TileID) :
    (ts.addAll tiles).GetTile id
      = match ts.GetTile id with
        | some first => some first
        | none => tiles.find? (fun tile => tile.GetID == id) := by
  induction tiles generalizing ts with
  | nil => simp only [Tileset.addAll, List.foldl_nil, List.find?_nil]; cases ts.GetTile id <;> rfl
  | cons tile rest ih =>
    simp only [Tileset.addAll, List.foldl_cons] at ih ⊢
    rw [ih (ts.AddTile tile), Tileset.getTile_addTile]
    cases hg : ts.GetTile id with
    | some first => rfl
    | none =>
      by_cases hid : tile.GetID = id
      · simp [List.find?_cons, hid]
      · simp [List.find?_cons, hid]

/-- C19: the tileset keeps the first tile per ID. For every tileset and tile
`t`, after `AddTile(t)` `GetTile(t.GetID())` returns the tile that was there
under that ID before, or `t` when there was none; `AddTile` of a tile whose ID
is present leaves the tileset as it is; the tile under any other ID is what it
was. After adding tiles to a new tileset, `GetTile(id)` returns the first of
them with that ID, and for an ID that was never added it fails. -/
theorem C19_tileset_keeps_first_tile (ts : Tileset) (t : Tile) (id : TileID)
    (tiles : List Tile) (tile_size : Nat × Nat) (texture : Nat) :
    ((ts.AddTile t).GetTile t.GetID
        = match ts.GetTile t.GetID with
          | some first => some first
          | none => some t)
    ∧ ((ts.GetTile t.GetID).isSome = true → ts.AddTile t = ts)
    ∧ (id ≠ t.GetID → (ts.AddTile t).GetTile id = ts.GetTile id)
    ∧ ((Tileset.new tile_size texture).addAll tiles).GetTile id
        = tiles.find? (fun tile => tile.GetID == id)
    ∧ ((∀ tile ∈ tiles, tile.GetID ≠ id) →
        ((Tileset.new tile_size texture).addAll tiles).GetTile id = none) := by
  have hall := Tileset.getTile_addAll tiles (Tileset.new tile_size texture) id
  have hnew : (Tileset.new tile_size texture).GetTile id = none := rfl
  rw [hnew] at hall
  refine ⟨?_, ?_, ?_, hall, ?_⟩
  · rw [Tileset.getTile_addTile]
    cases ts.GetTile t.GetID <;> simp
  · intro h
    have hne : ts.GetTile t.GetID ≠ none := by
      intro e
      rw [e] at h
      simp at h
    have hany : ts.tiles_.any (fun e => e.1 == t.GetID) = true := by
      cases hc : ts.tiles_.any (fun e => e.1 == t.GetID) with
      | true => rfl
      | false => exact absurd ((Tileset.getTile_eq_none_iff ts t.GetID).mpr hc) hne
    simp [Tileset.AddTile, hany]
  · intro hid
    rw [Tileset.getTile_addTile]
    have h2 : ¬ t.GetID = id := fun e => hid e.symm
    cases ts.GetTile id <;> simp [h2]
  · intro hnone
    rw [hall, List.find?_eq_none]
    intro tile htile
    simpa using hnone tile htile

/-! ### Scene: root, name and children -/

/-- C20: every newly constructed scene has a root whose layer mask has all 64
bits set (the value `2^64 - 1`, so that `mask AND m == m` for every 64-bit mask
`m`) and whose name is `"SceneRoot"`. `Scene::AddChild` attaches the given
node as the last child of that root and leaves the layer and the name of the
root as they are; with a null node it fails. `SetName` followed by `GetName`
returns the name set, and the name of the root is what it was. -/
theorem C20_scene_root_and_name (rootAddr : NodePtr) (s : Scene) (child : Node)
    (name : String) :
    (Scene.new rootAddr).root_.GetLayer = 2 ^ 64 - 1
    ∧ (∀ m : Nat, m < 2 ^ 64 → (Scene.new rootAddr).root_.GetLayer &&& m = m)
    ∧ (Scene.new rootAddr).root_.GetName = "SceneRoot"
    ∧ (∃ s1 : Scene, s.AddChild (some child) = some s1
        ∧ s1.root_.children_ = s.root_.children_ ++ [child]
        ∧ s1.root_.addr = s.root_.addr
        ∧ s1.root_.GetLayer = s.root_.GetLayer
        ∧ s1.root_.GetName = s.root_.GetName
        ∧ s1.name_ = s.name_ ∧ s1.scene_nodes_ = s.scene_nodes_)
    ∧ s.AddChild none = none
    ∧ (s.SetName name).GetName = name
    ∧ (s.SetName name).root_ = s.root_
    ∧ ((Scene.new rootAddr).SetName name).root_.GetName = "SceneRoot" := by
  refine ⟨rfl, ?_, rfl, ?_, ?_, rfl, rfl, rfl⟩
  · intro m hm
    have h : (Scene.new rootAddr).root_.GetLayer = 2 ^ 64 - 1 := rfl
    rw [h, Nat.land_comm]
    exact Nat.and_pow_two_sub_one_of_lt_two_pow hm
  · obtain ⟨nm, root, cams, nodes⟩ := s
    obtain ⟨a, n, l, p, cs⟩ := root
    exact ⟨_, rfl, rfl, rfl, rfl, rfl, rfl, rfl⟩
  · obtain ⟨nm, root, cams, nodes⟩ := s
    obtain ⟨a, n, l, p, cs⟩ := root
    rfl

end ng

namespace game

/-! ### The player -/

theorem FSM_stateAfterUpdate_some {C : Type} (fsm : ng.FSM C) (current : ng.State C)
    (hcur : fsm.findState fsm.current_state_ = some current)
    (hall : ∀ t ∈ fsm.transitions_, ∃ st, fsm.findState t.to_ = some st) :
    ∃ s, fsm.stateAfterUpdate = some s
      ∧ (s = fsm.current_state_ ∨ ∃ t ∈ fsm.transitions_, s = t.to_) := by
  unfold ng.FSM.stateAfterUpdate ng.FSM.Update
  simp only [hcur]
  cases hf : fsm.transitions_.find? (ng.FSM.enabled fsm.current_state_
      (current.Update fsm.context_)) with
  | none => exact ⟨_, rfl, Or.inl rfl⟩
  | some t =>
    have ht : t ∈ fsm.transitions_ := List.mem_of_find?_eq_some hf
    obtain ⟨st, hst⟩ := hall t ht
    simp only [hst]
    exact ⟨_, rfl, Or.inr ⟨t, ht, rfl⟩⟩

theorem Player.animator_eq (context_ptr : Nat) (ctx : Player.Context) :
    Player.animator context_ptr ctx
      = some ⟨context_ptr, ctx, Player.states context_ptr, Player.transitions, "idle"⟩ :=
  rfl

theorem Player.animator_step (p : Player) (hstate : Player.knownState p.animator_state) :
    ∃ s, p.currentAnimator.bind ng.FSM.stateAfterUpdate = some s ∧ Player.knownState s := by
  obtain ⟨v, g, d, w, pos, sc, state⟩ := p
  simp only at hstate
  simp only [Player.currentAnimator, Player.animator_eq, Option.map_some', Option.some_bind]
  have hknown : ∀ id, Player.knownState id →
      ∃ st, ng.FSM.findState
        (⟨0, ⟨v.x, v.y, g, d⟩, Player.states 0, Player.transitions, state⟩ :
          ng.FSM Player.Context) id = some st := by
    intro id hid
    rcases hid with h | h | h | h | h <;> subst h <;> exact ⟨_, rfl⟩
  obtain ⟨cur, hcur⟩ := hknown state hstate
  have htargets : ∀ t ∈ Player.transitions, Player.knownState t.to_ := by
    intro t ht
    simp only [Player.transitions, List.mem_cons, List.mem_singleton, List.not_mem_nil,
      or_false] at ht
    rcases ht with h | h | h | h | h | h | h | h | h | h | h <;> subst h <;>
      simp [Player.knownState]
  obtain ⟨s, hs, hs2⟩ := FSM_stateAfterUpdate_some
    (⟨0, ⟨v.x, v.y, g, d⟩, Player.states 0, Player.transitions, state⟩ :
      ng.FSM Player.Context) cur hcur
    (fun t ht => hknown t.to_ (htargets t ht))
  refine ⟨s, hs, ?_⟩
  rcases hs2 with h | ⟨t, ht, h⟩
  · rw [h]; exact hstate
  · rw [h]; exact htargets t ht

theorem Player.anyOutside_spec (tilemap : Tilemap) (points : List sf.Vector2f) :
    ((Player.anyOutside tilemap points).1 = true →
        ∃ e ∈ (Player.anyOutside tilemap points).2, e.2 = false)
    ∧ ((Player.anyOutside tilemap points).1 = false →
        (Player.anyOutside tilemap points).2.length = points.length
        ∧ ∀ e ∈ (Player.anyOutside tilemap points).2, e.2 = true) := by
  induction points with
  | nil => simp [Player.anyOutside]
  | cons point rest ih =>
    unfold Player.anyOutside
    cases hw : tilemap.IsWithinWorldBounds point with
    | true =>
      simp only [if_true]
      constructor
      · intro h
        obtain ⟨e, he, h2⟩ := ih.1 h
        exact ⟨e, List.mem_cons_of_mem _ he, h2⟩
      · intro h
        obtain ⟨h1, h2⟩ := ih.2 h
        refine ⟨by simp [h1], ?_⟩
        intro e he
        rcases List.mem_cons.mp he with h3 | h3
        · rw [h3]
        · exact h2 e h3
    | false => simp

/-- After a bounds condition on a running frame: either a point was outside and
the exit is a bounds exit, or all points were inside and the frame runs on. -/
theorem Player.check_spec (position : sf.Vector2f) (count : Nat) (f : Player.Frame)
    (points : List sf.Vector2f) (h : Player.Frame.Running position count f) :
    ((Player.anyOutside f.tilemap points).1 = true →
      Player.Result.Exited position
        (Player.Frame.exit { f with
          bounds_checks := f.bounds_checks ++ (Player.anyOutside f.tilemap points).2 }))
    ∧ ((Player.anyOutside f.tilemap points).1 = false →
      Player.Frame.Running position (count + points.length)
        { f with bounds_checks := f.bounds_checks ++ (Player.anyOutside f.tilemap points).2 }) := by
  obtain ⟨hd, hp, hl, hall, hc⟩ := h
  have hs := Player.anyOutside_spec f.tilemap points
  constructor
  · intro hout
    obtain ⟨e, he, h2⟩ := hs.1 hout
    exact ⟨rfl, hp, ⟨e, List.mem_append_right _ he, h2⟩, hc⟩
  · intro hout
    obtain ⟨h1, h2⟩ := hs.2 hout
    refine ⟨hd, hp, by simp [hl, h1], ?_, hc⟩
    intro e he
    rcases List.mem_append.mp he with h3 | h3
    · exact hall e h3
    · exact h2 e h3

theorem Player.leftStep_spec (env : Player.Env) (position : sf.Vector2f) (count : Nat)
    (f : Player.Frame) (h : Player.Frame.Running position count f) :
    match Player.leftStep env f with
    | Except.error r => Player.Result.Exited position r
    | Except.ok f1 => Player.Frame.Running position (count + 3) f1 := by
  have hs := Player.check_spec position count f
    [Player.top_left f.new_pos f.old_pos (Player.colSize env),
      Player.middle_left f.new_pos f.old_pos (Player.colSize env),
      Player.bottom_left f.new_pos f.old_pos (Player.colSize env)] h
  unfold Player.leftStep
  cases hout : (Player.anyOutside f.tilemap
    [Player.top_left f.new_pos f.old_pos (Player.colSize env),
      Player.middle_left f.new_pos f.old_pos (Player.colSize env),
      Player.bottom_left f.new_pos f.old_pos (Player.colSize env)]).1 with
  | true => simpa [hout] using hs.1 hout
  | false =>
    have h2 := hs.2 hout
    simp only [hout, Bool.false_eq_true, if_false]
    split_ifs
    · exact ⟨h2.1, h2.2.1, h2.2.2.1, h2.2.2.2.1, h2.2.2.2.2⟩
    · exact h2

theorem Player.rightStep_spec (env : Player.Env) (position : sf.Vector2f) (count : Nat)
    (f : Player.Frame) (h : Player.Frame.Running position count f) :
    match Player.rightStep env f with
    | Except.error r => Player.Result.Exited position r
    | Except.ok f1 => Player.Frame.Running position (count + 3) f1 := by
  have hs := Player.check_spec position count f
    [Player.top_right f.new_pos f.old_pos (Player.colSize env),
      Player.middle_right f.new_pos f.old_pos (Player.colSize env),
      Player.bottom_right f.new_pos f.old_pos (Player.colSize env)] h
  unfold Player.rightStep
  cases hout : (Player.anyOutside f.tilemap
    [Player.top_right f.new_pos f.old_pos (Player.colSize env),
      Player.middle_right f.new_pos f.old_pos (Player.colSize env),
      Player.bottom_right f.new_pos f.old_pos (Player.colSize env)]).1 with
  | true => simpa [hout] using hs.1 hout
  | false =>
    have h2 := hs.2 hout
    simp only [hout, Bool.false_eq_true, if_false]
    split_ifs
    · exact ⟨h2.1, h2.2.1, h2.2.2.1, h2.2.2.2.1, h2.2.2.2.2⟩
    · exact h2

theorem Player.breakBlock_spec (env : Player.Env) (position : sf.Vector2f) (count : Nat)
    (f : Player.Frame) (probe : sf.Vector2f) (h : Player.Frame.Running position count f) :
    Player.Frame.Running position count (Player.breakBlock env f probe) := by
  unfold Player.breakBlock
  split
  · obtain ⟨hd, hp, hl, hall, hc⟩ := h
    refine ⟨hd, hp, hl, hall, ?_⟩
    intro c hc2
    rcases List.mem_append.mp hc2 with h3 | h3
    · exact hc c h3
    · simpa using h3
  · exact h

theorem Player.topStep_spec (env : Player.Env) (position : sf.Vector2f) (count : Nat)
    (f : Player.Frame) (h : Player.Frame.Running position count f) :
    match Player.topStep env f with
    | Except.error r => Player.Result.Exited position r
    | Except.ok f1 => Player.Frame.Running position (count + 2) f1 := by
  have hs := Player.check_spec position count f
    [Player.top_left f.new_pos f.new_pos (Player.colSize env),
      Player.top_right f.new_pos f.new_pos (Player.colSize env)] h
  unfold Player.topStep
  cases hout : (Player.anyOutside f.tilemap
    [Player.top_left f.new_pos f.new_pos (Player.colSize env),
      Player.top_right f.new_pos f.new_pos (Player.colSize env)]).1 with
  | true => simpa [hout] using hs.1 hout
  | false =>
    have h2 := hs.2 hout
    simp only [hout, Bool.false_eq_true, if_false]
    split_ifs
    · have h3 := Player.breakBlock_spec env position (count + 2) _
        (Player.top_right f.new_pos f.new_pos (Player.colSize env))
        (Player.breakBlock_spec env position (count + 2) _
          (Player.top_left f.new_pos f.new_pos (Player.colSize env)) h2)
      exact ⟨h3.1, h3.2.1, h3.2.2.1, h3.2.2.2.1, h3.2.2.2.2⟩
    · exact h2

theorem Player.bottomStep_spec (env : Player.Env) (position : sf.Vector2f) (count : Nat)
    (f : Player.Frame) (h : Player.Frame.Running position count f) :
    match Player.bottomStep env f with
    | Except.error r => Player.Result.Exited position r
    | Except.ok f1 => Player.Frame.Running position (count + 2) f1 := by
  have hs := Player.check_spec position count f
    [Player.bottom_left f.new_pos f.new_pos (Player.colSize env),
      Player.bottom_right f.new_pos f.new_pos (Player.colSize env)] h
  unfold Player.bottomStep
  cases hout : (Player.anyOutside f.tilemap
    [Player.bottom_left f.new_pos f.new_pos (Player.colSize env),
      Player.bottom_right f.new_pos f.new_pos (Player.colSize env)]).1 with
  | true => simpa [hout] using hs.1 hout
  | false =>
    have h2 := hs.2 hout
    simp only [hout, Bool.false_eq_true, if_false]
    split_ifs
    · exact ⟨h2.1, h2.2.1, h2.2.2.1, h2.2.2.2.1, h2.2.2.2.2⟩
    · exact ⟨h2.1, h2.2.1, h2.2.2.1, h2.2.2.2.1, h2.2.2.2.2⟩

theorem Player.onlyBlockSounds_filter (calls : List Player.Call)
    (h : Player.onlyBlockSounds calls) :
    calls.filter Player.Call.isSetLocalPosition = [] := by
  rw [List.filter_eq_nil_iff]
  intro c hc
  rw [h c hc]
  simp [Player.Call.isSetLocalPosition]

theorem Player.finish_spec (env : Player.Env) (position : sf.Vector2f) (f : Player.Frame)
    (h : Player.Frame.Running position 10 f) : Player.Result.Moved (Player.finish env f) := by
  obtain ⟨hd, _, hl, hall, hc⟩ := h
  have hf := Player.onlyBlockSounds_filter f.calls hc
  unfold Player.finish
  cases env.overlap f.new_pos with
  | none =>
    exact ⟨hd, hl, hall, by simp [List.filter_append, hf, Player.Call.isSetLocalPosition]⟩
  | some other =>
    simp only []
    split_ifs <;>
      exact ⟨hd, hl, hall, by simp [List.filter_append, hf, Player.Call.isSetLocalPosition]⟩

theorem Player.move_spec (p : Player) (env : Player.Env) (tilemap : Tilemap)
    (halive : p.is_dead_ = false) :
    Player.Result.Exited p.local_position (Player.move p env tilemap)
      ∨ Player.Result.Moved (Player.move p env tilemap) := by
  have h0 : Player.Frame.Running p.local_position 0 (Player.start p tilemap) :=
    ⟨halive, rfl, rfl, by simp [Player.start], by simp [Player.start, Player.onlyBlockSounds]⟩
  unfold Player.move
  have h1 := Player.leftStep_spec env p.local_position 0 _ h0
  cases hs1 : Player.leftStep env (Player.start p tilemap) with
  | error r => rw [hs1] at h1; exact Or.inl h1
  | ok f1 =>
    rw [hs1] at h1
    have h2 := Player.rightStep_spec env p.local_position _ f1 h1
    simp only []
    cases hs2 : Player.rightStep env f1 with
    | error r => rw [hs2] at h2; exact Or.inl h2
    | ok f2 =>
      rw [hs2] at h2
      have h3 := Player.topStep_spec env p.local_position _ f2 h2
      simp only []
      cases hs3 : Player.topStep env f2 with
      | error r => rw [hs3] at h3; exact Or.inl h3
      | ok f3 =>
        rw [hs3] at h3
        have h4 := Player.bottomStep_spec env p.local_position _ f3 h3
        simp only []
        cases hs4 : Player.bottomStep env f3 with
        | error r => rw [hs4] at h4; exact Or.inl h4
        | ok f4 =>
          rw [hs4] at h4
          exact Or.inr (Player.finish_spec env p.local_position f4 h4)

theorem Player.breakBlock_player (env : Player.Env) (f : Player.Frame) (probe : sf.Vector2f) :
    (Player.breakBlock env f probe).player = f.player := by
  unfold Player.breakBlock
  split_ifs <;> rfl

theorem Player.leftStep_state (env : Player.Env) (f : Player.Frame) :
    match Player.leftStep env f with
    | Except.error r => r.player.animator_state = f.player.animator_state
    | Except.ok f1 => f1.player.animator_state = f.player.animator_state := by
  unfold Player.leftStep
  simp only []
  split_ifs <;> rfl

theorem Player.rightStep_state (env : Player.Env) (f : Player.Frame) :
    match Player.rightStep env f with
    | Except.error r => r.player.animator_state = f.player.animator_state
    | Except.ok f1 => f1.player.animator_state = f.player.animator_state := by
  unfold Player.rightStep
  simp only []
  split_ifs <;> rfl

theorem Player.topStep_state (env : Player.Env) (f : Player.Frame) :
    match Player.topStep env f with
    | Except.error r => r.player.animator_state = f.player.animator_state
    | Except.ok f1 => f1.player.animator_state = f.player.animator_state := by
  unfold Player.topStep
  simp only []
  split_ifs
  · rfl
  · simp [Player.breakBlock_player]
  · rfl

theorem Player.bottomStep_state (env : Player.Env) (f : Player.Frame) :
    match Player.bottomStep env f with
    | Except.error r => r.player.animator_state = f.player.animator_state
    | Except.ok f1 => f1.player.animator_state = f.player.animator_state := by
  unfold Player.bottomStep
  simp only []
  split_ifs <;> rfl

theorem Player.finish_state (env : Player.Env) (f : Player.Frame) :
    (Player.finish env f).player.animator_state = f.player.animator_state := by
  unfold Player.finish
  cases env.overlap f.new_pos with
  | none => rfl
  | some other =>
    simp only []
    split_ifs <;> rfl

theorem Player.move_state (p : Player) (env : Player.Env) (tilemap : Tilemap) :
    (Player.move p env tilemap).player.animator_state = p.animator_state := by
  unfold Player.move
  have h1 := Player.leftStep_state env (Player.start p tilemap)
  cases hs1 : Player.leftStep env (Player.start p tilemap) with
  | error r => rw [hs1] at h1; exact h1
  | ok f1 =>
    rw [hs1] at h1
    have h2 := Player.rightStep_state env f1
    simp only []
    cases hs2 : Player.rightStep env f1 with
    | error r => rw [hs2] at h2; exact h2.trans h1
    | ok f2 =>
      rw [hs2] at h2
      have h3 := Player.topStep_state env f2
      simp only []
      cases hs3 : Player.topStep env f2 with
      | error r => rw [hs3] at h3; exact h3.trans (h2.trans h1)
      | ok f3 =>
        rw [hs3] at h3
        have h4 := Player.bottomStep_state env f3
        simp only []
        cases hs4 : Player.bottomStep env f3 with
        | error r => rw [hs4] at h4; exact h4.trans (h3.trans (h2.trans h1))
        | ok f4 =>
          rw [hs4] at h4
          exact (Player.finish_state env f4).trans (h4.trans (h3.trans (h2.trans h1)))

/-- C16 (amended): player death is absorbing. `Player::TakeDamage` sets
`is_dead_` and leaves a dead player as it is; `Player::Update` returns, and on a
dead player it leaves `is_dead_` set and `velocity_`, `is_on_ground_`,
`has_won_`, the local position and the tilemap as they were, asks about no
point and makes no call. On a player that is not dead, whenever
`IsWithinWorldBounds` answers false for a probe point the update ends with
`is_dead_` set, the local position as it was and no `SetLocalPosition` call;
`is_dead_` is set only in this way; and whenever the player is moved, all ten
probe points asked about in that update were inside the world and there is
exactly one `SetLocalPosition` call, to the position the player then has. The
probe points of that position itself are not asked about. -/
theorem C16_player_death_is_absorbing (p : Player) (env : Player.Env)
    (input : Player.Input) (tilemap : Tilemap)
    (hstate : Player.knownState p.animator_state) :
    (∀ q : Player, q.TakeDamage.is_dead_ = true ∧ (q.is_dead_ = true → q.TakeDamage = q))
    ∧ ∃ r : Player.Result, p.Update env input tilemap = some r
      ∧ Player.knownState r.player.animator_state
      ∧ (p.is_dead_ = true →
          r.player.is_dead_ = true ∧ r.player.velocity_ = p.velocity_
          ∧ r.player.is_on_ground_ = p.is_on_ground_ ∧ r.player.has_won_ = p.has_won_
          ∧ r.player.local_position = p.local_position ∧ r.tilemap = tilemap
          ∧ r.calls = [] ∧ r.bounds_checks = [])
      ∧ (p.is_dead_ = false →
          ((∃ e ∈ r.bounds_checks, e.2 = false) →
            r.player.is_dead_ = true ∧ r.player.local_position = p.local_position
            ∧ r.calls.filter Player.Call.isSetLocalPosition = [])
          ∧ (r.player.is_dead_ = true →
            (∃ e ∈ r.bounds_checks, e.2 = false)
            ∧ r.player.local_position = p.local_position
            ∧ r.calls.filter Player.Call.isSetLocalPosition = [])
          ∧ (r.player.is_dead_ = false →
            r.bounds_checks.length = 10 ∧ (∀ e ∈ r.bounds_checks, e.2 = true)
            ∧ r.calls.filter Player.Call.isSetLocalPosition
                = [Player.Call.SetLocalPosition r.player.local_position])) := by
  constructor
  · intro q
    unfold Player.TakeDamage
    cases hq : q.is_dead_ <;> simp [hq]
  · obtain ⟨s, hs, hks⟩ := Player.animator_step p hstate
    unfold Player.Update
    rw [hs]
    by_cases hd : p.is_dead_ = true
    · refine ⟨⟨{ p with animator_state := s }, tilemap, [], []⟩, by simp [hd], hks, ?_, ?_⟩
      · intro _
        exact ⟨hd, rfl, rfl, rfl, rfl, rfl, rfl, rfl⟩
      · intro h
        rw [h] at hd
        exact absurd hd (by simp)
    · have hd2 : p.is_dead_ = false := by simpa using hd
      have halive : (Player.steer { p with animator_state := s } input).is_dead_ = false := hd2
      have hpos : (Player.steer { p with animator_state := s } input).local_position
          = p.local_position := rfl
      have hstate2 : (Player.move (Player.steer { p with animator_state := s } input)
          env tilemap).player.animator_state = s :=
        Player.move_state _ env tilemap
      have hm := Player.move_spec (Player.steer { p with animator_state := s } input) env
        tilemap halive
      rw [hpos] at hm
      refine ⟨Player.move (Player.steer { p with animator_state := s } input) env tilemap,
        by simp [hd2], by rw [hstate2]; exact hks, ?_, ?_⟩
      · intro h
        exact absurd h hd
      · intro _
        rcases hm with ⟨h1, h2, h3, h4⟩ | ⟨h1, h2, h3, h4⟩
        · have hf := Player.onlyBlockSounds_filter _ h4
          refine ⟨fun _ => ⟨h1, h2, hf⟩, fun _ => ⟨h3, h2, hf⟩, ?_⟩
          intro h
          rw [h1] at h
          exact absurd h (by simp)
        · refine ⟨?_, ?_, fun _ => ⟨h2, h3, h4⟩⟩
          · rintro ⟨e, he, hfalse⟩
            rw [h3 e he] at hfalse
            exact absurd hfalse (by simp)
          · intro h
            rw [h1] at h
            exact absurd h (by simp)

end game

namespace game

theorem snapPlayer_animator :
    snapPlayer.currentAnimator.bind ng.FSM.stateAfterUpdate = some "idle" := by
  decide

/-- C16, as stated, fails in its last clause: the position written by
`SetLocalPosition` is the one after the downward snap of lines 309 to 317,
which no bounds check follows. The player of `snapPlayer` (not dead, collider
centred at `(320, 30)`, no key held) falls by 1; all ten points asked about
are inside the world; its bottom probes, at `y = 54.999`, meet the dirt row, so
it is snapped up and moved to the local position `(320, 0)`, and `is_dead_`
is not set. There the collider is centred at `(320, 8)` and its top probes, at
`y = 8 - 23.999 = -15.999`, are outside the world. -/
theorem C16_snap_moves_player_out_of_world :
    (Player.Update snapPlayer exampleEnv ⟨false, false, false⟩ snapTilemap).map
        (fun r => (r.player.is_dead_, r.player.local_position, r.calls,
          r.bounds_checks.map (fun e => e.2)))
      = some (false, ⟨320, 0⟩,
          [Player.Call.SetLocalPosition ⟨320, 0⟩, Player.Call.Overlap],
          [true, true, true, true, true, true, true, true, true, true])
    ∧ Player.top_left ((⟨320, 0⟩ : sf.Vector2f).add ⟨0, 8⟩)
          ((⟨320, 0⟩ : sf.Vector2f).add ⟨0, 8⟩) (Player.colSize exampleEnv)
        = ⟨304001 / 1000, -15999 / 1000⟩
    ∧ snapTilemap.IsWithinWorldBounds
        (Player.top_left ((⟨320, 0⟩ : sf.Vector2f).add ⟨0, 8⟩)
          ((⟨320, 0⟩ : sf.Vector2f).add ⟨0, 8⟩) (Player.colSize exampleEnv)) = false
    ∧ snapTilemap.IsWithinWorldBounds
        (Player.top_right ((⟨320, 0⟩ : sf.Vector2f).add ⟨0, 8⟩)
          ((⟨320, 0⟩ : sf.Vector2f).add ⟨0, 8⟩) (Player.colSize exampleEnv)) = false := by
  refine ⟨?_, ?_, ?_, ?_⟩
  · unfold Player.Update
    rw [snapPlayer_animator]
    norm_num [Player.move, Player.steer, Player.start, Player.leftStep, Player.rightStep,
      Player.topStep, Player.bottomStep, Player.finish, Player.anyOutside, snapPlayer,
      exampleEnv, snapTilemap, exampleIds, Player.colSize, Player.top_left,
      Player.middle_left, Player.bottom_left, Player.top_right, Player.middle_right,
      Player.bottom_right, Player.kEps, sf.Vector2f.add, DoesCollide, Player.Frame.exit]
  · norm_num [Player.top_left, Player.colSize, exampleEnv, Player.kEps, sf.Vector2f.add]
  · norm_num [Player.top_left, Player.colSize, exampleEnv, Player.kEps, sf.Vector2f.add,
      snapTilemap]
  · norm_num [Player.top_right, Player.colSize, exampleEnv, Player.kEps, sf.Vector2f.add,
      snapTilemap]

/-- C16 (amended) at a concrete input: a dead player in the state `"hit"`, with keys held,
is updated: nothing is asked of the tilemap and no call is made. -/
theorem C16_player_death_is_absorbing_witness :
    ∃ r : Player.Result,
      Player.Update { examplePlayer with is_dead_ := true, animator_state := "hit" }
        exampleEnv ⟨true, false, true⟩ exampleTilemap = some r
      ∧ r.calls = [] ∧ r.bounds_checks = []
      ∧ r.player.local_position = ⟨113, 168⟩ :=
  (C16_player_death_is_absorbing
    { examplePlayer with is_dead_ := true, animator_state := "hit" }
    exampleEnv ⟨true, false, true⟩ exampleTilemap
    (Or.inr (Or.inr (Or.inr (Or.inr rfl))))).2.imp
    (fun _ h => ⟨h.1, (h.2.2.1 rfl).2.2.2.2.2.2.1, (h.2.2.1 rfl).2.2.2.2.2.2.2,
      (h.2.2.1 rfl).2.2.2.2.1⟩)

theorem examplePlayer_animator :
    examplePlayer.currentAnimator.bind ng.FSM.stateAfterUpdate = some "jump" := by
  decide

theorem examplePlayer_update :
    (Player.Update examplePlayer exampleEnv ⟨true, false, false⟩ exampleTilemap).map
        (fun r => (r.player.local_position, r.player.is_dead_, r.player.velocity_))
      = some (⟨109, 168⟩, false, ⟨-4, 0⟩) := by
  unfold Player.Update
  rw [examplePlayer_animator]
  norm_num [Player.move, Player.steer, Player.start, Player.leftStep, Player.rightStep,
    Player.topStep, Player.bottomStep, Player.finish, Player.anyOutside, examplePlayer,
    exampleEnv, exampleTilemap, exampleIds, Player.colSize, Player.top_left,
    Player.middle_left, Player.bottom_left, Player.top_right, Player.middle_right,
    Player.bottom_right, Player.kEps, sf.Vector2f.add, DoesCollide, Player.Frame.exit]

/-- C18: what the code does. In `Player::Update` the probes `top_left` and
`bottom_left` have `x = new_pos.x - (half_width - eps)`, and the three left
probes have the `y` values `old_pos.y - (half_height - eps)`, `old_pos.y - eps`
and `old_pos.y + (half_height - eps)`; but `middle_left` has
`x = new_pos.x + (half_width - eps)`: it is the point `middle_right`, on the
right edge, and is on the left edge only if `half_width = eps`. So a player
moving left beside a solid tile that only the middle of its left edge meets
(collider centred at `(113, 176)`, key A held, dirt tile on `64 ≤ x < 96`,
`160 ≤ y < 192`) is not stopped: it is moved to `x = 109`, where the middle of
its left edge, `(93.001, 175.999)`, is inside the solid tile. -/
theorem C18_middle_left_probe_is_on_the_right_edge (new_pos old_pos col_size : sf.Vector2f) :
    Player.top_left new_pos old_pos col_size
        = ⟨new_pos.x - (col_size.x - Player.kEps), old_pos.y - (col_size.y - Player.kEps)⟩
    ∧ Player.bottom_left new_pos old_pos col_size
        = ⟨new_pos.x - (col_size.x - Player.kEps), old_pos.y + (col_size.y - Player.kEps)⟩
    ∧ Player.middle_left new_pos old_pos col_size
        = ⟨new_pos.x + (col_size.x - Player.kEps), old_pos.y - Player.kEps⟩
    ∧ Player.middle_left new_pos old_pos col_size = Player.middle_right new_pos old_pos col_size
    ∧ ((Player.middle_left new_pos old_pos col_size).x
          = new_pos.x - (col_size.x - Player.kEps) ↔ col_size.x = Player.kEps)
    ∧ Player.top_right new_pos old_pos col_size
        = ⟨new_pos.x + (col_size.x - Player.kEps), old_pos.y - (col_size.y - Player.kEps)⟩
    ∧ Player.bottom_right new_pos old_pos col_size
        = ⟨new_pos.x + (col_size.x - Player.kEps), old_pos.y + (col_size.y - Player.kEps)⟩
    ∧ (Player.Update examplePlayer exampleEnv ⟨true, false, false⟩ exampleTilemap).map
          (fun r => (r.player.local_position, r.player.is_dead_, r.player.velocity_))
        = some (⟨109, 168⟩, false, ⟨-4, 0⟩)
    ∧ DoesCollide exampleIds ⟨109 - (16 - Player.kEps), 176 - Player.kEps⟩ exampleTilemap = true
    ∧ DoesCollide exampleIds (Player.middle_left ⟨109, 176⟩ ⟨113, 176⟩ ⟨16, 24⟩)
        exampleTilemap = false := by
  refine ⟨rfl, rfl, ?_, rfl, ?_, rfl, rfl, examplePlayer_update, ?_, ?_⟩
  · simp [Player.middle_left, sub_eq_add_neg]
  · simp only [Player.middle_left]
    constructor
    · intro h
      linarith
    · intro h
      rw [h]
      ring
  · norm_num [DoesCollide, exampleIds, exampleTilemap, Player.kEps]
  · norm_num [DoesCollide, exampleIds, exampleTilemap, Player.kEps, Player.middle_left]

end game
